import Mathlib

/-!
# Evaluation queries of the SQL store

A shallow embedding of `internal/storage/sql/common/evaluation.go`
(`Store.GetEvaluationRules`, `Store.GetEvaluationDistributions`,
`Store.GetEvaluationRollouts`) and proofs about how the joined rows of the
rule query are collapsed into `EvaluationRule`s, how distribution rows are
turned into `EvaluationDistribution`s, and how storage errors are reported.

Conventions of the embedding:

* a Go `error` is an `Option Error`, `none` being `nil`;
* a Go slice is a `Slice`, which tells the nil slice from an empty one;
* a Go pointer `*EvaluationRule` is the position of the object in a heap
  (the list of the objects allocated so far);
* `*sql.Rows` is a `Rows`: the outcome of `Scan` for every iteration in which
  `Next` reported a row, the value of `Err` once `Next` reported false, and the
  value of `Close`.
-/

namespace Flipt

/-! ## Go values -/

/-- A non-nil Go `error` value. -/
structure Error where
  msg : String
deriving DecidableEq, Repr

/-- A Go slice: `null` is the nil slice, `items l` a non-nil slice holding `l`. -/
inductive Slice (α : Type) where
  | null : Slice α
  | items : List α → Slice α
deriving DecidableEq, Repr

namespace Slice

/-- The elements of a slice, in order (none for the nil slice). -/
def toList {α : Type} : Slice α → List α
  | null => []
  | items l => l

/-- Go's `len`. -/
def len {α : Type} (s : Slice α) : Nat := s.toList.length

/-- Go's `append(s, x)`: the result is never the nil slice. -/
def append {α : Type} (s : Slice α) (x : α) : Slice α := items (s.toList ++ [x])

/-- Go's `s == nil`. -/
def isNil {α : Type} : Slice α → Bool
  | null => true
  | items _ => false

end Slice

/-- The type `sql.NullString`. -/
structure NullString where
  String : String
  Valid : Bool
deriving DecidableEq, Repr

/-- The type `sql.NullInt32` (the payload is an `int32`). -/
structure NullInt32 where
  Int32 : Int
  Valid : Bool
deriving DecidableEq, Repr

/-- A Go `float32`, kept as its bit pattern: the store only copies it. -/
structure Float32 where
  bits : Nat
deriving DecidableEq, Repr

/-! ## Storage types used by the evaluation queries -/

/-- The enum `flipt.MatchType`, an `int32`. -/
abbrev MatchType := Int

/-- The enum `flipt.ComparisonType`, an `int32`. -/
abbrev ComparisonType := Int

/-- The struct `storage.EvaluationConstraint`; `Type_` is its field `Type`. -/
structure EvaluationConstraint where
  ID : String
  Type_ : ComparisonType
  Property : String
  Operator : String
  Value : String
deriving DecidableEq, Repr

/-- The struct `storage.EvaluationRule`. -/
structure EvaluationRule where
  ID : String
  NamespaceKey : String
  FlagKey : String
  SegmentKey : String
  SegmentMatchType : MatchType
  Rank : Int
  Constraints : Slice EvaluationConstraint
deriving DecidableEq, Repr

/-- The struct `storage.EvaluationDistribution`. -/
structure EvaluationDistribution where
  ID : String
  RuleID : String
  VariantID : String
  Rollout : Float32
  VariantKey : String
  VariantAttachment : String
deriving DecidableEq, Repr

/-- The struct `storage.EvaluationRollout`; the SQL store never builds one, so
its fields are left out. -/
structure EvaluationRollout where
  NamespaceKey : String
deriving DecidableEq, Repr

/-- The struct `optionalConstraint` of package `common`: the constraint columns
of a left join, each of them nullable; `Type_` is its field `Type`. -/
structure optionalConstraint where
  Id : NullString
  Type_ : NullInt32
  Property : NullString
  Operator : NullString
  Value : NullString
deriving DecidableEq, Repr

/-! ## Queries and result rows -/

/-- A statement assembled with the `squirrel` builder, clause by clause. `Where`
holds the `sq.Eq` conditions of an `sq.And` as (column, argument) pairs. -/
structure Query where
  Select : String
  From : String
  Join : List String
  LeftJoin : List String
  Where : List (String × String)
  OrderBy : List String
  GroupBy : List String
deriving DecidableEq, Repr

/-- A `*sql.Rows` as the store's loops observe it. `scans` has one entry for
every iteration in which `Next` reported a row: what `Scan` stored, or its
error. `Err` is the value of `rows.Err()` once `Next` reported false, `Close`
the value of `rows.Close()`. -/
structure Rows (ρ : Type) where
  scans : List (Except Error ρ)
  Err : Option Error
  Close : Option Error

/-- What `rows.Scan` stores in the destinations of `GetEvaluationRules`: the
six rule columns (into `tempRule`) and the five constraint columns. -/
structure RuleRow where
  ID : String
  NamespaceKey : String
  FlagKey : String
  SegmentKey : String
  SegmentMatchType : MatchType
  Rank : Int
  optionalConstraint : optionalConstraint
deriving DecidableEq, Repr

/-- What `rows.Scan` stores in the destinations of `GetEvaluationDistributions`:
five columns into `d` and the nullable attachment of the variant. -/
structure DistributionRow where
  ID : String
  RuleID : String
  VariantID : String
  Rollout : Float32
  VariantKey : String
  attachment : NullString
deriving DecidableEq, Repr

/-- The SQL store, seen through the two statements of this file: `QueryRules`
is `QueryContext` on the rule statement followed by the scans of its rows,
`QueryDistributions` the same for the distribution statement. -/
structure Store where
  QueryRules : Query → Except Error (Rows RuleRow)
  QueryDistributions : Query → Except Error (Rows DistributionRow)

/-! ## GetEvaluationRules -/

/-- The statement built by `GetEvaluationRules` (lines 17-23). -/
def rulesQuery (namespaceKey flagKey : String) : Query :=
  { Select := "r.id, r.namespace_key, r.flag_key, r.segment_key, s.match_type, r.\"rank\", c.id, c.type, c.property, c.operator, c.value"
    From := "rules r"
    Join := ["segments s ON (r.segment_key = s.\"key\" AND r.namespace_key = s.namespace_key)"]
    LeftJoin := ["constraints c ON (s.\"key\" = c.segment_key AND s.namespace_key = c.namespace_key)"]
    Where := [("r.flag_key", flagKey), ("r.namespace_key", namespaceKey)]
    OrderBy := ["r.\"rank\" ASC"]
    GroupBy := ["r.id, c.id, s.match_type"] }

/-- The `storage.EvaluationConstraint` literal of lines 64-70 and 85-91. -/
def constraintOf (c : optionalConstraint) : EvaluationConstraint :=
  { ID := c.Id.String
    Type_ := c.Type_.Int32
    Property := c.Property.String
    Operator := c.Operator.String
    Value := c.Value.String }

/-- A pointer to an `EvaluationRule`: its position in the heap. -/
abbrev Ptr := Nat

/-- The variables of the loop of `GetEvaluationRules`: the rule objects
allocated so far, the map `uniqueRules` and the slice `rules`, both holding
pointers to those objects. -/
structure RulesState where
  heap : List EvaluationRule
  uniqueRules : String → Option Ptr
  rules : Slice Ptr

/-- The state before the loop (lines 35-38): an empty map and an empty, non-nil
slice. -/
def RulesState.init : RulesState :=
  { heap := []
    uniqueRules := fun _ => none
    rules := Slice.items [] }

/-- The body of the loop of `GetEvaluationRules` after a successful scan
(lines 61-97). -/
def rulesBody (st : RulesState) (row : RuleRow) : RulesState :=
  match st.uniqueRules row.ID with
  | some existingRule =>
    if row.optionalConstraint.Id.Valid then
      { st with
        heap := st.heap.modify
          (fun r => { r with Constraints := r.Constraints.append (constraintOf row.optionalConstraint) })
          existingRule }
    else st
  | none =>
    let newRule : EvaluationRule :=
      { ID := row.ID
        NamespaceKey := row.NamespaceKey
        FlagKey := row.FlagKey
        SegmentKey := row.SegmentKey
        SegmentMatchType := row.SegmentMatchType
        Rank := row.Rank
        Constraints := Slice.null }
    let newRule : EvaluationRule :=
      if row.optionalConstraint.Id.Valid then
        { newRule with Constraints := newRule.Constraints.append (constraintOf row.optionalConstraint) }
      else newRule
    let p : Ptr := st.heap.length
    { heap := st.heap ++ [newRule]
      uniqueRules := fun k => if k = newRule.ID then some p else st.uniqueRules k
      rules := st.rules.append p }

/-- The loop `for rows.Next()` of `GetEvaluationRules` (lines 40-98): the state
it leaves and the scan error that ended it, if any. -/
def rulesLoop (st : RulesState) : List (Except Error RuleRow) → RulesState × Option Error
  | [] => (st, none)
  | Except.error err :: _ => (st, some err)
  | Except.ok row :: rest => rulesLoop (rulesBody st row) rest

/-- The rules a caller reads through the pointers of the returned slice. -/
def RulesState.result (st : RulesState) : Slice EvaluationRule :=
  Slice.items (st.rules.toList.filterMap (fun p => st.heap[p]?))

/-- The method `Store.GetEvaluationRules`. `DefaultNamespace` is the constant
`storage.DefaultNamespace`. The deferred closure of lines 29-33 assigns to the
local variable `err` only; the results are unnamed, so it does not change what
is returned. -/
def GetEvaluationRules (DefaultNamespace : String) (s : Store) (namespaceKey flagKey : String) :
    Slice EvaluationRule × Option Error :=
  let namespaceKey := if namespaceKey = "" then DefaultNamespace else namespaceKey
  match s.QueryRules (rulesQuery namespaceKey flagKey) with
  | Except.error err => (Slice.null, some err)
  | Except.ok rows =>
    match rulesLoop RulesState.init rows.scans with
    | (st, some err) => (st.result, some err)
    | (st, none) =>
      match rows.Err with
      | some err => (st.result, some err)
      | none =>
        match rows.Close with
        | some err => (st.result, some err)
        | none => (st.result, none)

/-! ## GetEvaluationDistributions -/

/-- The statement built by `GetEvaluationDistributions` (lines 112-116). -/
def distributionsQuery (ruleID : String) : Query :=
  { Select := "d.id, d.rule_id, d.variant_id, d.rollout, v.\"key\", v.attachment"
    From := "distributions d"
    Join := ["variants v ON (d.variant_id = v.id)"]
    LeftJoin := []
    Where := [("d.rule_id", ruleID)]
    OrderBy := ["d.created_at ASC"]
    GroupBy := [] }

/-- The loop `for rows.Next()` of `GetEvaluationDistributions` (lines 130-151):
the slice it leaves and the error that ended it, if any. Every iteration
allocates a fresh `d` that is not written again, so the slice holds the values.
`compactJSONString` is the helper of package `common`. -/
def distributionsLoop (compactJSONString : String → Except Error String)
    (distributions : Slice EvaluationDistribution) :
    List (Except Error DistributionRow) → Slice EvaluationDistribution × Option Error
  | [] => (distributions, none)
  | Except.error err :: _ => (distributions, some err)
  | Except.ok row :: rest =>
    let d : EvaluationDistribution :=
      { ID := row.ID
        RuleID := row.RuleID
        VariantID := row.VariantID
        Rollout := row.Rollout
        VariantKey := row.VariantKey
        VariantAttachment := "" }
    if row.attachment.Valid then
      match compactJSONString row.attachment.String with
      | Except.error err => (distributions, some err)
      | Except.ok attachmentString =>
        distributionsLoop compactJSONString
          (distributions.append { d with VariantAttachment := attachmentString }) rest
    else
      distributionsLoop compactJSONString (distributions.append d) rest

/-- The method `Store.GetEvaluationDistributions`. As in `GetEvaluationRules`,
the deferred closure only assigns to a local variable. -/
def GetEvaluationDistributions (compactJSONString : String → Except Error String)
    (s : Store) (ruleID : String) : Slice EvaluationDistribution × Option Error :=
  match s.QueryDistributions (distributionsQuery ruleID) with
  | Except.error err => (Slice.null, some err)
  | Except.ok rows =>
    match distributionsLoop compactJSONString Slice.null rows.scans with
    | (distributions, some err) => (distributions, some err)
    | (distributions, none) =>
      match rows.Err with
      | some err => (distributions, some err)
      | none =>
        match rows.Close with
        | some err => (distributions, some err)
        | none => (distributions, none)

/-! ## GetEvaluationRollouts -/

/-- The method `Store.GetEvaluationRollouts` (lines 164-166). -/
def GetEvaluationRollouts (_s : Store) (_namespaceKey _flagKey : String) :
    Slice EvaluationRollout × Option Error :=
  (Slice.items [], none)

/-! ## The collapse of joined rows, stated on the rows

The definitions below do not come from the code: they describe the rows the
way the specification does (first occurrence of a rule id, the constraints of
one rule id in row order) and are compared with the loop in the theorems. -/

/-- The rows whose rule id occurs in no earlier row, in row order. -/
def firstRows : List RuleRow → List RuleRow
  | [] => []
  | row :: rest => row :: (firstRows rest).filter (fun r => r.ID ≠ row.ID)

/-- The constraints of the rows that carry rule id `id` and a non-null
constraint id, in row order. -/
def constraintsOf (id : String) (rows : List RuleRow) : List EvaluationConstraint :=
  (rows.filter (fun r => r.ID = id ∧ r.optionalConstraint.Id.Valid = true)).map
    (fun r => constraintOf r.optionalConstraint)

/-- The slice that holds `l` after one `append` for each element, starting from
the nil slice: nil when there was no `append`. -/
def sliceOf {α : Type} : List α → Slice α
  | [] => Slice.null
  | x :: l => Slice.items (x :: l)

/-- The rule of `row`, with the constraints that `rows` hold for its id. -/
def ruleOf (rows : List RuleRow) (row : RuleRow) : EvaluationRule :=
  { ID := row.ID
    NamespaceKey := row.NamespaceKey
    FlagKey := row.FlagKey
    SegmentKey := row.SegmentKey
    SegmentMatchType := row.SegmentMatchType
    Rank := row.Rank
    Constraints := sliceOf (constraintsOf row.ID rows) }

/-- One rule for each first occurrence of a rule id. -/
def collapse (rows : List RuleRow) : List EvaluationRule :=
  (firstRows rows).map (ruleOf rows)

/-- The loop invariant of `GetEvaluationRules` once the rows `seen` are
processed: the heap holds the collapsed rules, the slice points at them in
order, and the map sends every id seen to the position of its rule. -/
def RulesInv (st : RulesState) (seen : List RuleRow) : Prop :=
  st.heap = collapse seen ∧
  st.rules = Slice.items (List.range (firstRows seen).length) ∧
  (∀ id i, st.uniqueRules id = some i → ((firstRows seen).map (fun r => r.ID))[i]? = some id) ∧
  (∀ id, st.uniqueRules id = none → id ∉ seen.map (fun r => r.ID))

/-! ## The conversion of one distribution row, stated on the row -/

/-- What one iteration of the loop of `GetEvaluationDistributions` makes of a
scanned row: the distribution it appends, or the error of `compactJSONString`
on a non-null attachment. -/
def toDistribution (compactJSONString : String → Except Error String) (row : DistributionRow) :
    Except Error EvaluationDistribution :=
  if row.attachment.Valid then
    match compactJSONString row.attachment.String with
    | Except.error err => Except.error err
    | Except.ok attachmentString =>
      Except.ok
        { ID := row.ID
          RuleID := row.RuleID
          VariantID := row.VariantID
          Rollout := row.Rollout
          VariantKey := row.VariantKey
          VariantAttachment := attachmentString }
  else
    Except.ok
      { ID := row.ID
        RuleID := row.RuleID
        VariantID := row.VariantID
        Rollout := row.Rollout
        VariantKey := row.VariantKey
        VariantAttachment := "" }

/-! ## The distribution statement on stored data

The backend is not part of the store's code. What follows is the reading of
`WHERE` and `ORDER BY` that the statement of `GetEvaluationDistributions` relies
on: the backend returns the stored rows that satisfy the conditions, each once,
in an order in which no row stands before a row that the keys of `ORDER BY`
put strictly before it. Rows that the keys do not tell apart may come in any
order. -/

/-- A distribution as stored, joined with its variant: the columns the
statement selects, and the column `created_at` of the distribution. -/
structure StoredDistribution where
  row : DistributionRow
  created_at : Nat
deriving DecidableEq, Repr

/-- The conditions of `WHERE` on a stored distribution, for the columns of the
table `distributions` that the statement can name. -/
def whereHolds (conds : List (String × String)) (d : StoredDistribution) : Bool :=
  conds.all (fun c =>
    match c.1 with
    | "d.rule_id" => c.2 == d.row.RuleID
    | "d.id" => c.2 == d.row.ID
    | "d.variant_id" => c.2 == d.row.VariantID
    | _ => false)

/-- The comparison that one key of `ORDER BY` asks for. -/
def keyCompare (key : String) (a b : StoredDistribution) : Ordering :=
  match key with
  | "d.created_at ASC" => compare a.created_at b.created_at
  | "d.created_at DESC" => compare b.created_at a.created_at
  | "d.id ASC" => compare a.row.ID b.row.ID
  | "d.id DESC" => compare b.row.ID a.row.ID
  | _ => Ordering.eq

/-- The comparison that the keys of `ORDER BY` ask for, the first key that
tells two rows apart deciding. -/
def orderCompare : List String → StoredDistribution → StoredDistribution → Ordering
  | [], _, _ => Ordering.eq
  | key :: keys, a, b => (keyCompare key a b).then (orderCompare keys a b)

/-- The list `result` is an answer of the backend to the statement `q` on the
table `stored`. -/
def answers (stored : List StoredDistribution) (q : Query) (result : List StoredDistribution) :
    Prop :=
  result.Perm (stored.filter (whereHolds q.Where)) ∧
  result.Pairwise (fun a b => orderCompare q.OrderBy a b ≠ Ordering.gt)

/-! ## The rule repository, modelled from the specification

`GetRule`, `ListRules`, `CreateRule`, `UpdateRule`, `DeleteRule`, `OrderRules`
and `CreateDistribution` live in `common/rule.go`, which is not among the
sources; only their tests in `rule_test.go` are. The definitions of this
section follow sections 3, 4.1, 4.4, 6 and 7 of the specification, and the
messages that the assertions of `rule_test.go` expect. -/

/-- Modelled from the spec: the error taxonomy of section 7 (the error values
of the missing `common/rule.go`): NotFound, InvalidArgument and Internal. A
NotFound error names what is missing. -/
inductive RepositoryError where
  | NotFound (what : String)
  | InvalidArgument (msg : String)
  | Internal (msg : String)
deriving DecidableEq, Repr

/-- Modelled from the spec: the message of an error of the missing
`common/rule.go`. For NotFound it is the one that `rule_test.go` expects
(lines 76, 449, 461, 483, 624): what is missing, followed by ` not found`. -/
def RepositoryError.Error : RepositoryError → String
  | RepositoryError.NotFound what => what ++ " not found"
  | RepositoryError.InvalidArgument msg => msg
  | RepositoryError.Internal msg => msg

/-- Modelled from the spec: a key as the messages of the missing
`common/rule.go` name it, between double quotes (`rule \"0\" not found`). -/
def quoted (key : String) : String := "\"" ++ key ++ "\""

/-- Modelled from the spec: the Rule of section 3 as the missing
`common/rule.go` lists it: its id, its flag (a key within a namespace), the key
of its segment and its rank, a 1-based integer. Its distributions and
timestamps are left out. -/
structure Rule where
  Id : String
  NamespaceKey : String
  FlagKey : String
  SegmentKey : String
  Rank : Nat
deriving DecidableEq, Repr

/-- Modelled from the spec: the Variant of section 3 (table `variants`, written
by code that is not among the sources): id, key and optional attachment. -/
structure Variant where
  Id : String
  Key : String
  Attachment : NullString
deriving DecidableEq, Repr

/-- Modelled from the spec: the shared mutable state of section 5, the tables
that the missing `common/rule.go` reads and writes. Flags and segments are
(namespace key, key) pairs. -/
structure Database where
  flags : List (String × String)
  segments : List (String × String)
  variants : List Variant
  rules : List Rule
  distributions : List StoredDistribution
deriving DecidableEq, Repr

/-- Modelled from the spec: the rules of one flag (the `WHERE` of the missing
`ListRules`), in the order of the table. -/
def Database.rulesOf (db : Database) (namespaceKey flagKey : String) : List Rule :=
  db.rules.filter (fun r => r.NamespaceKey = namespaceKey ∧ r.FlagKey = flagKey)

/-- Modelled from the spec: the request of the missing `CreateRule`. The field
`Rank` is the one the tests fill in; section 4.4 assigns the rank from the
number of rules of the flag, so the model does not read it. -/
structure CreateRuleRequest where
  NamespaceKey : String
  FlagKey : String
  SegmentKey : String
  Rank : Int
deriving DecidableEq, Repr

/-- Modelled from the spec: the missing `CreateRule` (section 4.4). It checks
that the flag and the segment exist in the namespace (one NotFound error naming
both keys if either is missing) and gives the new rule the rank: number of
rules of the flag, plus one. `id` is the identifier drawn for the new rule: the
id of a created rule is not empty (`rule_test.go`, lines 398 and 527, assert it
with `NotZero`) and is not the id of another rule, so the model refuses an
empty identifier and one already in use (Internal). The first component is the
database afterwards. -/
def CreateRule (db : Database) (id : String) (r : CreateRuleRequest) :
    Database × Except RepositoryError Rule :=
  if (r.NamespaceKey, r.FlagKey) ∈ db.flags ∧ (r.NamespaceKey, r.SegmentKey) ∈ db.segments then
    if id = "" ∨ id ∈ db.rules.map (fun x => x.Id) then
      (db, Except.error (RepositoryError.Internal "rule id is empty or already in use"))
    else
      let rule : Rule :=
        { Id := id
          NamespaceKey := r.NamespaceKey
          FlagKey := r.FlagKey
          SegmentKey := r.SegmentKey
          Rank := (db.rulesOf r.NamespaceKey r.FlagKey).length + 1 }
      ({ db with rules := db.rules ++ [rule] }, Except.ok rule)
  else
    (db, Except.error (RepositoryError.NotFound
      ("flag " ++ quoted r.FlagKey ++ " or segment " ++ quoted r.SegmentKey)))

/-- Modelled from the spec: the missing `GetRule` (section 4.1): the rule with
the id, or NotFound with the id in the message. -/
def GetRule (db : Database) (id : String) : Except RepositoryError Rule :=
  match db.rules.find? (fun x => x.Id = id) with
  | some rule => Except.ok rule
  | none => Except.error (RepositoryError.NotFound ("rule " ++ quoted id))

/-- Modelled from the spec: the request of the missing `UpdateRule`. -/
structure UpdateRuleRequest where
  Id : String
  NamespaceKey : String
  FlagKey : String
  SegmentKey : String
deriving DecidableEq, Repr

/-- Modelled from the spec: the missing `UpdateRule` (section 4.4): it changes
the segment key of the rule and leaves its rank; an unknown id is NotFound. -/
def UpdateRule (db : Database) (r : UpdateRuleRequest) :
    Database × Except RepositoryError Rule :=
  match db.rules.find?
      (fun x => x.Id = r.Id ∧ x.NamespaceKey = r.NamespaceKey ∧ x.FlagKey = r.FlagKey) with
  | none => (db, Except.error (RepositoryError.NotFound ("rule " ++ quoted r.Id)))
  | some rule =>
    ({ db with
        rules := db.rules.map (fun x =>
          if x.Id = r.Id ∧ x.NamespaceKey = r.NamespaceKey ∧ x.FlagKey = r.FlagKey then
            { x with SegmentKey := r.SegmentKey }
          else x) },
      Except.ok { rule with SegmentKey := r.SegmentKey })

/-- Modelled from the spec: the request of the missing `DeleteRule`. -/
structure DeleteRuleRequest where
  Id : String
  NamespaceKey : String
  FlagKey : String
deriving DecidableEq, Repr

/-- Modelled from the spec: the missing `DeleteRule` (section 4.4). Deleting
the rule at rank K lowers by one every rank above K among the rules of its
flag; the distributions of the rule go with it; deleting an id that matches no
rule of the flag is a success that changes nothing. The second component is the
error, `none` on success. -/
def DeleteRule (db : Database) (r : DeleteRuleRequest) : Database × Option RepositoryError :=
  match db.rules.find?
      (fun x => x.Id = r.Id ∧ x.NamespaceKey = r.NamespaceKey ∧ x.FlagKey = r.FlagKey) with
  | none => (db, none)
  | some deleted =>
    ({ db with
        rules :=
          (db.rules.filter
            (fun x => ¬ (x.Id = r.Id ∧ x.NamespaceKey = r.NamespaceKey ∧
              x.FlagKey = r.FlagKey))).map
            (fun x =>
              if x.NamespaceKey = r.NamespaceKey ∧ x.FlagKey = r.FlagKey ∧
                  deleted.Rank < x.Rank then
                { x with Rank := x.Rank - 1 }
              else x)
        distributions := db.distributions.filter (fun d => d.row.RuleID ≠ r.Id) },
      none)

/-- Modelled from the spec: the request of the missing `OrderRules`. -/
structure OrderRulesRequest where
  NamespaceKey : String
  FlagKey : String
  RuleIds : List String
deriving DecidableEq, Repr

/-- Modelled from the spec: the missing `OrderRules` (section 4.4). Given a full
ordering of the ids of the rules of the flag it gives the rule listed in place
i the rank i. A list that omits an id of the flag, repeats one or names an id
that is not of the flag breaks the contract of the caller; the specification
asks for an explicit handling and promises dense ranks after any successful
reorder, so the model refuses such a list (InvalidArgument) and changes
nothing. -/
def OrderRules (db : Database) (r : OrderRulesRequest) : Database × Option RepositoryError :=
  if r.RuleIds.Perm ((db.rulesOf r.NamespaceKey r.FlagKey).map (fun x => x.Id)) then
    ({ db with
        rules := db.rules.map (fun x =>
          if x.NamespaceKey = r.NamespaceKey ∧ x.FlagKey = r.FlagKey then
            { x with Rank := r.RuleIds.indexOf x.Id + 1 }
          else x) },
      none)
  else
    (db, some (RepositoryError.InvalidArgument "rule ids are not a full ordering of the flag"))

/-- Modelled from the spec: the distribution that the missing
`CreateDistribution` returns. -/
structure Distribution where
  Id : String
  RuleId : String
  VariantId : String
  Rollout : Float32
deriving DecidableEq, Repr

/-- Modelled from the spec: the request of the missing `CreateDistribution`. -/
structure CreateDistributionRequest where
  RuleId : String
  VariantId : String
  Rollout : Float32
deriving DecidableEq, Repr

/-- Modelled from the spec: the missing `CreateDistribution` (section 4.4). The
rule and the variant must exist; an unknown rule id is NotFound, with the id
in the message (`rule_test.go`, line 449). `id` is the identifier drawn for the
distribution and `now` its creation time. -/
def CreateDistribution (db : Database) (id : String) (now : Nat)
    (r : CreateDistributionRequest) : Database × Except RepositoryError Distribution :=
  match db.rules.find? (fun x => x.Id = r.RuleId) with
  | none => (db, Except.error (RepositoryError.NotFound ("rule " ++ quoted r.RuleId)))
  | some _ =>
    match db.variants.find? (fun v => v.Id = r.VariantId) with
    | none => (db, Except.error (RepositoryError.NotFound ("variant " ++ quoted r.VariantId)))
    | some variant =>
      ({ db with
          distributions := db.distributions ++
            [{ row :=
                { ID := id
                  RuleID := r.RuleId
                  VariantID := r.VariantId
                  Rollout := r.Rollout
                  VariantKey := variant.Key
                  attachment := variant.Attachment }
               created_at := now }] },
        Except.ok { Id := id, RuleId := r.RuleId, VariantId := r.VariantId, Rollout := r.Rollout })

/-- Modelled from the spec: the PageToken of section 3 (type `common.PageToken`,
not among the sources): the last-seen key and an offset. -/
structure PageToken where
  Key : String
  Offset : Nat
deriving DecidableEq, Repr

/-- Modelled from the spec: the wire format of the page token (section 6). Its
structure is left to the implementation; it round-trips exactly, and the empty
string, which stands for the absence of a further page, is no token. -/
structure PageCodec where
  encode : PageToken → String
  decode : String → Option PageToken
  decode_encode : ∀ t, decode (encode t) = some t
  encode_ne_empty : ∀ t, encode t ≠ ""

/-- Modelled from the spec: the order of a list query (`storage.OrderAsc`,
`storage.OrderDesc`). -/
inductive Order where
  | OrderAsc : Order
  | OrderDesc : Order
deriving DecidableEq, Repr

/-- Modelled from the spec: the list query options of section 6
(`storage.QueryParams`, filled by `WithLimit`, `WithOffset`, `WithOrder` and
`WithPageToken`): limit (0 is unbounded), offset, page token and order. -/
structure QueryParams where
  Limit : Nat := 0
  Offset : Nat := 0
  PageToken : String := ""
  Order : Order := Order.OrderAsc
deriving DecidableEq, Repr

/-- Modelled from the spec: the result of the missing `ListRules`: a page of
rules and the token of the next page, empty when there is none. -/
structure RuleList where
  Results : List Rule
  NextPageToken : String
deriving DecidableEq, Repr

/-- Modelled from the spec: the rules of a flag ordered by rank, the direction
of the order flipping the comparison of ranks (section 4.1). -/
def Database.rulesInOrder (db : Database) (namespaceKey flagKey : String) (order : Order) :
    List Rule :=
  match order with
  | Order.OrderAsc =>
    (db.rulesOf namespaceKey flagKey).insertionSort (fun a b => a.Rank ≤ b.Rank)
  | Order.OrderDesc =>
    (db.rulesOf namespaceKey flagKey).insertionSort (fun a b => b.Rank ≤ a.Rank)

/-- Modelled from the spec: the key that a page token records, the id of the
last rule seen; empty when the page is empty. -/
def lastKey (page : List Rule) : String :=
  match page.getLast? with
  | some rule => rule.Id
  | none => ""

/-- Modelled from the spec: the missing `ListRules` (sections 4.1 and 6). The
rules of the flag are ordered by rank in the direction asked for; the page
starts after `offset` rules, the offset of the options added to the one the
page token records; it holds at most `Limit` rules (all of them when the limit
is 0); the next page token is empty unless rules remain after the page, and
then records the last key seen and the number of rules passed. A page token
that does not decode is InvalidArgument. -/
def ListRules (codec : PageCodec) (db : Database) (namespaceKey flagKey : String)
    (params : QueryParams) : Except RepositoryError RuleList :=
  let recorded : Except RepositoryError Nat :=
    if params.PageToken = "" then Except.ok 0
    else
      match codec.decode params.PageToken with
      | some token => Except.ok token.Offset
      | none => Except.error (RepositoryError.InvalidArgument "page token is not valid")
  match recorded with
  | Except.error err => Except.error err
  | Except.ok recordedOffset =>
    let offset := params.Offset + recordedOffset
    let rest := (db.rulesInOrder namespaceKey flagKey params.Order).drop offset
    if params.Limit = 0 then
      Except.ok { Results := rest, NextPageToken := "" }
    else
      let page := rest.take params.Limit
      Except.ok
        { Results := page
          NextPageToken :=
            if params.Limit < rest.length then
              codec.encode { Key := lastKey page, Offset := offset + page.length }
            else "" }

/-! ## The full walk of the pagination test -/

/-- The loop of `TestListRulesPagination_FullWalk` (`rule_test.go`, lines
330-337): while the token is not empty, list the next page and append its
results. `fuel` bounds the number of times the loop condition is evaluated;
`none` is an exhausted bound, and an error of `ListRules` ends the walk. -/
def fullWalkLoop (codec : PageCodec) (db : Database) (namespaceKey flagKey : String)
    (pageSize : Nat) : Nat → String → List Rule → Option (Except RepositoryError (List Rule))
  | 0, _, _ => none
  | fuel + 1, token, found =>
    if token = "" then some (Except.ok found)
    else
      match ListRules codec db namespaceKey flagKey { Limit := pageSize, PageToken := token } with
      | Except.error err => some (Except.error err)
      | Except.ok resp =>
        fullWalkLoop codec db namespaceKey flagKey pageSize fuel resp.NextPageToken
          (found ++ resp.Results)

/-- The walk of `TestListRulesPagination_FullWalk` (`rule_test.go`, lines
326-337): the first page, then the loop. -/
def fullWalk (codec : PageCodec) (db : Database) (namespaceKey flagKey : String)
    (pageSize fuel : Nat) : Option (Except RepositoryError (List Rule)) :=
  match ListRules codec db namespaceKey flagKey { Limit := pageSize } with
  | Except.error err => some (Except.error err)
  | Except.ok resp =>
    fullWalkLoop codec db namespaceKey flagKey pageSize fuel resp.NextPageToken resp.Results

/-! ## Sequences of mutations -/

/-- A mutation of the rules: a `CreateRule` with the id drawn for the rule, a
`DeleteRule` or an `OrderRules`. -/
inductive Mutation where
  | create (id : String) (r : CreateRuleRequest)
  | delete (r : DeleteRuleRequest)
  | order (r : OrderRulesRequest)
deriving DecidableEq, Repr

/-- The database after a mutation, and its error (`none` on success). -/
def Mutation.apply (db : Database) : Mutation → Database × Option RepositoryError
  | Mutation.create id r =>
    match CreateRule db id r with
    | (db1, Except.ok _) => (db1, none)
    | (db1, Except.error err) => (db1, some err)
  | Mutation.delete r => DeleteRule db r
  | Mutation.order r => OrderRules db r

/-- The database after a sequence of mutations that all succeed; `none` when
one of them fails. -/
def applySuccessful (db : Database) : List Mutation → Option Database
  | [] => some db
  | m :: ms =>
    match m.apply db with
    | (db1, none) => applySuccessful db1 ms
    | (_, some _) => none

/-! ## The rule statement on stored data

As for the distribution statement, the backend is not part of the store's
code; `answersRules` states what the statement of `GetEvaluationRules` relies
on, and no more: the rows come in the order of `ORDER BY`, every row carries
the columns of a stored rule that satisfies `WHERE` and whose segment exists
(the inner join), and every such rule has at least one row (the left join keeps
a rule without constraint). -/

/-- The conditions of `WHERE` on a stored rule, for the columns of the table
`rules` that the statement can name. -/
def whereRule (conds : List (String × String)) (r : Rule) : Bool :=
  conds.all (fun c =>
    match c.1 with
    | "r.flag_key" => c.2 == r.FlagKey
    | "r.namespace_key" => c.2 == r.NamespaceKey
    | "r.id" => c.2 == r.Id
    | _ => false)

/-- The list `rows` is an answer of the backend to the rule statement `q` on
the database `db`. -/
def answersRules (db : Database) (q : Query) (rows : List RuleRow) : Prop :=
  (q.OrderBy = ["r.\"rank\" ASC"] → rows.Pairwise (fun a b => a.Rank ≤ b.Rank)) ∧
  (∀ row ∈ rows, ∃ r ∈ db.rules,
    whereRule q.Where r = true ∧ (r.NamespaceKey, r.SegmentKey) ∈ db.segments ∧
    row.ID = r.Id ∧ row.NamespaceKey = r.NamespaceKey ∧ row.FlagKey = r.FlagKey ∧
    row.SegmentKey = r.SegmentKey ∧ row.Rank = (r.Rank : Int)) ∧
  (∀ r ∈ db.rules, whereRule q.Where r = true →
    (r.NamespaceKey, r.SegmentKey) ∈ db.segments → ∃ row ∈ rows, row.ID = r.Id)

/-! ## Invariants of the rule table -/

/-- The ranks of the rules of a flag are the numbers 1 to N, each once, N being
the number of rules of the flag (invariant 1 of section 3). -/
def Dense (db : Database) (namespaceKey flagKey : String) : Prop :=
  ((db.rulesOf namespaceKey flagKey).map (fun x => x.Rank)).Perm
    (List.range' 1 (db.rulesOf namespaceKey flagKey).length)

/-- The rule table is well formed: rule ids are unique, the segment of every
rule exists, and the ranks of every flag are dense. -/
def WellFormed (db : Database) : Prop :=
  (db.rules.map (fun x => x.Id)).Nodup ∧
  (∀ x ∈ db.rules, (x.NamespaceKey, x.SegmentKey) ∈ db.segments) ∧
  ∀ namespaceKey flagKey : String, Dense db namespaceKey flagKey

/-- No rule of the table has the empty id. -/
def NonEmptyIds (db : Database) : Prop :=
  ∀ x ∈ db.rules, x.Id ≠ ""

/-- The rule `x` with its rank lowered by one when it is above `k`. -/
def lowerAbove (k : Nat) (x : Rule) : Rule :=
  if k < x.Rank then { x with Rank := x.Rank - 1 } else x

/-- The rule `x` with the rank that the ordering `ids` gives to its id. -/
def rankedBy (ids : List String) (x : Rule) : Rule :=
  { x with Rank := ids.indexOf x.Id + 1 }

/-! ## Example data -/

/-- A row of the rule query: the rule columns and an optional constraint. -/
def exampleRuleRow (id : String) (rank : Int) (constraint : Option String) : RuleRow :=
  { ID := id
    NamespaceKey := "default"
    FlagKey := "flag"
    SegmentKey := "segment-" ++ id
    SegmentMatchType := 0
    Rank := rank
    optionalConstraint :=
      match constraint with
      | some c =>
        { Id := ⟨c, true⟩
          Type_ := ⟨1, true⟩
          Property := ⟨"country", true⟩
          Operator := ⟨"eq", true⟩
          Value := ⟨c, true⟩ }
      | none =>
        { Id := ⟨"", false⟩
          Type_ := ⟨0, false⟩
          Property := ⟨"", false⟩
          Operator := ⟨"", false⟩
          Value := ⟨"", false⟩ } }

/-- Joined rows of three rules, sorted by rank; the first rule has two
constraints, the second none, the third one. -/
def exampleRuleRows : List RuleRow :=
  [exampleRuleRow "a" 1 (some "c1"), exampleRuleRow "a" 1 (some "c2"),
   exampleRuleRow "b" 2 none, exampleRuleRow "c" 3 (some "c3")]

/-- Joined rows in which the rows of rule `a` are not adjacent. -/
def exampleInterleavedRows : List RuleRow :=
  [exampleRuleRow "a" 1 (some "c1"), exampleRuleRow "b" 2 (some "c3"),
   exampleRuleRow "a" 1 (some "c2")]

/-- A store whose rule query yields `ruleRows` and whose distribution query
yields `distributionRows`, every scan succeeding and the cursors reporting no
error. -/
def storeOfRows (ruleRows : List RuleRow) (distributionRows : List DistributionRow) : Store :=
  { QueryRules := fun _ =>
      Except.ok { scans := ruleRows.map Except.ok, Err := none, Close := none }
    QueryDistributions := fun _ =>
      Except.ok { scans := distributionRows.map Except.ok, Err := none, Close := none } }

/-- A stand-in for `compactJSONString` on a few inputs: two JSON texts are
compacted, any other text is rejected. -/
def exampleCompact (s : String) : Except Error String :=
  if s = "\x7b \"a\": 1 \x7d" then Except.ok "\x7b\"a\":1\x7d"
  else if s = "\x7b\x7d" then Except.ok "\x7b\x7d"
  else Except.error ⟨"invalid character"⟩

/-- A row of the distribution query. -/
def exampleDistributionRow (id : String) (rollout : Nat) (attachment : Option String) :
    DistributionRow :=
  { ID := id
    RuleID := "a"
    VariantID := "variant-" ++ id
    Rollout := ⟨rollout⟩
    VariantKey := "key-" ++ id
    attachment :=
      match attachment with
      | some text => ⟨text, true⟩
      | none => ⟨"", false⟩ }

/-- Distribution rows: one with an attachment to compact, one without
attachment. -/
def exampleDistributionRows : List DistributionRow :=
  [exampleDistributionRow "d1" 30 (some "\x7b \"a\": 1 \x7d"), exampleDistributionRow "d2" 70 none]

/-- Distribution rows whose second attachment is not JSON. -/
def exampleBadAttachmentRows : List DistributionRow :=
  [exampleDistributionRow "d1" 30 (some "\x7b\x7d"), exampleDistributionRow "d2" 70 (some "\x7boops")]

/-- A store whose cursors deliver one row and then fail to scan the second. -/
def exampleFailingStore : Store :=
  { QueryRules := fun _ =>
      Except.ok
        { scans := [Except.ok (exampleRuleRow "a" 1 (some "c1")), Except.error ⟨"scan failed"⟩]
          Err := none
          Close := none }
    QueryDistributions := fun _ =>
      Except.ok
        { scans := [Except.ok (exampleDistributionRow "d1" 30 none), Except.error ⟨"scan failed"⟩]
          Err := none
          Close := none } }

/-- Two stored distributions of rule `a` created at the same time. -/
def exampleTiedFirst : StoredDistribution :=
  { row := exampleDistributionRow "d1" 30 none, created_at := 1700000000 }

/-- The second of two stored distributions created at the same time. -/
def exampleTiedSecond : StoredDistribution :=
  { row := exampleDistributionRow "d2" 70 none, created_at := 1700000000 }

/-- A page token format for the examples: a sharp, one plus sign for each unit
of the offset, a slash, then the key. -/
def exampleCodec : PageCodec where
  encode := fun t => String.mk ('#' :: (List.replicate t.Offset '+' ++ '/' :: t.Key.data))
  decode := fun s =>
    match s.data with
    | '#' :: rest =>
      match rest.dropWhile (fun c => c == '+') with
      | '/' :: key => some ⟨String.mk key, (rest.takeWhile (fun c => c == '+')).length⟩
      | _ => none
    | _ => none
  decode_encode := by
    intro t
    have h : ∀ (n : Nat) (k : List Char),
        (List.replicate n '+' ++ '/' :: k).dropWhile (fun c => c == '+') = '/' :: k ∧
        ((List.replicate n '+' ++ '/' :: k).takeWhile (fun c => c == '+')).length = n := by
      intro n k
      induction n with
      | zero => exact ⟨by simp [List.dropWhile], by simp [List.takeWhile]⟩
      | succ n ih =>
        obtain ⟨h1, h2⟩ := ih
        exact ⟨by simp [List.replicate_succ, List.dropWhile, h1],
          by simp [List.replicate_succ, List.takeWhile, h2]⟩
    obtain ⟨h1, h2⟩ := h t.Offset t.Key.data
    simp only [h1, h2]
  encode_ne_empty := by
    intro t h
    have := congrArg String.data h
    simp at this

/-- A database with one flag, one segment and no rule. -/
def exampleDatabase : Database :=
  { flags := [("default", "flag")]
    segments := [("default", "segment")]
    variants := [⟨"v1", "variant", ⟨"", false⟩⟩]
    rules := []
    distributions := [] }

/-- The request of a rule of the example flag. -/
def exampleCreate : CreateRuleRequest :=
  { NamespaceKey := "default", FlagKey := "flag", SegmentKey := "segment", Rank := 1 }

/-- The example database after three rules were created. -/
def exampleThreeRules : Database :=
  { exampleDatabase with
    rules :=
      [⟨"r1", "default", "flag", "segment", 1⟩, ⟨"r2", "default", "flag", "segment", 2⟩,
       ⟨"r3", "default", "flag", "segment", 3⟩] }

/-- Mutations of the example flag: three rules are created, the second is
deleted, a fourth is created, and the three rules left are reordered. -/
def exampleMutations : List Mutation :=
  [Mutation.create "r1" exampleCreate, Mutation.create "r2" exampleCreate,
   Mutation.create "r3" exampleCreate, Mutation.delete ⟨"r2", "default", "flag"⟩,
   Mutation.create "r4" exampleCreate,
   Mutation.order ⟨"default", "flag", ["r4", "r1", "r3"]⟩]

/-- The example database after `exampleMutations`. -/
def exampleMutated : Database :=
  { exampleDatabase with
    rules :=
      [⟨"r1", "default", "flag", "segment", 2⟩, ⟨"r3", "default", "flag", "segment", 3⟩,
       ⟨"r4", "default", "flag", "segment", 1⟩] }

/-! ## Theorems -/

/-! ### Slices -/

theorem Slice.toList_sliceOf {α : Type} (l : List α) : (sliceOf l).toList = l := by
  cases l <;> rfl

theorem Slice.append_sliceOf {α : Type} (l : List α) (x : α) :
    (sliceOf l).append x = sliceOf (l ++ [x]) := by
  cases l <;> rfl

/-! ### First occurrences -/

theorem firstRows_snoc (seen : List RuleRow) (row : RuleRow) :
    firstRows (seen ++ [row]) =
      if row.ID ∈ seen.map (fun r => r.ID) then firstRows seen else firstRows seen ++ [row] := by
  induction seen with
  | nil => simp [firstRows]
  | cons a seen ih =>
    simp only [List.cons_append, firstRows, List.map_cons, List.mem_cons, List.append_eq]
    rw [ih]
    by_cases h2 : row.ID ∈ seen.map (fun r => r.ID)
    · rw [if_pos h2, if_pos (Or.inr h2)]
    · rw [if_neg h2]
      by_cases h1 : row.ID = a.ID
      · rw [if_pos (Or.inl h1)]
        simp [List.filter_append, h1]
      · rw [if_neg (by simp [h1, h2])]
        simp [List.filter_append, h1]

theorem mem_firstRows_ids (seen : List RuleRow) (id : String) :
    id ∈ (firstRows seen).map (fun r => r.ID) ↔ id ∈ seen.map (fun r => r.ID) := by
  induction seen with
  | nil => simp [firstRows]
  | cons a seen ih =>
    simp only [firstRows, List.map_cons, List.mem_cons]
    constructor
    · rintro (h | h)
      · exact Or.inl h
      · right
        apply ih.mp
        simp only [List.mem_map, List.mem_filter] at h ⊢
        obtain ⟨r, ⟨hr, _⟩, rfl⟩ := h
        exact ⟨r, hr, rfl⟩
    · rintro (h | h)
      · exact Or.inl h
      · by_cases hid : id = a.ID
        · exact Or.inl hid
        · right
          have := ih.mpr h
          simp only [List.mem_map, List.mem_filter] at this ⊢
          obtain ⟨r, hr, rfl⟩ := this
          exact ⟨r, ⟨hr, by simpa using hid⟩, rfl⟩

theorem firstRows_sublist (seen : List RuleRow) : (firstRows seen).Sublist seen := by
  induction seen with
  | nil => simp [firstRows]
  | cons a seen ih =>
    simp only [firstRows]
    exact List.Sublist.cons₂ a ((List.filter_sublist _).trans ih)

theorem firstRows_nodup (seen : List RuleRow) : ((firstRows seen).map (fun r => r.ID)).Nodup := by
  induction seen with
  | nil => simp [firstRows]
  | cons a seen ih =>
    simp only [firstRows, List.map_cons, List.nodup_cons]
    constructor
    · simp [List.mem_map, List.mem_filter]
    · exact ih.sublist ((List.filter_sublist _).map _)

theorem find_of_mem_firstRows (seen : List RuleRow) (r : RuleRow) (h : r ∈ firstRows seen) :
    seen.find? (fun x => x.ID == r.ID) = some r := by
  induction seen with
  | nil => simp [firstRows] at h
  | cons a seen ih =>
    simp only [firstRows, List.mem_cons, List.mem_filter] at h
    rcases h with rfl | ⟨h, hne⟩
    · simp
    · have hne2 : ¬ a.ID = r.ID := by
        intro e
        simp [e] at hne
      simp [List.find?_cons, hne2, ih h]

/-! ### Constraints of one rule id -/

theorem constraintsOf_snoc (id : String) (seen : List RuleRow) (row : RuleRow) :
    constraintsOf id (seen ++ [row]) =
      constraintsOf id seen ++
        (if row.ID = id ∧ row.optionalConstraint.Id.Valid = true
          then [constraintOf row.optionalConstraint] else []) := by
  unfold constraintsOf
  rw [List.filter_append, List.map_append]
  by_cases h : row.ID = id ∧ row.optionalConstraint.Id.Valid = true
  · simp [h]
  · rw [if_neg h]
    simp [List.filter_cons, h]

theorem constraintsOf_of_not_mem (id : String) (seen : List RuleRow)
    (h : id ∉ seen.map (fun r => r.ID)) : constraintsOf id seen = [] := by
  unfold constraintsOf
  simp only [List.map_eq_nil_iff, List.filter_eq_nil_iff]
  intro r hr hc
  simp only [decide_eq_true_eq] at hc
  exact h (List.mem_map.mpr ⟨r, hr, hc.1⟩)

theorem ruleOf_snoc_of_ne (seen : List RuleRow) (row r : RuleRow) (h : row.ID ≠ r.ID) :
    ruleOf (seen ++ [row]) r = ruleOf seen r := by
  simp [ruleOf, constraintsOf_snoc, h]

theorem ruleOf_snoc_of_null (seen : List RuleRow) (row r : RuleRow)
    (h : row.optionalConstraint.Id.Valid = false) :
    ruleOf (seen ++ [row]) r = ruleOf seen r := by
  simp [ruleOf, constraintsOf_snoc, h]

theorem ruleOf_snoc_of_eq (seen : List RuleRow) (row r : RuleRow) (h : row.ID = r.ID)
    (hv : row.optionalConstraint.Id.Valid = true) :
    ruleOf (seen ++ [row]) r =
      { ruleOf seen r with
        Constraints := (ruleOf seen r).Constraints.append (constraintOf row.optionalConstraint) } := by
  simp [ruleOf, constraintsOf_snoc, h, hv, Slice.append_sliceOf]

/-! ### The loop invariant of GetEvaluationRules -/

theorem getElem?_inj_of_nodup {α : Type} {l : List α} (hl : l.Nodup) {i j : Nat} {a : α}
    (hi : l[i]? = some a) (hj : l[j]? = some a) : i = j := by
  obtain ⟨hi1, hi2⟩ := List.getElem?_eq_some.mp hi
  obtain ⟨hj1, hj2⟩ := List.getElem?_eq_some.mp hj
  exact (hl.getElem_inj_iff).mp (hi2.trans hj2.symm)

theorem RulesInv_init : RulesInv RulesState.init [] := by
  refine ⟨rfl, rfl, ?_, ?_⟩
  · intro id i h
    simp [RulesState.init] at h
  · intro id _
    simp

theorem RulesInv_body_new (st : RulesState) (seen : List RuleRow) (row : RuleRow)
    (hinv : RulesInv st seen) (hu : st.uniqueRules row.ID = none) :
    RulesInv (rulesBody st row) (seen ++ [row]) := by
  obtain ⟨hheap, hrules, hsome, hnone⟩ := hinv
  have hnot : row.ID ∉ seen.map (fun r => r.ID) := hnone _ hu
  have hfirst : firstRows (seen ++ [row]) = firstRows seen ++ [row] := by
    rw [firstRows_snoc, if_neg hnot]
  have hlen : st.heap.length = (firstRows seen).length := by
    rw [hheap]
    simp [collapse]
  have hold : ∀ r ∈ firstRows seen, ruleOf (seen ++ [row]) r = ruleOf seen r := by
    intro r hr
    apply ruleOf_snoc_of_ne
    intro e
    apply hnot
    rw [e]
    exact (mem_firstRows_ids seen r.ID).mp (List.mem_map.mpr ⟨r, hr, rfl⟩)
  refine ⟨?_, ?_, ?_, ?_⟩
  · simp only [rulesBody, hu, collapse, hfirst, List.map_append, List.map_cons, List.map_nil]
    rw [List.map_congr_left hold, hheap]
    simp only [collapse]
    congr 1
    by_cases hv : row.optionalConstraint.Id.Valid = true
    · simp [ruleOf, constraintsOf_snoc, constraintsOf_of_not_mem _ _ hnot, hv, sliceOf,
        Slice.append, Slice.toList]
    · simp [ruleOf, constraintsOf_snoc, constraintsOf_of_not_mem _ _ hnot, hv, sliceOf]
  · simp only [rulesBody, hu, hrules, hfirst, Slice.append, Slice.toList, hlen,
      List.length_append, List.length_singleton, List.range_succ]
  · intro id i h
    simp only [rulesBody, hu] at h
    rw [hfirst, List.map_append]
    by_cases hid : id = row.ID
    · subst hid
      rw [if_pos (by split_ifs <;> rfl)] at h
      have hi : i = st.heap.length := by
        simpa using h.symm
      rw [hi, hlen, List.getElem?_append_right (by simp)]
      simp
    · rw [if_neg (by split_ifs <;> exact hid)] at h
      have h1 := hsome id i h
      have hlt : i < ((firstRows seen).map (fun r => r.ID)).length :=
        (List.getElem?_eq_some.mp h1).1
      rw [List.getElem?_append_left hlt]
      exact h1
  · intro id h
    simp only [rulesBody, hu] at h
    by_cases hid : id = row.ID
    · subst hid
      rw [if_pos (by split_ifs <;> rfl)] at h
      simp at h
    · rw [if_neg (by split_ifs <;> exact hid)] at h
      have := hnone id h
      simp only [List.map_append, List.mem_append, List.map_cons, List.map_nil,
        List.mem_singleton]
      rintro (h1 | h1)
      · exact this h1
      · exact hid h1

theorem RulesInv_body_known (st : RulesState) (seen : List RuleRow) (row : RuleRow)
    (hinv : RulesInv st seen) (i : Ptr) (hu : st.uniqueRules row.ID = some i) :
    RulesInv (rulesBody st row) (seen ++ [row]) := by
  obtain ⟨hheap, hrules, hsome, hnone⟩ := hinv
  have hi : ((firstRows seen).map (fun r => r.ID))[i]? = some row.ID := hsome _ _ hu
  have hmem : row.ID ∈ seen.map (fun r => r.ID) :=
    (mem_firstRows_ids seen row.ID).mp (List.getElem?_mem hi)
  have hfirst : firstRows (seen ++ [row]) = firstRows seen := by
    rw [firstRows_snoc, if_pos hmem]
  have hmap : ∀ id, (rulesBody st row).uniqueRules id = st.uniqueRules id := by
    intro id
    simp only [rulesBody, hu]
    split_ifs <;> rfl
  have hrl : (rulesBody st row).rules = st.rules := by
    simp only [rulesBody, hu]
    split_ifs <;> rfl
  refine ⟨?_, ?_, ?_, ?_⟩
  · by_cases hv : row.optionalConstraint.Id.Valid = true
    · simp only [rulesBody, hu, hv, if_true, collapse, hfirst, hheap]
      apply List.ext_getElem?
      intro j
      rw [List.getElem?_modify, List.getElem?_map, List.getElem?_map]
      cases hj : (firstRows seen)[j]? with
      | none => rfl
      | some r =>
        simp only [Option.map_some', Option.map_eq_map]
        by_cases hij : i = j
        · rw [if_pos hij]
          have hr : row.ID = r.ID := by
            rw [List.getElem?_map, hij, hj] at hi
            simpa using hi.symm
          rw [ruleOf_snoc_of_eq seen row r hr hv]
        · rw [if_neg hij]
          have hr : row.ID ≠ r.ID := by
            intro e
            apply hij
            have hj2 : ((firstRows seen).map (fun r => r.ID))[j]? = some row.ID := by
              rw [List.getElem?_map, hj, e]
              rfl
            exact getElem?_inj_of_nodup (firstRows_nodup seen) hi hj2
          rw [ruleOf_snoc_of_ne seen row r hr]
    · have hv2 : row.optionalConstraint.Id.Valid = false := by simpa using hv
      have hb : (rulesBody st row).heap = st.heap := by simp [rulesBody, hu, hv2]
      rw [hb, hheap]
      simp only [collapse, hfirst]
      exact List.map_congr_left (fun r _ => (ruleOf_snoc_of_null seen row r hv2).symm)
  · rw [hrl, hfirst]
    exact hrules
  · intro id k h
    rw [hmap] at h
    rw [hfirst]
    exact hsome id k h
  · intro id h
    rw [hmap] at h
    have h1 := hnone id h
    have hid : id ≠ row.ID := by
      intro e
      rw [e, hu] at h
      simp at h
    simp only [List.map_append, List.mem_append, List.map_cons, List.map_nil,
      List.mem_singleton]
    rintro (h2 | h2)
    · exact h1 h2
    · exact hid h2

theorem RulesInv_body (st : RulesState) (seen : List RuleRow) (row : RuleRow)
    (hinv : RulesInv st seen) : RulesInv (rulesBody st row) (seen ++ [row]) := by
  cases hu : st.uniqueRules row.ID with
  | none => exact RulesInv_body_new st seen row hinv hu
  | some i => exact RulesInv_body_known st seen row hinv i hu

theorem filterMap_range_getElem? {α : Type} (l : List α) :
    (List.range l.length).filterMap (fun p => l[p]?) = l := by
  induction l using List.reverseRecOn with
  | nil => rfl
  | append_singleton l a ih =>
    rw [List.length_append, List.length_singleton, List.range_succ, List.filterMap_append]
    have hleft : List.filterMap (fun p => (l ++ [a])[p]?) (List.range l.length) =
        List.filterMap (fun p => l[p]?) (List.range l.length) := by
      apply List.filterMap_congr
      intro p hp
      rw [List.getElem?_append_left (List.mem_range.mp hp)]
    rw [hleft, ih]
    simp

theorem RulesInv_result (st : RulesState) (seen : List RuleRow) (hinv : RulesInv st seen) :
    st.result = Slice.items (collapse seen) := by
  obtain ⟨hheap, hrules, _, _⟩ := hinv
  have hlen : (firstRows seen).length = (collapse seen).length := by simp [collapse]
  simp only [RulesState.result, hrules, Slice.toList, hheap, hlen]
  rw [filterMap_range_getElem?]

/-! ### The loop of GetEvaluationRules -/

/-- Either every scan succeeded or there is a first scan that failed. -/
theorem scans_cases {ρ : Type} (scans : List (Except Error ρ)) :
    (∃ scanned : List ρ, scans = scanned.map Except.ok) ∨
    (∃ (scanned : List ρ) (err : Error) (rest : List (Except Error ρ)),
      scans = scanned.map Except.ok ++ Except.error err :: rest) := by
  induction scans with
  | nil => exact Or.inl ⟨[], rfl⟩
  | cons a scans ih =>
    cases a with
    | error err => exact Or.inr ⟨[], err, scans, rfl⟩
    | ok row =>
      rcases ih with ⟨scanned, h⟩ | ⟨scanned, err, rest, h⟩
      · exact Or.inl ⟨row :: scanned, by rw [h]; rfl⟩
      · exact Or.inr ⟨row :: scanned, err, rest, by rw [h]; rfl⟩

theorem rulesLoop_ok (scanned : List RuleRow) (st : RulesState) (seen : List RuleRow)
    (hinv : RulesInv st seen) :
    ∃ st1, rulesLoop st (scanned.map Except.ok) = (st1, none) ∧ RulesInv st1 (seen ++ scanned) := by
  induction scanned generalizing st seen with
  | nil => exact ⟨st, rfl, by simpa using hinv⟩
  | cons row scanned ih =>
    obtain ⟨st1, h1, h2⟩ := ih (rulesBody st row) (seen ++ [row]) (RulesInv_body st seen row hinv)
    refine ⟨st1, ?_, ?_⟩
    · simpa [rulesLoop] using h1
    · simpa using h2

theorem rulesLoop_error (scanned : List RuleRow) (err : Error) (rest : List (Except Error RuleRow))
    (st : RulesState) (seen : List RuleRow) (hinv : RulesInv st seen) :
    ∃ st1, rulesLoop st (scanned.map Except.ok ++ Except.error err :: rest) = (st1, some err) ∧
      RulesInv st1 (seen ++ scanned) := by
  induction scanned generalizing st seen with
  | nil => exact ⟨st, rfl, by simpa using hinv⟩
  | cons row scanned ih =>
    obtain ⟨st1, h1, h2⟩ := ih (rulesBody st row) (seen ++ [row]) (RulesInv_body st seen row hinv)
    refine ⟨st1, ?_, ?_⟩
    · simpa [rulesLoop] using h1
    · simpa using h2

/-- When the query succeeds and every row scans, the rules returned are the
collapsed rows and the error is that of `Err`, else that of `Close`. -/
theorem GetEvaluationRules_of_scanned (D : String) (s : Store) (namespaceKey flagKey : String)
    (rows : Rows RuleRow) (scanned : List RuleRow)
    (hq : s.QueryRules (rulesQuery (if namespaceKey = "" then D else namespaceKey) flagKey)
      = Except.ok rows)
    (hscan : rows.scans = scanned.map Except.ok) :
    GetEvaluationRules D s namespaceKey flagKey =
      (Slice.items (collapse scanned),
        match rows.Err with
        | some err => some err
        | none => rows.Close) := by
  obtain ⟨st1, h1, h2⟩ := rulesLoop_ok scanned RulesState.init [] RulesInv_init
  have hres := RulesInv_result st1 _ h2
  simp only [List.nil_append] at hres
  simp only [GetEvaluationRules, hq, hscan, h1, hres]
  cases rows.Err with
  | some err => rfl
  | none =>
    cases rows.Close with
    | some err => rfl
    | none => rfl

/-- When the query succeeds and a scan fails, the error returned is that of the
first failing scan, next to the rules collapsed from the rows scanned before. -/
theorem GetEvaluationRules_of_scan_error (D : String) (s : Store) (namespaceKey flagKey : String)
    (rows : Rows RuleRow) (scanned : List RuleRow) (err : Error)
    (rest : List (Except Error RuleRow))
    (hq : s.QueryRules (rulesQuery (if namespaceKey = "" then D else namespaceKey) flagKey)
      = Except.ok rows)
    (hscan : rows.scans = scanned.map Except.ok ++ Except.error err :: rest) :
    GetEvaluationRules D s namespaceKey flagKey = (Slice.items (collapse scanned), some err) := by
  obtain ⟨st1, h1, h2⟩ := rulesLoop_error scanned err rest RulesState.init [] RulesInv_init
  have hres := RulesInv_result st1 _ h2
  simp only [List.nil_append] at hres
  simp only [GetEvaluationRules, hq, hscan, h1, hres]

/-- A call that reports no error scanned every row. -/
theorem GetEvaluationRules_success (D : String) (s : Store) (namespaceKey flagKey : String)
    (rows : Rows RuleRow)
    (hq : s.QueryRules (rulesQuery (if namespaceKey = "" then D else namespaceKey) flagKey)
      = Except.ok rows)
    (hok : (GetEvaluationRules D s namespaceKey flagKey).2 = none) :
    ∃ scanned, rows.scans = scanned.map Except.ok ∧ rows.Err = none ∧ rows.Close = none ∧
      (GetEvaluationRules D s namespaceKey flagKey).1 = Slice.items (collapse scanned) := by
  rcases scans_cases rows.scans with ⟨scanned, h⟩ | ⟨scanned, err, rest, h⟩
  · have heq := GetEvaluationRules_of_scanned D s namespaceKey flagKey rows scanned hq h
    rw [heq] at hok
    refine ⟨scanned, h, ?_, ?_, by rw [heq]⟩
    · cases hE : rows.Err with
      | none => rfl
      | some err => simp [hE] at hok
    · cases hE : rows.Err with
      | none => simpa [hE] using hok
      | some err => simp [hE] at hok
  · have heq := GetEvaluationRules_of_scan_error D s namespaceKey flagKey rows scanned err rest hq h
    rw [heq] at hok
    simp at hok

theorem firstRows_indexOf_pairwise (seen : List RuleRow) :
    ((firstRows seen).map (fun r => (seen.map (fun x => x.ID)).indexOf r.ID)).Pairwise
      (fun a b => a < b) := by
  induction seen using List.reverseRecOn with
  | nil => simp [firstRows]
  | append_singleton seen row ih =>
    have hold : ∀ r ∈ firstRows seen,
        ((seen ++ [row]).map (fun x => x.ID)).indexOf r.ID =
          (seen.map (fun x => x.ID)).indexOf r.ID := by
      intro r hr
      rw [List.map_append]
      exact List.indexOf_append_of_mem
        ((mem_firstRows_ids seen r.ID).mp (List.mem_map.mpr ⟨r, hr, rfl⟩))
    rw [firstRows_snoc]
    by_cases h : row.ID ∈ seen.map (fun r => r.ID)
    · rw [if_pos h, List.map_congr_left hold]
      exact ih
    · rw [if_neg h, List.map_append, List.pairwise_append, List.map_congr_left hold]
      refine ⟨ih, by simp, ?_⟩
      intro a ha b hb
      simp only [List.map_cons, List.map_nil, List.mem_singleton] at hb
      rw [hb, List.map_append, List.indexOf_append_of_not_mem h]
      obtain ⟨r, hr, rfl⟩ := List.mem_map.mp ha
      have hlt : (seen.map (fun x => x.ID)).indexOf r.ID < (seen.map (fun x => x.ID)).length :=
        List.indexOf_lt_length.mpr
          ((mem_firstRows_ids seen r.ID).mp (List.mem_map.mpr ⟨r, hr, rfl⟩))
      omega

/-! ### Properties of the collapsed rules -/

theorem collapse_ids (seen : List RuleRow) :
    (collapse seen).map (fun r => r.ID) = (firstRows seen).map (fun r => r.ID) := by
  simp [collapse, ruleOf]

/-- C1: for every sequence of joined rows the rule query yields, a successful
`GetEvaluationRules` returns one rule per distinct rule id of the rows: the ids
of the result have no duplicate and are those of the rows, the rules stand in
the order of the first occurrence of their id, and every rule carries the id,
namespace key, flag key, segment key, match type and rank of the first row
with its id. -/
theorem GetEvaluationRules_one_rule_per_id (D : String) (s : Store)
    (namespaceKey flagKey : String) (rows : Rows RuleRow) (scanned : List RuleRow)
    (hq : s.QueryRules (rulesQuery (if namespaceKey = "" then D else namespaceKey) flagKey)
      = Except.ok rows)
    (hscan : rows.scans = scanned.map Except.ok)
    (hok : (GetEvaluationRules D s namespaceKey flagKey).2 = none) :
    ∃ rules : List EvaluationRule,
      GetEvaluationRules D s namespaceKey flagKey = (Slice.items rules, none) ∧
      (rules.map (fun r => r.ID)).Nodup ∧
      (∀ id, id ∈ rules.map (fun r => r.ID) ↔ id ∈ scanned.map (fun row => row.ID)) ∧
      rules.length = (scanned.map (fun row => row.ID)).toFinset.card ∧
      (rules.map (fun r => (scanned.map (fun row => row.ID)).indexOf r.ID)).Pairwise
        (fun i j => i < j) ∧
      (∀ r ∈ rules, ∃ row, scanned.find? (fun x => x.ID == r.ID) = some row ∧
        r.ID = row.ID ∧ r.NamespaceKey = row.NamespaceKey ∧ r.FlagKey = row.FlagKey ∧
        r.SegmentKey = row.SegmentKey ∧ r.SegmentMatchType = row.SegmentMatchType ∧
        r.Rank = row.Rank) := by
  have heq := GetEvaluationRules_of_scanned D s namespaceKey flagKey rows scanned hq hscan
  have hnone : (match rows.Err with
      | some err => some err
      | none => rows.Close) = none := by
    rw [heq] at hok
    exact hok
  rw [hnone] at heq
  have hnodup : ((collapse scanned).map (fun r => r.ID)).Nodup := by
    rw [collapse_ids]
    exact firstRows_nodup scanned
  have hmem : ∀ id, id ∈ (collapse scanned).map (fun r => r.ID) ↔
      id ∈ scanned.map (fun row => row.ID) := by
    intro id
    rw [collapse_ids]
    exact mem_firstRows_ids scanned id
  refine ⟨collapse scanned, heq, hnodup, hmem, ?_, ?_, ?_⟩
  · rw [← List.length_map (collapse scanned) (fun r => r.ID),
      ← List.toFinset_card_of_nodup hnodup]
    congr 1
    ext id
    simp only [List.mem_toFinset]
    exact hmem id
  · have := firstRows_indexOf_pairwise scanned
    simpa [collapse, ruleOf, Function.comp_def] using this
  · intro r hr
    obtain ⟨row, hrow, rfl⟩ := List.mem_map.mp hr
    exact ⟨row, find_of_mem_firstRows scanned row hrow, rfl, rfl, rfl, rfl, rfl, rfl⟩

/-- Witness of C1 on the example rows. -/
theorem GetEvaluationRules_one_rule_per_id_witness :
    ∃ rules : List EvaluationRule,
      GetEvaluationRules "default" (storeOfRows exampleInterleavedRows []) "" "flag"
        = (Slice.items rules, none) ∧
      (rules.map (fun r => r.ID)).Nodup ∧
      (∀ id, id ∈ rules.map (fun r => r.ID) ↔
        id ∈ exampleInterleavedRows.map (fun row => row.ID)) ∧
      rules.length = (exampleInterleavedRows.map (fun row => row.ID)).toFinset.card ∧
      (rules.map (fun r => (exampleInterleavedRows.map (fun row => row.ID)).indexOf r.ID)).Pairwise
        (fun i j => i < j) ∧
      (∀ r ∈ rules, ∃ row, exampleInterleavedRows.find? (fun x => x.ID == r.ID) = some row ∧
        r.ID = row.ID ∧ r.NamespaceKey = row.NamespaceKey ∧ r.FlagKey = row.FlagKey ∧
        r.SegmentKey = row.SegmentKey ∧ r.SegmentMatchType = row.SegmentMatchType ∧
        r.Rank = row.Rank) :=
  GetEvaluationRules_one_rule_per_id "default" (storeOfRows exampleInterleavedRows []) "" "flag"
    { scans := exampleInterleavedRows.map Except.ok, Err := none, Close := none }
    exampleInterleavedRows rfl rfl (by decide)

/-- The returned pair when the call reports no error after scanning `scanned`. -/
theorem GetEvaluationRules_of_success (D : String) (s : Store) (namespaceKey flagKey : String)
    (rows : Rows RuleRow) (scanned : List RuleRow)
    (hq : s.QueryRules (rulesQuery (if namespaceKey = "" then D else namespaceKey) flagKey)
      = Except.ok rows)
    (hscan : rows.scans = scanned.map Except.ok)
    (hok : (GetEvaluationRules D s namespaceKey flagKey).2 = none) :
    GetEvaluationRules D s namespaceKey flagKey = (Slice.items (collapse scanned), none) := by
  have heq := GetEvaluationRules_of_scanned D s namespaceKey flagKey rows scanned hq hscan
  rw [heq] at hok
  rw [heq]
  exact congrArg _ hok

theorem constraints_of_mem_collapse (seen : List RuleRow) (r : EvaluationRule)
    (hr : r ∈ collapse seen) :
    r.Constraints.toList =
      (seen.filter (fun row => row.ID = r.ID ∧ row.optionalConstraint.Id.Valid = true)).map
        (fun row => constraintOf row.optionalConstraint) := by
  obtain ⟨row, _, rfl⟩ := List.mem_map.mp hr
  simp only [ruleOf, Slice.toList_sliceOf, constraintsOf]

/-- C2: for every sequence of joined rows (those of one rule need not be
adjacent), a successful `GetEvaluationRules` returns one rule for the rule id
of every row, and the constraint list of every returned rule is, in row order,
the list of the constraints (id, type, property, operator, value) of exactly
the rows that carry the id of the rule and a non-null constraint id: every
constraint of a rule comes from a row of that rule, and the constraint of
every row with a non-null constraint id is in the list of the one rule that
has the id of the row. -/
theorem GetEvaluationRules_constraints_in_row_order (D : String) (s : Store)
    (namespaceKey flagKey : String) (rows : Rows RuleRow) (scanned : List RuleRow)
    (hq : s.QueryRules (rulesQuery (if namespaceKey = "" then D else namespaceKey) flagKey)
      = Except.ok rows)
    (hscan : rows.scans = scanned.map Except.ok)
    (hok : (GetEvaluationRules D s namespaceKey flagKey).2 = none) :
    ∃ rules : List EvaluationRule,
      GetEvaluationRules D s namespaceKey flagKey = (Slice.items rules, none) ∧
      (rules.map (fun r => r.ID)).Nodup ∧
      (∀ row ∈ scanned, ∃ r ∈ rules, r.ID = row.ID) ∧
      (∀ r ∈ rules,
        r.Constraints.toList =
          (scanned.filter
            (fun row => row.ID = r.ID ∧ row.optionalConstraint.Id.Valid = true)).map
            (fun row =>
              ({ ID := row.optionalConstraint.Id.String
                 Type_ := row.optionalConstraint.Type_.Int32
                 Property := row.optionalConstraint.Property.String
                 Operator := row.optionalConstraint.Operator.String
                 Value := row.optionalConstraint.Value.String } : EvaluationConstraint))) ∧
      (∀ r ∈ rules, ∀ c ∈ r.Constraints.toList,
        ∃ row ∈ scanned, row.ID = r.ID ∧ row.optionalConstraint.Id.Valid = true ∧
          c = constraintOf row.optionalConstraint) ∧
      (∀ row ∈ scanned, row.optionalConstraint.Id.Valid = true →
        ∃ r ∈ rules, r.ID = row.ID ∧
          constraintOf row.optionalConstraint ∈ r.Constraints.toList ∧
          ∀ r2 ∈ rules, r2.ID = row.ID → r2 = r) := by
  have hnodup : ((collapse scanned).map (fun r => r.ID)).Nodup := by
    rw [collapse_ids]
    exact firstRows_nodup scanned
  have hpresent : ∀ row ∈ scanned, ∃ r ∈ collapse scanned, r.ID = row.ID := by
    intro row hrow
    have hid : row.ID ∈ (collapse scanned).map (fun r => r.ID) := by
      rw [collapse_ids]
      exact (mem_firstRows_ids scanned row.ID).mpr (List.mem_map.mpr ⟨row, hrow, rfl⟩)
    obtain ⟨r, hr, hrid⟩ := List.mem_map.mp hid
    exact ⟨r, hr, hrid⟩
  refine ⟨collapse scanned,
    GetEvaluationRules_of_success D s namespaceKey flagKey rows scanned hq hscan hok,
    hnodup, hpresent, fun r hr => constraints_of_mem_collapse scanned r hr, ?_, ?_⟩
  · intro r hr c hc
    rw [constraints_of_mem_collapse scanned r hr] at hc
    obtain ⟨row, hrow, hrc⟩ := List.mem_map.mp hc
    have hrow2 := List.mem_filter.mp hrow
    have hcond := hrow2.2
    simp only [decide_eq_true_eq] at hcond
    exact ⟨row, hrow2.1, hcond.1, hcond.2, hrc.symm⟩
  · intro row hrow hv
    obtain ⟨r, hr, hrid⟩ := hpresent row hrow
    refine ⟨r, hr, hrid, ?_, ?_⟩
    · rw [constraints_of_mem_collapse scanned r hr]
      apply List.mem_map.mpr
      refine ⟨row, List.mem_filter.mpr ⟨hrow, ?_⟩, rfl⟩
      simp only [decide_eq_true_eq]
      exact ⟨hrid.symm, hv⟩
    · intro r2 hr2 hr2id
      exact List.inj_on_of_nodup_map hnodup hr2 hr (hr2id.trans hrid.symm)

/-- Witness of C2 on rows in which the rows of one rule are not adjacent. -/
theorem GetEvaluationRules_constraints_in_row_order_witness :
    ∃ rules : List EvaluationRule,
      GetEvaluationRules "default" (storeOfRows exampleInterleavedRows []) "" "flag"
        = (Slice.items rules, none) ∧
      (rules.map (fun r => r.ID)).Nodup ∧
      (∀ row ∈ exampleInterleavedRows, ∃ r ∈ rules, r.ID = row.ID) ∧
      (∀ r ∈ rules,
        r.Constraints.toList =
          (exampleInterleavedRows.filter
            (fun row => row.ID = r.ID ∧ row.optionalConstraint.Id.Valid = true)).map
            (fun row =>
              ({ ID := row.optionalConstraint.Id.String
                 Type_ := row.optionalConstraint.Type_.Int32
                 Property := row.optionalConstraint.Property.String
                 Operator := row.optionalConstraint.Operator.String
                 Value := row.optionalConstraint.Value.String } : EvaluationConstraint))) ∧
      (∀ r ∈ rules, ∀ c ∈ r.Constraints.toList,
        ∃ row ∈ exampleInterleavedRows, row.ID = r.ID ∧ row.optionalConstraint.Id.Valid = true ∧
          c = constraintOf row.optionalConstraint) ∧
      (∀ row ∈ exampleInterleavedRows, row.optionalConstraint.Id.Valid = true →
        ∃ r ∈ rules, r.ID = row.ID ∧
          constraintOf row.optionalConstraint ∈ r.Constraints.toList ∧
          ∀ r2 ∈ rules, r2.ID = row.ID → r2 = r) :=
  GetEvaluationRules_constraints_in_row_order "default" (storeOfRows exampleInterleavedRows [])
    "" "flag" { scans := exampleInterleavedRows.map Except.ok, Err := none, Close := none }
    exampleInterleavedRows rfl rfl (by decide)

/-- A row with a null constraint id leaves every rule object as it is; when it
starts a rule, that rule has no constraint. -/
theorem rulesBody_of_null (st : RulesState) (row : RuleRow)
    (hv : row.optionalConstraint.Id.Valid = false) :
    (rulesBody st row).heap = st.heap ∨
      ∃ newRule : EvaluationRule,
        (rulesBody st row).heap = st.heap ++ [newRule] ∧ newRule.Constraints.len = 0 := by
  cases hu : st.uniqueRules row.ID with
  | some i =>
    left
    simp [rulesBody, hu, hv]
  | none =>
    right
    simp [rulesBody, hu, hv, Slice.len, Slice.toList]

/-- C3: in a successful `GetEvaluationRules`, a rule whose only joined row has a
null constraint id is in the result, with a constraint list of length zero; a
row whose constraint id is null adds no constraint to any rule: the constraint
lists are those of the rows without it, and the loop body leaves every rule
object unchanged for such a row (a rule it starts has no constraint). -/
theorem GetEvaluationRules_null_constraint (D : String) (s : Store)
    (namespaceKey flagKey : String) (rows : Rows RuleRow) (scanned : List RuleRow)
    (hq : s.QueryRules (rulesQuery (if namespaceKey = "" then D else namespaceKey) flagKey)
      = Except.ok rows)
    (hscan : rows.scans = scanned.map Except.ok)
    (hok : (GetEvaluationRules D s namespaceKey flagKey).2 = none) :
    ∃ rules : List EvaluationRule,
      GetEvaluationRules D s namespaceKey flagKey = (Slice.items rules, none) ∧
      (∀ row ∈ scanned, scanned.filter (fun x => x.ID = row.ID) = [row] →
        row.optionalConstraint.Id.Valid = false →
        ∃ r ∈ rules, r.ID = row.ID ∧ r.Constraints.len = 0) ∧
      (∀ pre row post, scanned = pre ++ row :: post →
        row.optionalConstraint.Id.Valid = false →
        ∀ r ∈ rules,
          r.Constraints.toList =
            ((pre ++ post).filter
              (fun x => x.ID = r.ID ∧ x.optionalConstraint.Id.Valid = true)).map
              (fun x => constraintOf x.optionalConstraint)) ∧
      (∀ (st : RulesState) (row : RuleRow), row.optionalConstraint.Id.Valid = false →
        (rulesBody st row).heap = st.heap ∨
          ∃ newRule : EvaluationRule,
            (rulesBody st row).heap = st.heap ++ [newRule] ∧ newRule.Constraints.len = 0) := by
  refine ⟨collapse scanned,
    GetEvaluationRules_of_success D s namespaceKey flagKey rows scanned hq hscan hok,
    ?_, ?_, rulesBody_of_null⟩
  · intro row hrow honly hv
    have hid : row.ID ∈ (collapse scanned).map (fun r => r.ID) := by
      rw [collapse_ids]
      exact (mem_firstRows_ids scanned row.ID).mpr (List.mem_map.mpr ⟨row, hrow, rfl⟩)
    obtain ⟨r, hr, hrid⟩ := List.mem_map.mp hid
    refine ⟨r, hr, hrid, ?_⟩
    have hfilter : scanned.filter
        (fun x => x.ID = row.ID ∧ x.optionalConstraint.Id.Valid = true) = [] := by
      have h2 : scanned.filter
          (fun x => x.ID = row.ID ∧ x.optionalConstraint.Id.Valid = true) =
          (scanned.filter (fun x => x.ID = row.ID)).filter
            (fun x => x.optionalConstraint.Id.Valid = true) := by
        rw [List.filter_filter]
        congr 1
        funext x
        simp [Bool.and_comm]
      rw [h2, honly]
      simp [hv]
    rw [Slice.len, constraints_of_mem_collapse scanned r hr, hrid, hfilter]
    rfl
  · intro pre row post hsplit hv r hr
    rw [constraints_of_mem_collapse scanned r hr, hsplit]
    simp [List.filter_append, List.filter_cons, hv]

/-- Witness of C3 on the example rows, whose rule `b` has one row with null
constraint columns. -/
theorem GetEvaluationRules_null_constraint_witness :
    (GetEvaluationRules "default" (storeOfRows exampleRuleRows []) "" "flag").2 = none ∧
    ∃ rules : List EvaluationRule,
      GetEvaluationRules "default" (storeOfRows exampleRuleRows []) "" "flag"
        = (Slice.items rules, none) ∧
      (∀ row ∈ exampleRuleRows, exampleRuleRows.filter (fun x => x.ID = row.ID) = [row] →
        row.optionalConstraint.Id.Valid = false →
        ∃ r ∈ rules, r.ID = row.ID ∧ r.Constraints.len = 0) ∧
      (∀ pre row post, exampleRuleRows = pre ++ row :: post →
        row.optionalConstraint.Id.Valid = false →
        ∀ r ∈ rules,
          r.Constraints.toList =
            ((pre ++ post).filter
              (fun x => x.ID = r.ID ∧ x.optionalConstraint.Id.Valid = true)).map
              (fun x => constraintOf x.optionalConstraint)) ∧
      (∀ (st : RulesState) (row : RuleRow), row.optionalConstraint.Id.Valid = false →
        (rulesBody st row).heap = st.heap ∨
          ∃ newRule : EvaluationRule,
            (rulesBody st row).heap = st.heap ++ [newRule] ∧ newRule.Constraints.len = 0) :=
  ⟨by decide,
    GetEvaluationRules_null_constraint "default" (storeOfRows exampleRuleRows [])
      "" "flag" { scans := exampleRuleRows.map Except.ok, Err := none, Close := none }
      exampleRuleRows rfl rfl (by decide)⟩

/-- C4: if the joined rows arrive sorted by rank ascending, the rules returned
by a successful `GetEvaluationRules` are sorted by rank ascending. (That the
rows of one rule id carry the same rank is not needed: a rule takes the rank of
the first row with its id.) -/
theorem GetEvaluationRules_sorted_by_rank (D : String) (s : Store)
    (namespaceKey flagKey : String) (rows : Rows RuleRow) (scanned : List RuleRow)
    (hq : s.QueryRules (rulesQuery (if namespaceKey = "" then D else namespaceKey) flagKey)
      = Except.ok rows)
    (hscan : rows.scans = scanned.map Except.ok)
    (hsorted : scanned.Pairwise (fun a b => a.Rank ≤ b.Rank))
    (hok : (GetEvaluationRules D s namespaceKey flagKey).2 = none) :
    ∃ rules : List EvaluationRule,
      GetEvaluationRules D s namespaceKey flagKey = (Slice.items rules, none) ∧
      rules.Pairwise (fun a b => a.Rank ≤ b.Rank) := by
  refine ⟨collapse scanned,
    GetEvaluationRules_of_success D s namespaceKey flagKey rows scanned hq hscan hok, ?_⟩
  rw [collapse, List.pairwise_map]
  exact hsorted.sublist (firstRows_sublist scanned)

/-- Witness of C4 on the example rows, which are sorted by rank. -/
theorem GetEvaluationRules_sorted_by_rank_witness :
    exampleRuleRows.Pairwise (fun a b => a.Rank ≤ b.Rank) ∧
    ∃ rules : List EvaluationRule,
      GetEvaluationRules "default" (storeOfRows exampleRuleRows []) "" "flag"
        = (Slice.items rules, none) ∧
      rules.Pairwise (fun a b => a.Rank ≤ b.Rank) :=
  ⟨by decide,
    GetEvaluationRules_sorted_by_rank "default" (storeOfRows exampleRuleRows [])
      "" "flag" { scans := exampleRuleRows.map Except.ok, Err := none, Close := none }
      exampleRuleRows rfl rfl (by decide) (by decide)⟩

/-! ### The loop of GetEvaluationDistributions -/

theorem Slice.toList_foldl_append {α : Type} (l : List α) (acc : Slice α) :
    (l.foldl Slice.append acc).toList = acc.toList ++ l := by
  induction l generalizing acc with
  | nil => simp
  | cons a l ih =>
    rw [List.foldl_cons, ih]
    simp [Slice.append, Slice.toList]

theorem distributionsLoop_cons_ok (compact : String → Except Error String)
    (acc : Slice EvaluationDistribution) (row : DistributionRow)
    (rest : List (Except Error DistributionRow)) :
    distributionsLoop compact acc (Except.ok row :: rest) =
      match toDistribution compact row with
      | Except.error err => (acc, some err)
      | Except.ok d => distributionsLoop compact (acc.append d) rest := by
  by_cases hv : row.attachment.Valid = true
  · cases hc : compact row.attachment.String with
    | error err => simp [distributionsLoop, toDistribution, hv, hc]
    | ok a => simp [distributionsLoop, toDistribution, hv, hc]
  · simp [distributionsLoop, toDistribution, hv]

/-- Rows that all convert are appended in order. -/
theorem distributionsLoop_ok (compact : String → Except Error String)
    (scanned : List DistributionRow) (ds : List EvaluationDistribution)
    (h : List.Forall₂ (fun row d => toDistribution compact row = Except.ok d) scanned ds)
    (acc : Slice EvaluationDistribution) :
    distributionsLoop compact acc (scanned.map Except.ok) = (ds.foldl Slice.append acc, none) := by
  induction h generalizing acc with
  | nil => rfl
  | cons hd _ ih =>
    rw [List.map_cons, distributionsLoop_cons_ok, hd]
    exact ih _

/-- A scan that fails after rows that all convert ends the loop with its error. -/
theorem distributionsLoop_scan_error (compact : String → Except Error String)
    (scanned : List DistributionRow) (ds : List EvaluationDistribution)
    (h : List.Forall₂ (fun row d => toDistribution compact row = Except.ok d) scanned ds)
    (err : Error) (rest : List (Except Error DistributionRow))
    (acc : Slice EvaluationDistribution) :
    distributionsLoop compact acc (scanned.map Except.ok ++ Except.error err :: rest) =
      (ds.foldl Slice.append acc, some err) := by
  induction h generalizing acc with
  | nil => rfl
  | cons hd _ ih =>
    rw [List.map_cons, List.cons_append, distributionsLoop_cons_ok, hd]
    exact ih _

/-- A row that does not convert after rows that all convert ends the loop with
the error of its conversion. -/
theorem distributionsLoop_convert_error (compact : String → Except Error String)
    (scanned : List DistributionRow) (ds : List EvaluationDistribution)
    (h : List.Forall₂ (fun row d => toDistribution compact row = Except.ok d) scanned ds)
    (row : DistributionRow) (err : Error) (hrow : toDistribution compact row = Except.error err)
    (rest : List (Except Error DistributionRow))
    (acc : Slice EvaluationDistribution) :
    distributionsLoop compact acc (scanned.map Except.ok ++ Except.ok row :: rest) =
      (ds.foldl Slice.append acc, some err) := by
  induction h generalizing acc with
  | nil =>
    rw [List.map_nil, List.nil_append, distributionsLoop_cons_ok, hrow]
    rfl
  | cons hd _ ih =>
    rw [List.map_cons, List.cons_append, distributionsLoop_cons_ok, hd]
    exact ih _

/-- The three ways the loop of `GetEvaluationDistributions` can end. -/
theorem distribution_scans_cases (compact : String → Except Error String)
    (scans : List (Except Error DistributionRow)) :
    (∃ scanned ds, scans = scanned.map Except.ok ∧
      List.Forall₂ (fun row d => toDistribution compact row = Except.ok d) scanned ds) ∨
    (∃ scanned ds err rest, scans = scanned.map Except.ok ++ Except.error err :: rest ∧
      List.Forall₂ (fun row d => toDistribution compact row = Except.ok d) scanned ds) ∨
    (∃ scanned ds row err rest, scans = scanned.map Except.ok ++ Except.ok row :: rest ∧
      List.Forall₂ (fun row d => toDistribution compact row = Except.ok d) scanned ds ∧
      toDistribution compact row = Except.error err) := by
  induction scans with
  | nil => exact Or.inl ⟨[], [], rfl, List.Forall₂.nil⟩
  | cons a scans ih =>
    cases a with
    | error err => exact Or.inr (Or.inl ⟨[], [], err, scans, rfl, List.Forall₂.nil⟩)
    | ok row =>
      cases hrow : toDistribution compact row with
      | error err =>
        exact Or.inr (Or.inr ⟨[], [], row, err, scans, rfl, List.Forall₂.nil, hrow⟩)
      | ok d =>
        rcases ih with ⟨scanned, ds, h1, h2⟩ | ⟨scanned, ds, err, rest, h1, h2⟩ |
          ⟨scanned, ds, r, err, rest, h1, h2, h3⟩
        · exact Or.inl ⟨row :: scanned, d :: ds, by rw [h1]; rfl, List.Forall₂.cons hrow h2⟩
        · exact Or.inr (Or.inl ⟨row :: scanned, d :: ds, err, rest, by rw [h1]; rfl,
            List.Forall₂.cons hrow h2⟩)
        · exact Or.inr (Or.inr ⟨row :: scanned, d :: ds, r, err, rest, by rw [h1]; rfl,
            List.Forall₂.cons hrow h2, h3⟩)

/-- When the query succeeds and every row scans and converts, the distributions
returned are the converted rows and the error is that of `Err`, else that of
`Close`. -/
theorem GetEvaluationDistributions_of_scanned (compact : String → Except Error String)
    (s : Store) (ruleID : String) (rows : Rows DistributionRow)
    (scanned : List DistributionRow) (ds : List EvaluationDistribution)
    (hq : s.QueryDistributions (distributionsQuery ruleID) = Except.ok rows)
    (hscan : rows.scans = scanned.map Except.ok)
    (hds : List.Forall₂ (fun row d => toDistribution compact row = Except.ok d) scanned ds) :
    GetEvaluationDistributions compact s ruleID =
      (ds.foldl Slice.append Slice.null,
        match rows.Err with
        | some err => some err
        | none => rows.Close) := by
  simp only [GetEvaluationDistributions, hq, hscan, distributionsLoop_ok compact scanned ds hds]
  cases rows.Err with
  | some err => rfl
  | none =>
    cases rows.Close with
    | some err => rfl
    | none => rfl

theorem GetEvaluationDistributions_of_scan_error (compact : String → Except Error String)
    (s : Store) (ruleID : String) (rows : Rows DistributionRow)
    (scanned : List DistributionRow) (ds : List EvaluationDistribution)
    (err : Error) (rest : List (Except Error DistributionRow))
    (hq : s.QueryDistributions (distributionsQuery ruleID) = Except.ok rows)
    (hscan : rows.scans = scanned.map Except.ok ++ Except.error err :: rest)
    (hds : List.Forall₂ (fun row d => toDistribution compact row = Except.ok d) scanned ds) :
    GetEvaluationDistributions compact s ruleID = (ds.foldl Slice.append Slice.null, some err) := by
  simp only [GetEvaluationDistributions, hq, hscan,
    distributionsLoop_scan_error compact scanned ds hds]

theorem GetEvaluationDistributions_of_convert_error (compact : String → Except Error String)
    (s : Store) (ruleID : String) (rows : Rows DistributionRow)
    (scanned : List DistributionRow) (ds : List EvaluationDistribution)
    (row : DistributionRow) (err : Error) (rest : List (Except Error DistributionRow))
    (hq : s.QueryDistributions (distributionsQuery ruleID) = Except.ok rows)
    (hscan : rows.scans = scanned.map Except.ok ++ Except.ok row :: rest)
    (hds : List.Forall₂ (fun row d => toDistribution compact row = Except.ok d) scanned ds)
    (hrow : toDistribution compact row = Except.error err) :
    GetEvaluationDistributions compact s ruleID = (ds.foldl Slice.append Slice.null, some err) := by
  simp only [GetEvaluationDistributions, hq, hscan,
    distributionsLoop_convert_error compact scanned ds hds row err hrow]

/-- A call that reports no error scanned and converted every row. -/
theorem GetEvaluationDistributions_success (compact : String → Except Error String)
    (s : Store) (ruleID : String) (rows : Rows DistributionRow)
    (hq : s.QueryDistributions (distributionsQuery ruleID) = Except.ok rows)
    (hok : (GetEvaluationDistributions compact s ruleID).2 = none) :
    ∃ scanned ds, rows.scans = scanned.map Except.ok ∧
      List.Forall₂ (fun row d => toDistribution compact row = Except.ok d) scanned ds ∧
      rows.Err = none ∧ rows.Close = none ∧
      GetEvaluationDistributions compact s ruleID = (ds.foldl Slice.append Slice.null, none) := by
  rcases distribution_scans_cases compact rows.scans with ⟨scanned, ds, h1, h2⟩ |
    ⟨scanned, ds, err, rest, h1, h2⟩ | ⟨scanned, ds, r, err, rest, h1, h2, h3⟩
  · have heq := GetEvaluationDistributions_of_scanned compact s ruleID rows scanned ds hq h1 h2
    rw [heq] at hok
    have hE : rows.Err = none := by
      cases hE : rows.Err with
      | none => rfl
      | some err => simp [hE] at hok
    have hC : rows.Close = none := by simpa [hE] using hok
    refine ⟨scanned, ds, h1, h2, hE, hC, ?_⟩
    rw [heq, hE, hC]
  · rw [GetEvaluationDistributions_of_scan_error compact s ruleID rows scanned ds err rest
      hq h1 h2] at hok
    simp at hok
  · rw [GetEvaluationDistributions_of_convert_error compact s ruleID rows scanned ds r err rest
      hq h1 h2 h3] at hok
    simp at hok

/-! ### Properties of the converted rows -/

theorem toDistribution_fields (compact : String → Except Error String) (row : DistributionRow)
    (d : EvaluationDistribution) (h : toDistribution compact row = Except.ok d) :
    (d.ID = row.ID ∧ d.RuleID = row.RuleID ∧ d.VariantID = row.VariantID ∧
      d.Rollout = row.Rollout ∧ d.VariantKey = row.VariantKey) ∧
    (row.attachment.Valid = true → compact row.attachment.String = Except.ok d.VariantAttachment) ∧
    (row.attachment.Valid = false → d.VariantAttachment = "") := by
  unfold toDistribution at h
  by_cases hv : row.attachment.Valid = true
  · rw [if_pos hv] at h
    cases hc : compact row.attachment.String with
    | error err => simp [hc] at h
    | ok a =>
      simp only [hc, Except.ok.injEq] at h
      subst h
      simp [hv]
  · rw [if_neg hv] at h
    simp only [Except.ok.injEq] at h
    subst h
    simp [hv]

theorem map_ok_injective {ρ : Type} (l1 l2 : List ρ)
    (h : l1.map (Except.ok : ρ → Except Error ρ) = l2.map Except.ok) : l1 = l2 := by
  induction l1 generalizing l2 with
  | nil =>
    cases l2 with
    | nil => rfl
    | cons b l2 => simp at h
  | cons a l1 ih =>
    cases l2 with
    | nil => simp at h
    | cons b l2 =>
      simp only [List.map_cons, List.cons.injEq, Except.ok.injEq] at h
      rw [h.1, ih l2 h.2]

/-- Rows whose non-null attachments all compact can all be converted. -/
theorem exists_converted (compact : String → Except Error String)
    (scanned : List DistributionRow)
    (h : ∀ r ∈ scanned, r.attachment.Valid = true →
      ∃ a, compact r.attachment.String = Except.ok a) :
    ∃ ds, List.Forall₂ (fun row d => toDistribution compact row = Except.ok d) scanned ds := by
  induction scanned with
  | nil => exact ⟨[], List.Forall₂.nil⟩
  | cons row scanned ih =>
    obtain ⟨ds, hds⟩ := ih (fun r hr => h r (List.mem_cons_of_mem _ hr))
    by_cases hv : row.attachment.Valid = true
    · obtain ⟨a, ha⟩ := h row (List.mem_cons_self _ _) hv
      exact ⟨_ :: ds, List.Forall₂.cons (by simp [toDistribution, hv, ha]; rfl) hds⟩
    · exact ⟨_ :: ds, List.Forall₂.cons (by simp [toDistribution, hv]; rfl) hds⟩

/-- C5: on success `GetEvaluationDistributions` returns one distribution per
result row, in the row order of the query (whose only ORDER BY key is the
creation time, ascending), and each one carries the id, rule id, variant id,
rollout and variant key of its row unchanged. -/
theorem GetEvaluationDistributions_one_per_row (compact : String → Except Error String)
    (s : Store) (ruleID : String) (rows : Rows DistributionRow)
    (scanned : List DistributionRow)
    (hq : s.QueryDistributions (distributionsQuery ruleID) = Except.ok rows)
    (hscan : rows.scans = scanned.map Except.ok)
    (hok : (GetEvaluationDistributions compact s ruleID).2 = none) :
    (distributionsQuery ruleID).OrderBy = ["d.created_at ASC"] ∧
    (GetEvaluationDistributions compact s ruleID).1.toList.length = scanned.length ∧
    List.Forall₂
      (fun d row => d.ID = row.ID ∧ d.RuleID = row.RuleID ∧ d.VariantID = row.VariantID ∧
        d.Rollout = row.Rollout ∧ d.VariantKey = row.VariantKey)
      (GetEvaluationDistributions compact s ruleID).1.toList scanned := by
  obtain ⟨scanned1, ds, h1, h2, _, _, h5⟩ :=
    GetEvaluationDistributions_success compact s ruleID rows hq hok
  have hsame : scanned = scanned1 := map_ok_injective _ _ (hscan.symm.trans h1)
  subst hsame
  have hlist : (GetEvaluationDistributions compact s ruleID).1.toList = ds := by
    rw [h5, Slice.toList_foldl_append]
    rfl
  rw [hlist]
  refine ⟨rfl, h2.length_eq.symm, ?_⟩
  exact (h2.imp (fun row d h => (toDistribution_fields compact row d h).1)).flip

/-- Witness of C5 on the example distribution rows. -/
theorem GetEvaluationDistributions_one_per_row_witness :
    (GetEvaluationDistributions exampleCompact (storeOfRows [] exampleDistributionRows) "a").2
      = none ∧
    (distributionsQuery "a").OrderBy = ["d.created_at ASC"] ∧
    (GetEvaluationDistributions exampleCompact
      (storeOfRows [] exampleDistributionRows) "a").1.toList.length
      = exampleDistributionRows.length ∧
    List.Forall₂
      (fun d row => d.ID = row.ID ∧ d.RuleID = row.RuleID ∧ d.VariantID = row.VariantID ∧
        d.Rollout = row.Rollout ∧ d.VariantKey = row.VariantKey)
      (GetEvaluationDistributions exampleCompact
        (storeOfRows [] exampleDistributionRows) "a").1.toList
      exampleDistributionRows :=
  ⟨by decide,
    GetEvaluationDistributions_one_per_row exampleCompact
      (storeOfRows [] exampleDistributionRows) "a"
      { scans := exampleDistributionRows.map Except.ok, Err := none, Close := none }
      exampleDistributionRows rfl rfl (by decide)⟩

/-- C8: if a distribution row has a non-null attachment that
`compactJSONString` rejects, `GetEvaluationDistributions` returns that error
when the row is reached (the rows before it scanned and compacted), and in no
case reports success: whatever the other rows are, the returned error is not
nil, so the row is neither skipped nor returned with an empty attachment. -/
theorem GetEvaluationDistributions_attachment_error (compact : String → Except Error String)
    (s : Store) (ruleID : String) (rows : Rows DistributionRow)
    (hq : s.QueryDistributions (distributionsQuery ruleID) = Except.ok rows) :
    (∀ (scanned : List DistributionRow) (row : DistributionRow) (err : Error)
        (rest : List (Except Error DistributionRow)),
      rows.scans = scanned.map Except.ok ++ Except.ok row :: rest →
      (∀ r ∈ scanned, r.attachment.Valid = true →
        ∃ a, compact r.attachment.String = Except.ok a) →
      row.attachment.Valid = true →
      compact row.attachment.String = Except.error err →
      (GetEvaluationDistributions compact s ruleID).2 = some err) ∧
    (∀ (row : DistributionRow) (err : Error), Except.ok row ∈ rows.scans →
      row.attachment.Valid = true →
      compact row.attachment.String = Except.error err →
      (GetEvaluationDistributions compact s ruleID).2 ≠ none) := by
  constructor
  · intro scanned row err rest hscan hparse hv hc
    obtain ⟨ds, hds⟩ := exists_converted compact scanned hparse
    have hrow : toDistribution compact row = Except.error err := by
      simp [toDistribution, hv, hc]
    rw [GetEvaluationDistributions_of_convert_error compact s ruleID rows scanned ds row err rest
      hq hscan hds hrow]
  · intro row err hmem hv hc hnone
    obtain ⟨scanned, ds, h1, h2, _, _, _⟩ :=
      GetEvaluationDistributions_success compact s ruleID rows hq hnone
    rw [h1] at hmem
    obtain ⟨r, hr, hrr⟩ := List.mem_map.mp hmem
    simp only [Except.ok.injEq] at hrr
    subst hrr
    have hconv : ∀ (l : List DistributionRow) (ds : List EvaluationDistribution),
        List.Forall₂ (fun row d => toDistribution compact row = Except.ok d) l ds →
        r ∈ l → ∃ d, toDistribution compact r = Except.ok d := by
      intro l ds hf
      induction hf with
      | nil => intro h; simp at h
      | cons hd _ ih =>
        intro h
        rcases List.mem_cons.mp h with rfl | h
        · exact ⟨_, hd⟩
        · exact ih h
    obtain ⟨d, hd⟩ := hconv scanned ds h2 hr
    simp [toDistribution, hv, hc] at hd

/-- Witness of C8: the second example row carries an attachment that is not
JSON, and the call returns the error of the compaction. -/
theorem GetEvaluationDistributions_attachment_error_witness :
    (GetEvaluationDistributions exampleCompact
      (storeOfRows [] exampleBadAttachmentRows) "a").2 = some ⟨"invalid character"⟩ :=
  (GetEvaluationDistributions_attachment_error exampleCompact
    (storeOfRows [] exampleBadAttachmentRows) "a"
    { scans := exampleBadAttachmentRows.map Except.ok, Err := none, Close := none } rfl).1
    [exampleDistributionRow "d1" 30 (some "\x7b\x7d")]
    (exampleDistributionRow "d2" 70 (some "\x7boops")) ⟨"invalid character"⟩ [] rfl
    (fun r hr _ => by
      rw [List.mem_singleton.mp hr]
      exact ⟨"\x7b\x7d", rfl⟩)
    rfl rfl

/-- C9: for every row of a successful `GetEvaluationDistributions`, the
`VariantAttachment` returned is the result of `compactJSONString` on the stored
attachment text when the stored attachment is non-null, and the empty string
when it is null. -/
theorem GetEvaluationDistributions_attachment (compact : String → Except Error String)
    (s : Store) (ruleID : String) (rows : Rows DistributionRow)
    (scanned : List DistributionRow)
    (hq : s.QueryDistributions (distributionsQuery ruleID) = Except.ok rows)
    (hscan : rows.scans = scanned.map Except.ok)
    (hok : (GetEvaluationDistributions compact s ruleID).2 = none) :
    List.Forall₂
      (fun d row =>
        (row.attachment.Valid = true →
          compact row.attachment.String = Except.ok d.VariantAttachment) ∧
        (row.attachment.Valid = false → d.VariantAttachment = ""))
      (GetEvaluationDistributions compact s ruleID).1.toList scanned := by
  obtain ⟨scanned1, ds, h1, h2, _, _, h5⟩ :=
    GetEvaluationDistributions_success compact s ruleID rows hq hok
  have hsame : scanned = scanned1 := map_ok_injective _ _ (hscan.symm.trans h1)
  subst hsame
  have hlist : (GetEvaluationDistributions compact s ruleID).1.toList = ds := by
    rw [h5, Slice.toList_foldl_append]
    rfl
  rw [hlist]
  exact (h2.imp (fun row d h => (toDistribution_fields compact row d h).2)).flip

/-- Witness of C9 on the example distribution rows: one attachment to compact,
one null attachment. -/
theorem GetEvaluationDistributions_attachment_witness :
    (GetEvaluationDistributions exampleCompact (storeOfRows [] exampleDistributionRows) "a").2
      = none ∧
    List.Forall₂
      (fun d row =>
        (row.attachment.Valid = true →
          exampleCompact row.attachment.String = Except.ok d.VariantAttachment) ∧
        (row.attachment.Valid = false → d.VariantAttachment = ""))
      (GetEvaluationDistributions exampleCompact
        (storeOfRows [] exampleDistributionRows) "a").1.toList
      exampleDistributionRows :=
  ⟨by decide,
    GetEvaluationDistributions_attachment exampleCompact
      (storeOfRows [] exampleDistributionRows) "a"
      { scans := exampleDistributionRows.map Except.ok, Err := none, Close := none }
      exampleDistributionRows rfl rfl (by decide)⟩

/-! ### Errors -/

theorem GetEvaluationRules_storeOfRows (D : String) (namespaceKey flagKey : String)
    (scanned : List RuleRow) (distributionRows : List DistributionRow) :
    GetEvaluationRules D (storeOfRows scanned distributionRows) namespaceKey flagKey =
      (Slice.items (collapse scanned), none) :=
  GetEvaluationRules_of_scanned D (storeOfRows scanned distributionRows) namespaceKey flagKey
    { scans := scanned.map Except.ok, Err := none, Close := none } scanned rfl rfl

theorem GetEvaluationDistributions_storeOfRows (compact : String → Except Error String)
    (ruleID : String) (ruleRows : List RuleRow) (scanned : List DistributionRow)
    (ds : List EvaluationDistribution)
    (hds : List.Forall₂ (fun row d => toDistribution compact row = Except.ok d) scanned ds) :
    GetEvaluationDistributions compact (storeOfRows ruleRows scanned) ruleID =
      (ds.foldl Slice.append Slice.null, none) :=
  GetEvaluationDistributions_of_scanned compact (storeOfRows ruleRows scanned) ruleID
    { scans := scanned.map Except.ok, Err := none, Close := none } scanned ds rfl rfl hds

/-- C6: an error of the query, of the scan of a row, of the row iteration
(`rows.Err`) or of the closing of the rows is returned as it is by
`GetEvaluationRules` and by `GetEvaluationDistributions`; the returned error is
nil only when the query succeeded, every row was scanned, and `Err` and `Close`
reported no error, in which case the result covers every row. -/
theorem storage_errors_returned_unchanged (D : String)
    (compact : String → Except Error String) (s : Store)
    (namespaceKey flagKey ruleID : String) :
    (∀ err : Error,
      s.QueryRules (rulesQuery (if namespaceKey = "" then D else namespaceKey) flagKey)
        = Except.error err →
      GetEvaluationRules D s namespaceKey flagKey = (Slice.null, some err)) ∧
    (∀ rows : Rows RuleRow,
      s.QueryRules (rulesQuery (if namespaceKey = "" then D else namespaceKey) flagKey)
        = Except.ok rows →
      (∀ (scanned : List RuleRow) (err : Error) (rest : List (Except Error RuleRow)),
        rows.scans = scanned.map Except.ok ++ Except.error err :: rest →
        (GetEvaluationRules D s namespaceKey flagKey).2 = some err) ∧
      (∀ (scanned : List RuleRow) (err : Error),
        rows.scans = scanned.map Except.ok → rows.Err = some err →
        (GetEvaluationRules D s namespaceKey flagKey).2 = some err) ∧
      (∀ (scanned : List RuleRow) (err : Error),
        rows.scans = scanned.map Except.ok → rows.Err = none → rows.Close = some err →
        (GetEvaluationRules D s namespaceKey flagKey).2 = some err) ∧
      ((GetEvaluationRules D s namespaceKey flagKey).2 = none →
        ∃ scanned : List RuleRow, rows.scans = scanned.map Except.ok ∧
          rows.Err = none ∧ rows.Close = none ∧
          ∀ row ∈ scanned,
            ∃ r ∈ (GetEvaluationRules D s namespaceKey flagKey).1.toList, r.ID = row.ID)) ∧
    ((GetEvaluationRules D s namespaceKey flagKey).2 = none →
      ∃ rows : Rows RuleRow,
        s.QueryRules (rulesQuery (if namespaceKey = "" then D else namespaceKey) flagKey)
          = Except.ok rows) ∧
    (∀ err : Error,
      s.QueryDistributions (distributionsQuery ruleID) = Except.error err →
      GetEvaluationDistributions compact s ruleID = (Slice.null, some err)) ∧
    (∀ rows : Rows DistributionRow,
      s.QueryDistributions (distributionsQuery ruleID) = Except.ok rows →
      (∀ (scanned : List DistributionRow) (err : Error)
          (rest : List (Except Error DistributionRow)),
        rows.scans = scanned.map Except.ok ++ Except.error err :: rest →
        (∀ r ∈ scanned, r.attachment.Valid = true →
          ∃ a, compact r.attachment.String = Except.ok a) →
        (GetEvaluationDistributions compact s ruleID).2 = some err) ∧
      (∀ (scanned : List DistributionRow) (err : Error),
        rows.scans = scanned.map Except.ok →
        (∀ r ∈ scanned, r.attachment.Valid = true →
          ∃ a, compact r.attachment.String = Except.ok a) →
        rows.Err = some err →
        (GetEvaluationDistributions compact s ruleID).2 = some err) ∧
      (∀ (scanned : List DistributionRow) (err : Error),
        rows.scans = scanned.map Except.ok →
        (∀ r ∈ scanned, r.attachment.Valid = true →
          ∃ a, compact r.attachment.String = Except.ok a) →
        rows.Err = none → rows.Close = some err →
        (GetEvaluationDistributions compact s ruleID).2 = some err) ∧
      ((GetEvaluationDistributions compact s ruleID).2 = none →
        ∃ scanned : List DistributionRow, rows.scans = scanned.map Except.ok ∧
          rows.Err = none ∧ rows.Close = none ∧
          (GetEvaluationDistributions compact s ruleID).1.toList.length = scanned.length)) ∧
    ((GetEvaluationDistributions compact s ruleID).2 = none →
      ∃ rows : Rows DistributionRow,
        s.QueryDistributions (distributionsQuery ruleID) = Except.ok rows) := by
  refine ⟨?_, ?_, ?_, ?_, ?_, ?_⟩
  · intro err hq
    simp only [GetEvaluationRules, hq]
  · intro rows hq
    refine ⟨?_, ?_, ?_, ?_⟩
    · intro scanned err rest hscan
      rw [GetEvaluationRules_of_scan_error D s namespaceKey flagKey rows scanned err rest hq hscan]
    · intro scanned err hscan hE
      rw [GetEvaluationRules_of_scanned D s namespaceKey flagKey rows scanned hq hscan, hE]
    · intro scanned err hscan hE hC
      rw [GetEvaluationRules_of_scanned D s namespaceKey flagKey rows scanned hq hscan, hE, hC]
    · intro hok
      obtain ⟨scanned, h1, h2, h3, h4⟩ :=
        GetEvaluationRules_success D s namespaceKey flagKey rows hq hok
      refine ⟨scanned, h1, h2, h3, ?_⟩
      intro row hrow
      have hid : row.ID ∈ (collapse scanned).map (fun r => r.ID) := by
        rw [collapse_ids]
        exact (mem_firstRows_ids scanned row.ID).mpr (List.mem_map.mpr ⟨row, hrow, rfl⟩)
      obtain ⟨r, hr, hrid⟩ := List.mem_map.mp hid
      rw [h4]
      exact ⟨r, hr, hrid⟩
  · intro hok
    cases hq : s.QueryRules
        (rulesQuery (if namespaceKey = "" then D else namespaceKey) flagKey) with
    | ok rows => exact ⟨rows, rfl⟩
    | error err =>
      simp [GetEvaluationRules, hq] at hok
  · intro err hq
    simp only [GetEvaluationDistributions, hq]
  · intro rows hq
    refine ⟨?_, ?_, ?_, ?_⟩
    · intro scanned err rest hscan hparse
      obtain ⟨ds, hds⟩ := exists_converted compact scanned hparse
      rw [GetEvaluationDistributions_of_scan_error compact s ruleID rows scanned ds err rest
        hq hscan hds]
    · intro scanned err hscan hparse hE
      obtain ⟨ds, hds⟩ := exists_converted compact scanned hparse
      rw [GetEvaluationDistributions_of_scanned compact s ruleID rows scanned ds hq hscan hds, hE]
    · intro scanned err hscan hparse hE hC
      obtain ⟨ds, hds⟩ := exists_converted compact scanned hparse
      rw [GetEvaluationDistributions_of_scanned compact s ruleID rows scanned ds hq hscan hds,
        hE, hC]
    · intro hok
      obtain ⟨scanned, ds, h1, h2, h3, h4, h5⟩ :=
        GetEvaluationDistributions_success compact s ruleID rows hq hok
      refine ⟨scanned, h1, h3, h4, ?_⟩
      rw [h5, Slice.toList_foldl_append]
      simpa [Slice.toList] using h2.length_eq.symm
  · intro hok
    cases hq : s.QueryDistributions (distributionsQuery ruleID) with
    | ok rows => exact ⟨rows, rfl⟩
    | error err =>
      simp [GetEvaluationDistributions, hq] at hok

/-- Counterexample to C7: the second scan fails, and the list returned next to
the error still holds the rule, and the distribution, of the first row. -/
theorem partial_results_discarded_counterexample :
    GetEvaluationRules "default" exampleFailingStore "" "flag" =
      (Slice.items
        [{ ID := "a"
           NamespaceKey := "default"
           FlagKey := "flag"
           SegmentKey := "segment-a"
           SegmentMatchType := 0
           Rank := 1
           Constraints := Slice.items
             [{ ID := "c1", Type_ := 1, Property := "country", Operator := "eq",
                Value := "c1" }] }],
        some ⟨"scan failed"⟩) ∧
    GetEvaluationDistributions exampleCompact exampleFailingStore "a" =
      (Slice.items
        [{ ID := "d1"
           RuleID := "a"
           VariantID := "variant-d1"
           Rollout := ⟨30⟩
           VariantKey := "key-d1"
           VariantAttachment := "" }],
        some ⟨"scan failed"⟩) := by
  constructor <;> decide

theorem Slice.isNil_foldl_append_items {α : Type} (l : List α) (init : List α) :
    (l.foldl Slice.append (Slice.items init)).isNil = false := by
  induction l generalizing init with
  | nil => rfl
  | cons a l ih =>
    rw [List.foldl_cons]
    exact ih (init ++ [a])

theorem Slice.isNil_foldl_append_null {α : Type} (l : List α) :
    (l.foldl Slice.append (Slice.null : Slice α)).isNil = true ↔ l = [] := by
  cases l with
  | nil => simp [Slice.isNil]
  | cons a l =>
    rw [List.foldl_cons]
    have h : (Slice.null : Slice α).append a = Slice.items [a] := rfl
    rw [h, Slice.isNil_foldl_append_items]
    simp

/-- C7, amended: when `GetEvaluationRules` or `GetEvaluationDistributions` fails
after the rows `scanned` were scanned (a later scan fails, an attachment is
rejected, `Err` reports an error, or `Close` fails), the error is returned next
to the partial result, which is not discarded: the list returned is the list a
successful call returns for `scanned`. For `GetEvaluationRules` it is not nil
and holds a rule for the rule id of every row scanned; for
`GetEvaluationDistributions` it holds one distribution for every row scanned,
in row order, and is nil exactly when no row was scanned. -/
theorem partial_results_returned_with_error (D : String)
    (compact : String → Except Error String) (s : Store)
    (namespaceKey flagKey ruleID : String) :
    (∀ rows : Rows RuleRow,
      s.QueryRules (rulesQuery (if namespaceKey = "" then D else namespaceKey) flagKey)
        = Except.ok rows →
      ∀ (scanned : List RuleRow) (err : Error),
        ((∃ rest, rows.scans = scanned.map Except.ok ++ Except.error err :: rest) ∨
         (rows.scans = scanned.map Except.ok ∧ rows.Err = some err) ∨
         (rows.scans = scanned.map Except.ok ∧ rows.Err = none ∧ rows.Close = some err)) →
        GetEvaluationRules D s namespaceKey flagKey =
          ((GetEvaluationRules D (storeOfRows scanned []) namespaceKey flagKey).1, some err) ∧
        (GetEvaluationRules D (storeOfRows scanned []) namespaceKey flagKey).2 = none ∧
        (scanned ≠ [] → (GetEvaluationRules D s namespaceKey flagKey).1.toList ≠ []) ∧
        (GetEvaluationRules D s namespaceKey flagKey).1.isNil = false ∧
        (∀ row ∈ scanned,
          ∃ r ∈ (GetEvaluationRules D s namespaceKey flagKey).1.toList, r.ID = row.ID)) ∧
    (∀ rows : Rows DistributionRow,
      s.QueryDistributions (distributionsQuery ruleID) = Except.ok rows →
      ∀ (scanned : List DistributionRow) (err : Error),
        (∀ r ∈ scanned, r.attachment.Valid = true →
          ∃ a, compact r.attachment.String = Except.ok a) →
        ((∃ rest, rows.scans = scanned.map Except.ok ++ Except.error err :: rest) ∨
         (∃ row rest, rows.scans = scanned.map Except.ok ++ Except.ok row :: rest ∧
            row.attachment.Valid = true ∧ compact row.attachment.String = Except.error err) ∨
         (rows.scans = scanned.map Except.ok ∧ rows.Err = some err) ∨
         (rows.scans = scanned.map Except.ok ∧ rows.Err = none ∧ rows.Close = some err)) →
        GetEvaluationDistributions compact s ruleID =
          ((GetEvaluationDistributions compact (storeOfRows [] scanned) ruleID).1, some err) ∧
        (GetEvaluationDistributions compact (storeOfRows [] scanned) ruleID).2 = none ∧
        (GetEvaluationDistributions compact s ruleID).1.toList.length = scanned.length ∧
        List.Forall₂
          (fun d row => d.ID = row.ID ∧ d.RuleID = row.RuleID ∧ d.VariantID = row.VariantID ∧
            d.Rollout = row.Rollout ∧ d.VariantKey = row.VariantKey)
          (GetEvaluationDistributions compact s ruleID).1.toList scanned ∧
        ((GetEvaluationDistributions compact s ruleID).1.isNil = true ↔ scanned = [])) := by
  constructor
  · intro rows hq scanned err hfail
    have hres : GetEvaluationRules D s namespaceKey flagKey =
        (Slice.items (collapse scanned), some err) := by
      rcases hfail with ⟨rest, hscan⟩ | ⟨hscan, hE⟩ | ⟨hscan, hE, hC⟩
      · exact GetEvaluationRules_of_scan_error D s namespaceKey flagKey rows scanned err rest
          hq hscan
      · rw [GetEvaluationRules_of_scanned D s namespaceKey flagKey rows scanned hq hscan, hE]
      · rw [GetEvaluationRules_of_scanned D s namespaceKey flagKey rows scanned hq hscan, hE, hC]
    rw [GetEvaluationRules_storeOfRows, hres]
    refine ⟨rfl, rfl, ?_, rfl, ?_⟩
    · intro hne
      cases scanned with
      | nil => exact absurd rfl hne
      | cons row scanned => simp [Slice.toList, collapse, firstRows]
    · intro row hrow
      have hid : row.ID ∈ (collapse scanned).map (fun r => r.ID) := by
        rw [collapse_ids]
        exact (mem_firstRows_ids scanned row.ID).mpr (List.mem_map.mpr ⟨row, hrow, rfl⟩)
      obtain ⟨r, hr, hrid⟩ := List.mem_map.mp hid
      exact ⟨r, hr, hrid⟩
  · intro rows hq scanned err hparse hfail
    obtain ⟨ds, hds⟩ := exists_converted compact scanned hparse
    have hres : GetEvaluationDistributions compact s ruleID =
        (ds.foldl Slice.append Slice.null, some err) := by
      rcases hfail with ⟨rest, hscan⟩ | ⟨row, rest, hscan, hv, hc⟩ | ⟨hscan, hE⟩ |
        ⟨hscan, hE, hC⟩
      · exact GetEvaluationDistributions_of_scan_error compact s ruleID rows scanned ds err rest
          hq hscan hds
      · exact GetEvaluationDistributions_of_convert_error compact s ruleID rows scanned ds row
          err rest hq hscan hds (by simp [toDistribution, hv, hc])
      · rw [GetEvaluationDistributions_of_scanned compact s ruleID rows scanned ds hq hscan hds,
          hE]
      · rw [GetEvaluationDistributions_of_scanned compact s ruleID rows scanned ds hq hscan hds,
          hE, hC]
    have hlist : (ds.foldl Slice.append (Slice.null : Slice EvaluationDistribution)).toList =
        ds := by
      rw [Slice.toList_foldl_append]
      rfl
    rw [GetEvaluationDistributions_storeOfRows compact ruleID [] scanned ds hds, hres]
    refine ⟨rfl, rfl, ?_, ?_, ?_⟩
    · rw [hlist]
      exact hds.length_eq.symm
    · rw [hlist]
      exact (hds.imp (fun row d h => (toDistribution_fields compact row d h).1)).flip
    · rw [Slice.isNil_foldl_append_null]
      constructor
      · intro h
        rw [h] at hds
        cases hds
        rfl
      · intro h
        rw [h] at hds
        cases hds
        rfl

/-! ### The order of the distributions -/

theorem orderCompare_created_at (a b : StoredDistribution) :
    orderCompare ["d.created_at ASC"] a b ≠ Ordering.gt ↔ a.created_at ≤ b.created_at := by
  have h : orderCompare ["d.created_at ASC"] a b = compare a.created_at b.created_at := by
    simp only [orderCompare, keyCompare]
    cases compare a.created_at b.created_at <;> rfl
  rw [h]
  exact Nat.compare_ne_gt

theorem whereHolds_rule_id (ruleID : String) (d : StoredDistribution) :
    whereHolds [("d.rule_id", ruleID)] d = decide (d.row.RuleID = ruleID) := by
  simp only [whereHolds, List.all_cons, List.all_nil, Bool.and_true]
  by_cases h : d.row.RuleID = ruleID
  · simp [h]
  · have h2 : ¬ ruleID = d.row.RuleID := fun e => h e.symm
    simp [h, h2]

theorem eq_of_map_eq_of_inj_on {α β : Type} (f : α → β) (l1 l2 : List α)
    (hmap : l1.map f = l2.map f)
    (hinj : ∀ a ∈ l1, ∀ b ∈ l2, f a = f b → a = b) : l1 = l2 := by
  induction l1 generalizing l2 with
  | nil =>
    cases l2 with
    | nil => rfl
    | cons b l2 => simp at hmap
  | cons a l1 ih =>
    cases l2 with
    | nil => simp at hmap
    | cons b l2 =>
      simp only [List.map_cons, List.cons.injEq] at hmap
      have hab : a = b := hinj a (List.mem_cons_self _ _) b (List.mem_cons_self _ _) hmap.1
      rw [hab, ih l2 hmap.2 (fun x hx y hy =>
        hinj x (List.mem_cons_of_mem _ hx) y (List.mem_cons_of_mem _ hy))]

/-- With pairwise distinct creation times the statement has one answer. -/
theorem answers_unique (stored : List StoredDistribution) (ruleID : String)
    (ans1 ans2 : List StoredDistribution)
    (hdistinct : ((stored.filter (fun d => d.row.RuleID = ruleID)).map
      (fun d => d.created_at)).Nodup)
    (h1 : answers stored (distributionsQuery ruleID) ans1)
    (h2 : answers stored (distributionsQuery ruleID) ans2) : ans1 = ans2 := by
  obtain ⟨hp1, hs1⟩ := h1
  obtain ⟨hp2, hs2⟩ := h2
  have hfilter : stored.filter (whereHolds (distributionsQuery ruleID).Where) =
      stored.filter (fun d => d.row.RuleID = ruleID) := by
    apply List.filter_congr
    intro d _
    exact whereHolds_rule_id ruleID d
  rw [hfilter] at hp1 hp2
  have hperm : ans1.Perm ans2 := hp1.trans hp2.symm
  have hsorted : ∀ l : List StoredDistribution,
      l.Pairwise (fun a b => orderCompare (distributionsQuery ruleID).OrderBy a b ≠ Ordering.gt) →
      (l.map (fun d => d.created_at)).Sorted (fun x y => x ≤ y) := by
    intro l hl
    rw [List.Sorted, List.pairwise_map]
    exact hl.imp (fun {a b} h => (orderCompare_created_at a b).mp h)
  have hmap : ans1.map (fun d => d.created_at) = ans2.map (fun d => d.created_at) :=
    List.eq_of_perm_of_sorted (hperm.map _) (hsorted ans1 hs1) (hsorted ans2 hs2)
  apply eq_of_map_eq_of_inj_on (fun d => d.created_at) ans1 ans2 hmap
  intro a ha b hb hab
  exact List.inj_on_of_nodup_map hdistinct (hp1.subset ha) (hp2.subset hb) hab

/-- Counterexample to C10: the statement orders by the creation time only, so
two distributions stored with the same creation time may come in either order,
and `GetEvaluationDistributions` returns them in the order they come. -/
theorem distributions_tie_break_counterexample :
    (distributionsQuery "a").OrderBy = ["d.created_at ASC"] ∧
    answers [exampleTiedFirst, exampleTiedSecond] (distributionsQuery "a")
      [exampleTiedFirst, exampleTiedSecond] ∧
    answers [exampleTiedFirst, exampleTiedSecond] (distributionsQuery "a")
      [exampleTiedSecond, exampleTiedFirst] ∧
    (GetEvaluationDistributions exampleCompact
      (storeOfRows [] [exampleTiedFirst.row, exampleTiedSecond.row]) "a").1.toList.map
        (fun d => d.ID) = ["d1", "d2"] ∧
    (GetEvaluationDistributions exampleCompact
      (storeOfRows [] [exampleTiedSecond.row, exampleTiedFirst.row]) "a").1.toList.map
        (fun d => d.ID) = ["d2", "d1"] := by
  refine ⟨rfl, ⟨?_, ?_⟩, ⟨?_, ?_⟩, by decide, by decide⟩
  · decide
  · decide
  · decide
  · decide

/-- C10, amended: `GetEvaluationDistributions` orders by the creation time
ascending and by nothing else, and a successful call returns the distributions
in the row order of the query, one for each row. When the creation times of the
distributions of the rule are pairwise distinct, any two answers of the backend
to its statement are the same list, in ascending creation time, so that the
returned order is determined by the stored data: two successful calls return
the same result, and so do two calls whose cursors end alike. -/
theorem GetEvaluationDistributions_order_determined
    (compact : String → Except Error String) (stored : List StoredDistribution)
    (ruleID : String) (s1 s2 : Store) (rows1 rows2 : Rows DistributionRow)
    (ans1 ans2 : List StoredDistribution)
    (hdistinct : ((stored.filter (fun d => d.row.RuleID = ruleID)).map
      (fun d => d.created_at)).Nodup)
    (hq1 : s1.QueryDistributions (distributionsQuery ruleID) = Except.ok rows1)
    (hq2 : s2.QueryDistributions (distributionsQuery ruleID) = Except.ok rows2)
    (hs1 : rows1.scans = ans1.map (fun d => Except.ok d.row))
    (hs2 : rows2.scans = ans2.map (fun d => Except.ok d.row))
    (ha1 : answers stored (distributionsQuery ruleID) ans1)
    (ha2 : answers stored (distributionsQuery ruleID) ans2) :
    (distributionsQuery ruleID).OrderBy = ["d.created_at ASC"] ∧
    ans1 = ans2 ∧
    ans1.Pairwise (fun a b => a.created_at < b.created_at) ∧
    (rows1.Err = rows2.Err → rows1.Close = rows2.Close →
      GetEvaluationDistributions compact s1 ruleID =
        GetEvaluationDistributions compact s2 ruleID) ∧
    ((GetEvaluationDistributions compact s1 ruleID).2 = none →
      List.Forall₂
        (fun d a => d.ID = a.row.ID ∧ d.RuleID = a.row.RuleID ∧
          d.VariantID = a.row.VariantID ∧ d.Rollout = a.row.Rollout ∧
          d.VariantKey = a.row.VariantKey)
        (GetEvaluationDistributions compact s1 ruleID).1.toList ans1) ∧
    ((GetEvaluationDistributions compact s1 ruleID).2 = none →
      (GetEvaluationDistributions compact s2 ruleID).2 = none →
      GetEvaluationDistributions compact s1 ruleID =
        GetEvaluationDistributions compact s2 ruleID) := by
  have heq : ans1 = ans2 := answers_unique stored ruleID ans1 ans2 hdistinct ha1 ha2
  have hcongr : rows1.Err = rows2.Err → rows1.Close = rows2.Close →
      GetEvaluationDistributions compact s1 ruleID =
        GetEvaluationDistributions compact s2 ruleID := by
    intro hE hC
    have hrows : rows1 = rows2 := by
      cases rows1
      cases rows2
      simp only [Rows.mk.injEq]
      exact ⟨hs1.trans ((congrArg _ heq).trans hs2.symm), hE, hC⟩
    simp only [GetEvaluationDistributions, hq1, hq2, hrows]
  refine ⟨rfl, heq, ?_, hcongr, ?_, ?_⟩
  · obtain ⟨hp1, hsort1⟩ := ha1
    have hfilter : stored.filter (whereHolds (distributionsQuery ruleID).Where) =
        stored.filter (fun d => d.row.RuleID = ruleID) := by
      apply List.filter_congr
      intro d _
      exact whereHolds_rule_id ruleID d
    rw [hfilter] at hp1
    have hnodup : (ans1.map (fun d => d.created_at)).Nodup :=
      (hp1.map (fun d => d.created_at)).nodup_iff.mpr hdistinct
    have hne : ans1.Pairwise (fun a b => a.created_at ≠ b.created_at) := by
      rw [List.Nodup, List.pairwise_map] at hnodup
      exact hnodup
    have hle : ans1.Pairwise (fun a b => a.created_at ≤ b.created_at) :=
      hsort1.imp (fun {a b} h => (orderCompare_created_at a b).mp h)
    exact (hle.and hne).imp (fun {a b} h => lt_of_le_of_ne h.1 h.2)
  · intro hok
    obtain ⟨scanned, ds, h1, h2, _, _, h5⟩ :=
      GetEvaluationDistributions_success compact s1 ruleID rows1 hq1 hok
    have hscanned : scanned = ans1.map (fun d => d.row) := by
      apply map_ok_injective
      rw [← h1, hs1, List.map_map]
      rfl
    have hlist : (GetEvaluationDistributions compact s1 ruleID).1.toList = ds := by
      rw [h5, Slice.toList_foldl_append]
      rfl
    rw [hlist]
    rw [hscanned, List.forall₂_map_left_iff] at h2
    exact (h2.imp (fun a d h => (toDistribution_fields compact a.row d h).1)).flip
  · intro hok1 hok2
    obtain ⟨_, _, _, _, hE1, hC1, _⟩ :=
      GetEvaluationDistributions_success compact s1 ruleID rows1 hq1 hok1
    obtain ⟨_, _, _, _, hE2, hC2, _⟩ :=
      GetEvaluationDistributions_success compact s2 ruleID rows2 hq2 hok2
    exact hcongr (hE1.trans hE2.symm) (hC1.trans hC2.symm)

/-- Witness of the amended C10: two distributions stored with distinct creation
times, asked for twice. -/
theorem GetEvaluationDistributions_order_determined_witness :
    (distributionsQuery "a").OrderBy = ["d.created_at ASC"] ∧
    [exampleTiedFirst, { exampleTiedSecond with created_at := 1700000001 }] =
      [exampleTiedFirst, { exampleTiedSecond with created_at := 1700000001 }] ∧
    [exampleTiedFirst, { exampleTiedSecond with created_at := 1700000001 }].Pairwise
      (fun a b => a.created_at < b.created_at) ∧
    ((none : Option Error) = none → (none : Option Error) = none →
      GetEvaluationDistributions exampleCompact
        (storeOfRows [] [exampleTiedFirst.row, exampleTiedSecond.row]) "a" =
      GetEvaluationDistributions exampleCompact
        (storeOfRows [] [exampleTiedFirst.row, exampleTiedSecond.row]) "a") ∧
    ((GetEvaluationDistributions exampleCompact (storeOfRows [] [exampleTiedFirst.row, exampleTiedSecond.row]) "a").2 = none →
      List.Forall₂
        (fun d a => d.ID = a.row.ID ∧ d.RuleID = a.row.RuleID ∧
          d.VariantID = a.row.VariantID ∧ d.Rollout = a.row.Rollout ∧
          d.VariantKey = a.row.VariantKey)
        (GetEvaluationDistributions exampleCompact (storeOfRows [] [exampleTiedFirst.row, exampleTiedSecond.row]) "a").1.toList
        [exampleTiedFirst, { exampleTiedSecond with created_at := 1700000001 }]) ∧
    ((GetEvaluationDistributions exampleCompact (storeOfRows [] [exampleTiedFirst.row, exampleTiedSecond.row]) "a").2 = none →
      (GetEvaluationDistributions exampleCompact (storeOfRows [] [exampleTiedFirst.row, exampleTiedSecond.row]) "a").2 = none →
      GetEvaluationDistributions exampleCompact (storeOfRows [] [exampleTiedFirst.row, exampleTiedSecond.row]) "a" =
        GetEvaluationDistributions exampleCompact (storeOfRows [] [exampleTiedFirst.row, exampleTiedSecond.row]) "a") :=
  GetEvaluationDistributions_order_determined exampleCompact
    [{ exampleTiedSecond with created_at := 1700000001 }, exampleTiedFirst] "a"
    (storeOfRows [] [exampleTiedFirst.row, exampleTiedSecond.row])
    (storeOfRows [] [exampleTiedFirst.row, exampleTiedSecond.row])
    { scans := [exampleTiedFirst.row, exampleTiedSecond.row].map Except.ok
      Err := none
      Close := none }
    { scans := [exampleTiedFirst.row, exampleTiedSecond.row].map Except.ok
      Err := none
      Close := none }
    [exampleTiedFirst, { exampleTiedSecond with created_at := 1700000001 }]
    [exampleTiedFirst, { exampleTiedSecond with created_at := 1700000001 }]
    (by decide) rfl rfl rfl rfl
    ⟨by decide, by decide⟩ ⟨by decide, by decide⟩

/-! ### Rules without constraints and the default namespace -/

/-- Counterexample to C11: the only row of rule `b` has null constraint
columns, and the `Constraints` returned for it is the nil slice, not an empty
list. -/
theorem GetEvaluationRules_constraints_nil_counterexample :
    (GetEvaluationRules "default" (storeOfRows [exampleRuleRow "b" 2 none] []) "" "flag").1.toList.map
      (fun r => (r.ID, r.Constraints, r.Constraints.isNil)) = [("b", Slice.null, true)] ∧
    (GetEvaluationRules "default" (storeOfRows [exampleRuleRow "b" 2 none] []) "" "flag").1.toList.map
      (fun r => r.Constraints) ≠ [Slice.items []] := by
  constructor <;> decide

/-- C11, amended: for every rule whose rows all have a null constraint id (its
segment has no constraint), the `Constraints` field returned by a successful
`GetEvaluationRules` has length zero and is the nil slice: it is never
assigned. -/
theorem GetEvaluationRules_constraints_nil (D : String) (s : Store)
    (namespaceKey flagKey : String) (rows : Rows RuleRow) (scanned : List RuleRow)
    (hq : s.QueryRules (rulesQuery (if namespaceKey = "" then D else namespaceKey) flagKey)
      = Except.ok rows)
    (hscan : rows.scans = scanned.map Except.ok)
    (hok : (GetEvaluationRules D s namespaceKey flagKey).2 = none) :
    ∃ rules : List EvaluationRule,
      GetEvaluationRules D s namespaceKey flagKey = (Slice.items rules, none) ∧
      ∀ r ∈ rules,
        (∀ row ∈ scanned, row.ID = r.ID → row.optionalConstraint.Id.Valid = false) →
        r.Constraints.len = 0 ∧ r.Constraints = Slice.null ∧ r.Constraints.isNil = true := by
  refine ⟨collapse scanned,
    GetEvaluationRules_of_success D s namespaceKey flagKey rows scanned hq hscan hok, ?_⟩
  intro r hr hnull
  obtain ⟨row, _, rfl⟩ := List.mem_map.mp hr
  have hnone : constraintsOf row.ID scanned = [] := by
    unfold constraintsOf
    simp only [List.map_eq_nil_iff, List.filter_eq_nil_iff]
    intro x hx hc
    simp only [decide_eq_true_eq] at hc
    have := hnull x hx hc.1
    rw [hc.2] at this
    exact absurd this (by simp)
  have hc : (ruleOf scanned row).Constraints = Slice.null := by
    simp only [ruleOf, hnone, sliceOf]
  rw [hc]
  exact ⟨rfl, rfl, rfl⟩

/-- Witness of the amended C11 on the example rows, whose rule `b` has no
constraint. -/
theorem GetEvaluationRules_constraints_nil_witness :
    ∃ rules : List EvaluationRule,
      GetEvaluationRules "default" (storeOfRows exampleRuleRows []) "" "flag"
        = (Slice.items rules, none) ∧
      ∀ r ∈ rules,
        (∀ row ∈ exampleRuleRows, row.ID = r.ID → row.optionalConstraint.Id.Valid = false) →
        r.Constraints.len = 0 ∧ r.Constraints = Slice.null ∧ r.Constraints.isNil = true :=
  GetEvaluationRules_constraints_nil "default" (storeOfRows exampleRuleRows []) "" "flag"
    { scans := exampleRuleRows.map Except.ok, Err := none, Close := none }
    exampleRuleRows rfl rfl (by decide)

/-- C20: `GetEvaluationRules` called with the empty namespace key behaves as
when called with `storage.DefaultNamespace`: for every flag key and store the
two calls build the same statement and return the same rules and error. -/
theorem GetEvaluationRules_default_namespace (D : String) (s : Store) (flagKey : String) :
    rulesQuery (if "" = "" then D else "") flagKey =
      rulesQuery (if D = "" then D else D) flagKey ∧
    GetEvaluationRules D s "" flagKey = GetEvaluationRules D s D flagKey := by
  have h1 : (if "" = "" then D else "") = D := if_pos rfl
  have h2 : (if D = "" then D else D) = D := by split_ifs <;> rfl
  constructor
  · rw [h1, h2]
  · unfold GetEvaluationRules
    rw [h1, h2]

/-! ### The errors of the rule repository -/

/-- C17: `CreateRule` fails, creating no rule, whenever the requested flag or
the requested segment does not exist in the namespace; in every such case the
error is the one NotFound error whose message names both requested keys:
flag, quoted flag key, or segment, quoted segment key, not found. -/
theorem CreateRule_flag_or_segment_not_found (db : Database) (id : String)
    (r : CreateRuleRequest)
    (h : (r.NamespaceKey, r.FlagKey) ∉ db.flags ∨ (r.NamespaceKey, r.SegmentKey) ∉ db.segments) :
    (CreateRule db id r).1 = db ∧
    (CreateRule db id r).2 = Except.error (RepositoryError.NotFound
      ("flag " ++ quoted r.FlagKey ++ " or segment " ++ quoted r.SegmentKey)) ∧
    (RepositoryError.NotFound
      ("flag " ++ quoted r.FlagKey ++ " or segment " ++ quoted r.SegmentKey)).Error =
      "flag \"" ++ r.FlagKey ++ "\" or segment \"" ++ r.SegmentKey ++ "\" not found" := by
  have hcond : ¬ ((r.NamespaceKey, r.FlagKey) ∈ db.flags ∧
      (r.NamespaceKey, r.SegmentKey) ∈ db.segments) := by
    rintro ⟨h1, h2⟩
    rcases h with h | h
    · exact h h1
    · exact h h2
  refine ⟨?_, ?_, ?_⟩
  · simp only [CreateRule, if_neg hcond]
  · simp only [CreateRule, if_neg hcond]
  · have e1 : ("flag \"" : String) = "flag " ++ "\"" := by decide
    have e2 : ("\" or segment \"" : String) = "\"" ++ (" or segment " ++ "\"") := by decide
    have e3 : ("\" not found" : String) = "\"" ++ " not found" := by decide
    rw [e1, e2, e3]
    simp only [RepositoryError.Error, quoted, String.append_assoc]

/-- Witness of C17: the flag `foo` and the segment `bar` do not exist
(`TestCreateRule_FlagNotFound`). -/
theorem CreateRule_flag_or_segment_not_found_witness :
    (CreateRule exampleDatabase "r1" ⟨"default", "foo", "bar", 1⟩).1 = exampleDatabase ∧
    (CreateRule exampleDatabase "r1" ⟨"default", "foo", "bar", 1⟩).2 =
      Except.error (RepositoryError.NotFound ("flag " ++ quoted "foo" ++ " or segment " ++
        quoted "bar")) ∧
    (RepositoryError.NotFound ("flag " ++ quoted "foo" ++ " or segment " ++ quoted "bar")).Error =
      "flag \"" ++ "foo" ++ "\" or segment \"" ++ "bar" ++ "\" not found" :=
  CreateRule_flag_or_segment_not_found exampleDatabase "r1" ⟨"default", "foo", "bar", 1⟩
    (Or.inl (by decide))

/-- C18: for every rule id that matches no stored rule, `GetRule`, `UpdateRule`
and `CreateDistribution` each fail with the NotFound error whose message is:
rule, the quoted id, not found; none of them changes the database. -/
theorem rule_not_found (db : Database) (id : String)
    (h : id ∉ db.rules.map (fun x => x.Id)) :
    GetRule db id = Except.error (RepositoryError.NotFound ("rule " ++ quoted id)) ∧
    (∀ namespaceKey flagKey segmentKey : String,
      UpdateRule db ⟨id, namespaceKey, flagKey, segmentKey⟩ =
        (db, Except.error (RepositoryError.NotFound ("rule " ++ quoted id)))) ∧
    (∀ (distributionId : String) (now : Nat) (variantId : String) (rollout : Float32),
      CreateDistribution db distributionId now ⟨id, variantId, rollout⟩ =
        (db, Except.error (RepositoryError.NotFound ("rule " ++ quoted id)))) ∧
    (RepositoryError.NotFound ("rule " ++ quoted id)).Error = "rule \"" ++ id ++ "\" not found" := by
  have hnone : ∀ p : Rule → Prop, [DecidablePred p] → (∀ x, p x → x.Id = id) →
      db.rules.find? (fun x => decide (p x)) = none := by
    intro p _ hp
    rw [List.find?_eq_none]
    intro x hx hpx
    apply h
    rw [← hp x (by simpa using hpx)]
    exact List.mem_map.mpr ⟨x, hx, rfl⟩
  refine ⟨?_, ?_, ?_, ?_⟩
  · simp only [GetRule, hnone (fun x => x.Id = id) (fun _ hx => hx)]
  · intro namespaceKey flagKey segmentKey
    simp only [UpdateRule,
      hnone (fun x => x.Id = id ∧ x.NamespaceKey = namespaceKey ∧ x.FlagKey = flagKey)
        (fun _ hx => hx.1)]
  · intro distributionId now variantId rollout
    simp only [CreateDistribution, hnone (fun x => x.Id = id) (fun _ hx => hx)]
  · have e1 : ("rule \"" : String) = "rule " ++ "\"" := by decide
    have e3 : ("\" not found" : String) = "\"" ++ " not found" := by decide
    rw [e1, e3]
    simp only [RepositoryError.Error, quoted, String.append_assoc]

/-- Witness of C18: no rule has the id `foo` in the example database. -/
theorem rule_not_found_witness :
    GetRule exampleThreeRules "foo" =
      Except.error (RepositoryError.NotFound ("rule " ++ quoted "foo")) ∧
    (∀ namespaceKey flagKey segmentKey : String,
      UpdateRule exampleThreeRules ⟨"foo", namespaceKey, flagKey, segmentKey⟩ =
        (exampleThreeRules, Except.error (RepositoryError.NotFound ("rule " ++ quoted "foo")))) ∧
    (∀ (distributionId : String) (now : Nat) (variantId : String) (rollout : Float32),
      CreateDistribution exampleThreeRules distributionId now ⟨"foo", variantId, rollout⟩ =
        (exampleThreeRules,
          Except.error (RepositoryError.NotFound ("rule " ++ quoted "foo")))) ∧
    (RepositoryError.NotFound ("rule " ++ quoted "foo")).Error =
      "rule \"" ++ "foo" ++ "\" not found" :=
  rule_not_found exampleThreeRules "foo" (by decide)

/-- C19: `DeleteRule` called with an id that matches no rule of the flag
returns success and leaves the database, hence the rules of the flag and their
ranks, unchanged. -/
theorem DeleteRule_not_found (db : Database) (r : DeleteRuleRequest)
    (h : ∀ x ∈ db.rulesOf r.NamespaceKey r.FlagKey, x.Id ≠ r.Id) :
    DeleteRule db r = (db, none) := by
  have hnone : db.rules.find?
      (fun x => x.Id = r.Id ∧ x.NamespaceKey = r.NamespaceKey ∧ x.FlagKey = r.FlagKey) = none := by
    rw [List.find?_eq_none]
    intro x hx hpx
    simp only [decide_eq_true_eq] at hpx
    exact h x (List.mem_filter.mpr ⟨hx, by simpa using hpx.2⟩) hpx.1
  simp only [DeleteRule, hnone]

/-- Witness of C19: the example flag has no rule with the id `foo`
(`TestDeleteRule_NotFound`). -/
theorem DeleteRule_not_found_witness :
    DeleteRule exampleThreeRules ⟨"foo", "default", "flag"⟩ = (exampleThreeRules, none) :=
  DeleteRule_not_found exampleThreeRules ⟨"foo", "default", "flag"⟩ (by decide)

/-! ### Rules in rank order -/

theorem rulesInOrder_perm (db : Database) (namespaceKey flagKey : String) (order : Order) :
    (db.rulesInOrder namespaceKey flagKey order).Perm (db.rulesOf namespaceKey flagKey) := by
  cases order
  · exact List.perm_insertionSort _ _
  · exact List.perm_insertionSort _ _

theorem rulesInOrder_asc_sorted (db : Database) (namespaceKey flagKey : String) :
    (db.rulesInOrder namespaceKey flagKey Order.OrderAsc).Pairwise
      (fun a b => a.Rank ≤ b.Rank) := by
  haveI : IsTotal Rule (fun a b => a.Rank ≤ b.Rank) := ⟨fun a b => Nat.le_total a.Rank b.Rank⟩
  haveI : IsTrans Rule (fun a b => a.Rank ≤ b.Rank) := ⟨fun _ _ _ h1 h2 => Nat.le_trans h1 h2⟩
  exact List.sorted_insertionSort (fun a b : Rule => a.Rank ≤ b.Rank) _

theorem rulesInOrder_desc_sorted (db : Database) (namespaceKey flagKey : String) :
    (db.rulesInOrder namespaceKey flagKey Order.OrderDesc).Pairwise
      (fun a b => b.Rank ≤ a.Rank) := by
  haveI : IsTotal Rule (fun a b => b.Rank ≤ a.Rank) := ⟨fun a b => Nat.le_total b.Rank a.Rank⟩
  haveI : IsTrans Rule (fun a b => b.Rank ≤ a.Rank) := ⟨fun _ _ _ h1 h2 => Nat.le_trans h2 h1⟩
  exact List.sorted_insertionSort (fun a b : Rule => b.Rank ≤ a.Rank) _

theorem rulesInOrder_length (db : Database) (namespaceKey flagKey : String) (order : Order) :
    (db.rulesInOrder namespaceKey flagKey order).length =
      (db.rulesOf namespaceKey flagKey).length :=
  (rulesInOrder_perm db namespaceKey flagKey order).length_eq

/-- Two lists of rules with the same elements, both sorted by rank, are the same
list when the ranks are pairwise distinct. -/
theorem eq_of_perm_of_sorted_rank (l1 l2 : List Rule) (hp : l1.Perm l2)
    (h1 : l1.Pairwise (fun a b => a.Rank ≤ b.Rank))
    (h2 : l2.Pairwise (fun a b => a.Rank ≤ b.Rank))
    (hn : (l1.map (fun x => x.Rank)).Nodup) : l1 = l2 := by
  have hmap : l1.map (fun x => x.Rank) = l2.map (fun x => x.Rank) := by
    apply List.eq_of_perm_of_sorted (r := fun x y : Nat => x ≤ y) (hp.map _)
    · rw [List.Sorted, List.pairwise_map]
      exact h1
    · rw [List.Sorted, List.pairwise_map]
      exact h2
  apply eq_of_map_eq_of_inj_on (fun x => x.Rank) l1 l2 hmap
  intro a ha b hb hab
  exact List.inj_on_of_nodup_map hn ha (hp.symm.subset hb) hab

/-- A list of numbers with the elements of 1..n, sorted, is 1..n. -/
theorem eq_range'_of_perm_of_sorted (l : List Nat) (n : Nat) (hp : l.Perm (List.range' 1 n))
    (hs : l.Pairwise (fun x y => x ≤ y)) : l = List.range' 1 n := by
  apply List.eq_of_perm_of_sorted (r := fun x y : Nat => x ≤ y) hp hs
  exact (List.pairwise_lt_range' 1 n).imp (fun h => Nat.le_of_lt h)

/-- With dense ranks, the rules of a flag in ascending order have the ranks
1..N. -/
theorem rulesInOrder_asc_ranks (db : Database) (namespaceKey flagKey : String)
    (hd : Dense db namespaceKey flagKey) :
    (db.rulesInOrder namespaceKey flagKey Order.OrderAsc).map (fun x => x.Rank) =
      List.range' 1 (db.rulesOf namespaceKey flagKey).length := by
  apply eq_range'_of_perm_of_sorted
  · exact ((rulesInOrder_perm db namespaceKey flagKey Order.OrderAsc).map _).trans hd
  · rw [List.pairwise_map]
    exact rulesInOrder_asc_sorted db namespaceKey flagKey

/-- What `ListRules` returns without options: the rules of the flag in ascending
rank order, and no next page. -/
theorem ListRules_all (codec : PageCodec) (db : Database) (namespaceKey flagKey : String) :
    ListRules codec db namespaceKey flagKey {} =
      Except.ok ⟨db.rulesInOrder namespaceKey flagKey Order.OrderAsc, ""⟩ := by
  simp [ListRules]

/-! ### The rules of a flag after a mutation -/

theorem filter_flag_map (g : Rule → Rule)
    (hg : ∀ x, (g x).NamespaceKey = x.NamespaceKey ∧ (g x).FlagKey = x.FlagKey)
    (l : List Rule) (namespaceKey flagKey : String) :
    (l.map g).filter (fun x => x.NamespaceKey = namespaceKey ∧ x.FlagKey = flagKey) =
      (l.filter (fun x => x.NamespaceKey = namespaceKey ∧ x.FlagKey = flagKey)).map g := by
  rw [List.filter_map]
  congr 1
  apply List.filter_congr
  intro x _
  simp [Function.comp, (hg x).1, (hg x).2]

theorem OrderRules_of_perm (db : Database) (r : OrderRulesRequest)
    (hperm : r.RuleIds.Perm ((db.rulesOf r.NamespaceKey r.FlagKey).map (fun x => x.Id))) :
    OrderRules db r =
      ({ db with
          rules := db.rules.map (fun x =>
            if x.NamespaceKey = r.NamespaceKey ∧ x.FlagKey = r.FlagKey then
              { x with Rank := r.RuleIds.indexOf x.Id + 1 }
            else x) },
        none) := by
  simp only [OrderRules, if_pos hperm]

theorem rulesOf_OrderRules_same (db : Database) (r : OrderRulesRequest)
    (hperm : r.RuleIds.Perm ((db.rulesOf r.NamespaceKey r.FlagKey).map (fun x => x.Id))) :
    (OrderRules db r).1.rulesOf r.NamespaceKey r.FlagKey =
      (db.rulesOf r.NamespaceKey r.FlagKey).map (rankedBy r.RuleIds) := by
  rw [OrderRules_of_perm db r hperm]
  simp only [Database.rulesOf]
  rw [filter_flag_map]
  · apply List.map_congr_left
    intro x hx
    have hx2 := (List.mem_filter.mp hx).2
    simp only [decide_eq_true_eq] at hx2
    rw [if_pos hx2]
    rfl
  · intro x
    split_ifs <;> exact ⟨rfl, rfl⟩

theorem rulesOf_OrderRules_other (db : Database) (r : OrderRulesRequest)
    (namespaceKey flagKey : String)
    (h : ¬ (namespaceKey = r.NamespaceKey ∧ flagKey = r.FlagKey)) :
    (OrderRules db r).1.rulesOf namespaceKey flagKey = db.rulesOf namespaceKey flagKey := by
  unfold OrderRules
  split_ifs with hperm
  · simp only [Database.rulesOf]
    rw [filter_flag_map]
    · conv_rhs => rw [← List.map_id (List.filter _ db.rules)]
      apply List.map_congr_left
      intro x hx
      have hx2 := (List.mem_filter.mp hx).2
      simp only [decide_eq_true_eq] at hx2
      rw [if_neg]
      · rfl
      · rintro ⟨h1, h2⟩
        exact h ⟨hx2.1.symm.trans h1, hx2.2.symm.trans h2⟩
    · intro x
      split_ifs <;> exact ⟨rfl, rfl⟩
  · rfl

theorem DeleteRule_of_found (db : Database) (r : DeleteRuleRequest) (deleted : Rule)
    (h : db.rules.find?
      (fun x => x.Id = r.Id ∧ x.NamespaceKey = r.NamespaceKey ∧ x.FlagKey = r.FlagKey) =
        some deleted) :
    DeleteRule db r =
      ({ db with
          rules :=
            (db.rules.filter
              (fun x => ¬ (x.Id = r.Id ∧ x.NamespaceKey = r.NamespaceKey ∧
                x.FlagKey = r.FlagKey))).map
              (fun x =>
                if x.NamespaceKey = r.NamespaceKey ∧ x.FlagKey = r.FlagKey ∧
                    deleted.Rank < x.Rank then
                  { x with Rank := x.Rank - 1 }
                else x)
          distributions := db.distributions.filter (fun d => d.row.RuleID ≠ r.Id) },
        none) := by
  simp only [DeleteRule, h]

theorem rulesOf_DeleteRule_same (db : Database) (r : DeleteRuleRequest) (deleted : Rule)
    (h : db.rules.find?
      (fun x => x.Id = r.Id ∧ x.NamespaceKey = r.NamespaceKey ∧ x.FlagKey = r.FlagKey) =
        some deleted) :
    (DeleteRule db r).1.rulesOf r.NamespaceKey r.FlagKey =
      ((db.rulesOf r.NamespaceKey r.FlagKey).filter (fun x => x.Id ≠ r.Id)).map
        (lowerAbove deleted.Rank) := by
  rw [DeleteRule_of_found db r deleted h]
  simp only [Database.rulesOf]
  rw [filter_flag_map]
  · rw [List.filter_filter, List.filter_filter]
    have hf : db.rules.filter
        (fun a => decide (a.NamespaceKey = r.NamespaceKey ∧ a.FlagKey = r.FlagKey) &&
          decide (¬ (a.Id = r.Id ∧ a.NamespaceKey = r.NamespaceKey ∧ a.FlagKey = r.FlagKey))) =
        db.rules.filter
        (fun a => decide (a.Id ≠ r.Id) &&
          decide (a.NamespaceKey = r.NamespaceKey ∧ a.FlagKey = r.FlagKey)) := by
      apply List.filter_congr
      intro x _
      by_cases h1 : x.NamespaceKey = r.NamespaceKey ∧ x.FlagKey = r.FlagKey
      · by_cases h2 : x.Id = r.Id
        · simp [h1, h2]
        · simp [h1, h2]
      · simp [h1]
    rw [hf]
    apply List.map_congr_left
    intro x hx
    have hx2 := (List.mem_filter.mp hx).2
    simp only [Bool.and_eq_true, decide_eq_true_eq] at hx2
    simp only [lowerAbove, hx2.2.1, hx2.2.2, true_and]
  · intro x
    split_ifs <;> exact ⟨rfl, rfl⟩

theorem rulesOf_DeleteRule_other (db : Database) (r : DeleteRuleRequest)
    (namespaceKey flagKey : String)
    (h : ¬ (namespaceKey = r.NamespaceKey ∧ flagKey = r.FlagKey)) :
    (DeleteRule db r).1.rulesOf namespaceKey flagKey = db.rulesOf namespaceKey flagKey := by
  cases hfind : db.rules.find?
      (fun x => x.Id = r.Id ∧ x.NamespaceKey = r.NamespaceKey ∧ x.FlagKey = r.FlagKey) with
  | none => simp only [DeleteRule, hfind]
  | some deleted =>
    rw [DeleteRule_of_found db r deleted hfind]
    simp only [Database.rulesOf]
    rw [filter_flag_map]
    · rw [List.filter_filter]
      have hf : db.rules.filter
          (fun a => decide (a.NamespaceKey = namespaceKey ∧ a.FlagKey = flagKey) &&
            decide (¬ (a.Id = r.Id ∧ a.NamespaceKey = r.NamespaceKey ∧
              a.FlagKey = r.FlagKey))) =
          db.rules.filter
          (fun a => decide (a.NamespaceKey = namespaceKey ∧ a.FlagKey = flagKey)) := by
        apply List.filter_congr
        intro x _
        by_cases h1 : x.NamespaceKey = namespaceKey ∧ x.FlagKey = flagKey
        · have h2 : ¬ (x.NamespaceKey = r.NamespaceKey ∧ x.FlagKey = r.FlagKey) := by
            rintro ⟨h3, h4⟩
            exact h ⟨h1.1.symm.trans h3, h1.2.symm.trans h4⟩
          have h3 : ¬ (x.Id = r.Id ∧ x.NamespaceKey = r.NamespaceKey ∧
              x.FlagKey = r.FlagKey) := fun h4 => h2 h4.2
          rw [decide_eq_true h1, decide_eq_true h3]
          rfl
        · rw [decide_eq_false h1]
          rfl
      rw [hf]
      conv_rhs => rw [← List.map_id (List.filter _ db.rules)]
      apply List.map_congr_left
      intro x hx
      have hx2 := (List.mem_filter.mp hx).2
      simp only [decide_eq_true_eq] at hx2
      rw [if_neg]
      · rfl
      · rintro ⟨h1, h2, _⟩
        exact h ⟨hx2.1.symm.trans h1, hx2.2.symm.trans h2⟩
    · intro x
      split_ifs <;> exact ⟨rfl, rfl⟩

/-! ### Reordering the rules of a flag -/

theorem map_indexOf_eq_range' (ids : List String) (hn : ids.Nodup) :
    ids.map (fun i => ids.indexOf i + 1) = List.range' 1 ids.length := by
  apply List.ext_getElem
  · simp
  · intro j h1 h2
    simp only [List.getElem_map, List.getElem_range']
    rw [List.indexOf_getElem hn]
    omega

theorem ranks_rankedBy (l : List Rule) (ids : List String)
    (hperm : ids.Perm (l.map (fun x => x.Id))) (hn : (l.map (fun x => x.Id)).Nodup) :
    ((l.map (rankedBy ids)).map (fun x => x.Rank)).Perm (List.range' 1 l.length) := by
  have hids : ids.Nodup := hperm.nodup_iff.mpr hn
  have hlen : ids.length = l.length := by
    rw [hperm.length_eq, List.length_map]
  have h1 : (l.map (rankedBy ids)).map (fun x => x.Rank) =
      (l.map (fun x => x.Id)).map (fun i => ids.indexOf i + 1) := by
    simp [rankedBy, Function.comp_def]
  rw [h1, ← hlen, ← map_indexOf_eq_range' ids hids]
  exact (hperm.map _).symm

/-- C14: for every flag and every ordering (permutation) of the ids of all its
rules, `OrderRules` with that ordering succeeds, and `ListRules` afterwards
returns the rules in exactly the given order, the rule listed in place i having
rank i; each listed rule is a rule of the flag with its new rank. -/
theorem OrderRules_then_ListRules (codec : PageCodec) (db : Database) (r : OrderRulesRequest)
    (hnodup : ((db.rulesOf r.NamespaceKey r.FlagKey).map (fun x => x.Id)).Nodup)
    (hperm : r.RuleIds.Perm ((db.rulesOf r.NamespaceKey r.FlagKey).map (fun x => x.Id))) :
    (OrderRules db r).2 = none ∧
    ∃ listed : List Rule,
      ListRules codec (OrderRules db r).1 r.NamespaceKey r.FlagKey {} = Except.ok ⟨listed, ""⟩ ∧
      listed.map (fun x => x.Id) = r.RuleIds ∧
      listed.map (fun x => x.Rank) = List.range' 1 r.RuleIds.length ∧
      ∀ x ∈ listed, ∃ y ∈ db.rulesOf r.NamespaceKey r.FlagKey, x = { y with Rank := x.Rank } := by
  have hsame := rulesOf_OrderRules_same db r hperm
  have hlen : r.RuleIds.length = (db.rulesOf r.NamespaceKey r.FlagKey).length := by
    rw [hperm.length_eq, List.length_map]
  have hlen2 : ((OrderRules db r).1.rulesOf r.NamespaceKey r.FlagKey).length =
      (db.rulesOf r.NamespaceKey r.FlagKey).length := by
    rw [hsame, List.length_map]
  have hdense : Dense (OrderRules db r).1 r.NamespaceKey r.FlagKey := by
    unfold Dense
    rw [hlen2, hsame]
    exact ranks_rankedBy _ _ hperm hnodup
  have hranks := rulesInOrder_asc_ranks (OrderRules db r).1 r.NamespaceKey r.FlagKey hdense
  rw [hlen2, ← hlen] at hranks
  have hp := rulesInOrder_perm (OrderRules db r).1 r.NamespaceKey r.FlagKey Order.OrderAsc
  rw [hsame] at hp
  have hmem : ∀ x ∈ (OrderRules db r).1.rulesInOrder r.NamespaceKey r.FlagKey Order.OrderAsc,
      ∃ y ∈ db.rulesOf r.NamespaceKey r.FlagKey, x = rankedBy r.RuleIds y := by
    intro x hx
    obtain ⟨y, hy, hxy⟩ := List.mem_map.mp (hp.subset hx)
    exact ⟨y, hy, hxy.symm⟩
  refine ⟨by rw [OrderRules_of_perm db r hperm], _, ListRules_all codec _ _ _, ?_, hranks, ?_⟩
  · apply List.ext_getElem?
    intro j
    by_cases hj : j <
        ((OrderRules db r).1.rulesInOrder r.NamespaceKey r.FlagKey Order.OrderAsc).length
    · have hj2 : j < r.RuleIds.length := by
        rw [hlen, ← hlen2, ← rulesInOrder_length _ _ _ Order.OrderAsc]
        exact hj
      rw [List.getElem?_map, List.getElem?_eq_getElem hj]
      simp only [Option.map_some']
      obtain ⟨y, hy, hxy⟩ := hmem _ (List.getElem_mem hj)
      have hrank : ((OrderRules db r).1.rulesInOrder r.NamespaceKey r.FlagKey
          Order.OrderAsc)[j].Rank = 1 + j := by
        have h1 : (((OrderRules db r).1.rulesInOrder r.NamespaceKey r.FlagKey
            Order.OrderAsc).map (fun x => x.Rank))[j]? = (List.range' 1 r.RuleIds.length)[j]? := by
          rw [hranks]
        rw [List.getElem?_map, List.getElem?_eq_getElem hj,
          List.getElem?_eq_getElem (by simpa using hj2)] at h1
        simpa using h1
      have hidx : r.RuleIds.indexOf y.Id = j := by
        rw [hxy] at hrank
        simp only [rankedBy] at hrank
        omega
      have hyid : y.Id ∈ r.RuleIds := hperm.symm.subset (List.mem_map.mpr ⟨y, hy, rfl⟩)
      have hget := List.getElem_indexOf (List.indexOf_lt_length.mpr hyid)
      have hget2 : r.RuleIds[r.RuleIds.indexOf y.Id]? = some y.Id := by
        rw [List.getElem?_eq_getElem (List.indexOf_lt_length.mpr hyid), hget]
      rw [hidx] at hget2
      rw [hget2, hxy]
      rfl
    · have hj2 : ¬ j < r.RuleIds.length := by
        rw [hlen, ← hlen2, ← rulesInOrder_length _ _ _ Order.OrderAsc]
        exact hj
      rw [List.getElem?_eq_none (by simpa using hj), List.getElem?_eq_none (by simpa using hj2)]
  · intro x hx
    obtain ⟨y, hy, hxy⟩ := hmem x hx
    refine ⟨y, hy, ?_⟩
    rw [hxy]
    rfl

/-- Witness of C14: the three rules of the example flag, reordered as in
`TestOrderRules`. -/
theorem OrderRules_then_ListRules_witness :
    (OrderRules exampleThreeRules ⟨"default", "flag", ["r3", "r2", "r1"]⟩).2 = none ∧
    ∃ listed : List Rule,
      ListRules exampleCodec
        (OrderRules exampleThreeRules ⟨"default", "flag", ["r3", "r2", "r1"]⟩).1
        "default" "flag" {} = Except.ok ⟨listed, ""⟩ ∧
      listed.map (fun x => x.Id) = ["r3", "r2", "r1"] ∧
      listed.map (fun x => x.Rank) = List.range' 1 3 ∧
      ∀ x ∈ listed, ∃ y ∈ exampleThreeRules.rulesOf "default" "flag",
        x = { y with Rank := x.Rank } :=
  OrderRules_then_ListRules exampleCodec exampleThreeRules
    ⟨"default", "flag", ["r3", "r2", "r1"]⟩ (by decide) (by decide)

/-! ### Deleting a rule -/

/-- In a list of rules with the ranks 1..N in order and distinct ids, removing
one rule and lowering the ranks above its rank leaves the ranks 1..N-1 in
order. -/
theorem ranks_after_delete (l : List Rule) (deleted : Rule)
    (hranks : l.map (fun x => x.Rank) = List.range' 1 l.length)
    (hids : (l.map (fun x => x.Id)).Nodup) (hdel : deleted ∈ l) :
    ((l.filter (fun x => x.Id ≠ deleted.Id)).map (lowerAbove deleted.Rank)).map
      (fun x => x.Rank) = List.range' 1 (l.length - 1) := by
  obtain ⟨A, B, rfl⟩ := List.append_of_mem hdel
  have hsplit : List.range' 1 (A ++ deleted :: B).length =
      List.range' 1 A.length ++ ((1 + A.length) :: List.range' (1 + A.length + 1) B.length) := by
    rw [← List.range'_succ, List.range'_append_1]
    congr 1
    simp only [List.length_append, List.length_cons]
    omega
  rw [hsplit, List.map_append, List.map_cons] at hranks
  obtain ⟨hA, hB⟩ := List.append_inj hranks (by simp)
  simp only [List.cons.injEq] at hB
  obtain ⟨hK, hB⟩ := hB
  rw [List.map_append, List.map_cons, List.nodup_middle, List.nodup_cons] at hids
  have hnotA : ∀ y ∈ A, y.Id ≠ deleted.Id := by
    intro y hy e
    exact hids.1 (List.mem_append_left _ (List.mem_map.mpr ⟨y, hy, e⟩))
  have hnotB : ∀ y ∈ B, y.Id ≠ deleted.Id := by
    intro y hy e
    exact hids.1 (List.mem_append_right _ (List.mem_map.mpr ⟨y, hy, e⟩))
  have hfilter : (A ++ deleted :: B).filter (fun x => x.Id ≠ deleted.Id) = A ++ B := by
    rw [List.filter_append, List.filter_cons]
    simp only [ne_eq, not_true_eq_false, decide_False, Bool.false_eq_true, if_false]
    rw [List.filter_eq_self.mpr (fun y hy => by simpa using hnotA y hy),
      List.filter_eq_self.mpr (fun y hy => by simpa using hnotB y hy)]
  have hlowA : (A.map (lowerAbove deleted.Rank)).map (fun x => x.Rank) =
      List.range' 1 A.length := by
    rw [← hA, List.map_map]
    apply List.map_congr_left
    intro y hy
    have hy2 : y.Rank ∈ List.range' 1 A.length := by
      rw [← hA]
      exact List.mem_map.mpr ⟨y, hy, rfl⟩
    rw [List.mem_range'_1] at hy2
    have : ¬ deleted.Rank < y.Rank := by omega
    simp [lowerAbove, this]
  have hlowB : (B.map (lowerAbove deleted.Rank)).map (fun x => x.Rank) =
      List.range' (1 + A.length) B.length := by
    have h1 : (B.map (lowerAbove deleted.Rank)).map (fun x => x.Rank) =
        (B.map (fun x => x.Rank)).map (fun k => k - 1) := by
      rw [List.map_map, List.map_map]
      apply List.map_congr_left
      intro y hy
      have hy2 : y.Rank ∈ List.range' (1 + A.length + 1) B.length := by
        rw [← hB]
        exact List.mem_map.mpr ⟨y, hy, rfl⟩
      rw [List.mem_range'_1] at hy2
      have : deleted.Rank < y.Rank := by omega
      simp [lowerAbove, this]
    rw [h1, hB, List.map_sub_range' 1 _ _ (by omega)]
    congr 1
  rw [hfilter, List.map_append, List.map_append, hlowA, hlowB, List.range'_append_1]
  congr 1
  simp only [List.length_append, List.length_cons]
  omega

theorem find_deleted (db : Database) (r : DeleteRuleRequest) (deleted : Rule)
    (hnodup : ((db.rulesOf r.NamespaceKey r.FlagKey).map (fun x => x.Id)).Nodup)
    (hdel : deleted ∈ db.rulesOf r.NamespaceKey r.FlagKey) (hid : deleted.Id = r.Id) :
    db.rules.find?
      (fun x => x.Id = r.Id ∧ x.NamespaceKey = r.NamespaceKey ∧ x.FlagKey = r.FlagKey) =
        some deleted := by
  have hdel2 := List.mem_filter.mp hdel
  cases hfind : db.rules.find?
      (fun x => x.Id = r.Id ∧ x.NamespaceKey = r.NamespaceKey ∧ x.FlagKey = r.FlagKey) with
  | none =>
    rw [List.find?_eq_none] at hfind
    have := hfind deleted hdel2.1
    simp only [decide_eq_true_eq] at this
    have h2 := hdel2.2
    simp only [decide_eq_true_eq] at h2
    exact absurd ⟨hid, h2⟩ this
  | some d =>
    have hd1 := List.mem_of_find?_eq_some hfind
    have hd2 := List.find?_some hfind
    simp only [decide_eq_true_eq] at hd2
    have hd3 : d ∈ db.rulesOf r.NamespaceKey r.FlagKey :=
      List.mem_filter.mpr ⟨hd1, by simpa using hd2.2⟩
    rw [List.inj_on_of_nodup_map hnodup hd3 hdel (hd2.1.trans hid.symm)]

/-- The rules of the flag, in rank order, after a rule of the flag was
deleted. -/
theorem rulesInOrder_DeleteRule (db : Database) (r : DeleteRuleRequest) (deleted : Rule)
    (hnodup : ((db.rulesOf r.NamespaceKey r.FlagKey).map (fun x => x.Id)).Nodup)
    (hdense : Dense db r.NamespaceKey r.FlagKey)
    (hdel : deleted ∈ db.rulesOf r.NamespaceKey r.FlagKey) (hid : deleted.Id = r.Id) :
    (DeleteRule db r).1.rulesInOrder r.NamespaceKey r.FlagKey Order.OrderAsc =
      ((db.rulesInOrder r.NamespaceKey r.FlagKey Order.OrderAsc).filter
        (fun x => x.Id ≠ r.Id)).map (lowerAbove deleted.Rank) ∧
    (((db.rulesInOrder r.NamespaceKey r.FlagKey Order.OrderAsc).filter
        (fun x => x.Id ≠ r.Id)).map (lowerAbove deleted.Rank)).map (fun x => x.Rank) =
      List.range' 1 ((db.rulesOf r.NamespaceKey r.FlagKey).length - 1) := by
  have hfind := find_deleted db r deleted hnodup hdel hid
  have hsame := rulesOf_DeleteRule_same db r deleted hfind
  have hp := rulesInOrder_perm db r.NamespaceKey r.FlagKey Order.OrderAsc
  have hranks := rulesInOrder_asc_ranks db r.NamespaceKey r.FlagKey hdense
  rw [← rulesInOrder_length db _ _ Order.OrderAsc] at hranks
  have hids : ((db.rulesInOrder r.NamespaceKey r.FlagKey Order.OrderAsc).map
      (fun x => x.Id)).Nodup := (hp.map _).nodup_iff.mpr hnodup
  have hafter := ranks_after_delete _ deleted hranks hids (hp.symm.subset hdel)
  rw [hid, rulesInOrder_length] at hafter
  refine ⟨?_, hafter⟩
  symm
  apply eq_of_perm_of_sorted_rank
  · have hp2 := rulesInOrder_perm (DeleteRule db r).1 r.NamespaceKey r.FlagKey Order.OrderAsc
    rw [hsame] at hp2
    exact (((hp.filter _).map _).trans hp2.symm)
  · rw [← List.pairwise_map (f := fun x : Rule => x.Rank) (R := fun a b => a ≤ b), hafter]
    exact (List.pairwise_lt_range' 1 _).imp (fun h => Nat.le_of_lt h)
  · exact rulesInOrder_asc_sorted _ _ _
  · rw [hafter]
    exact List.nodup_range' 1 _

/-- C13: for every flag whose rules have the ranks 1..N and every rule of the
flag, at rank K, deleting the rule and listing the rules of the flag yields the
N-1 other rules with the ranks 1..N-1, in their previous relative order: a rule
formerly above rank K has its rank lowered by one, a rule below K keeps its
rank. -/
theorem DeleteRule_then_ListRules (codec : PageCodec) (db : Database) (r : DeleteRuleRequest)
    (deleted : Rule)
    (hnodup : ((db.rulesOf r.NamespaceKey r.FlagKey).map (fun x => x.Id)).Nodup)
    (hdense : Dense db r.NamespaceKey r.FlagKey)
    (hdel : deleted ∈ db.rulesOf r.NamespaceKey r.FlagKey) (hid : deleted.Id = r.Id) :
    (DeleteRule db r).2 = none ∧
    ∃ before after : List Rule,
      ListRules codec db r.NamespaceKey r.FlagKey {} = Except.ok ⟨before, ""⟩ ∧
      before.map (fun x => x.Rank) = List.range' 1 before.length ∧
      deleted ∈ before ∧
      ListRules codec (DeleteRule db r).1 r.NamespaceKey r.FlagKey {} = Except.ok ⟨after, ""⟩ ∧
      after = (before.filter (fun x => x.Id ≠ r.Id)).map
        (fun x => if deleted.Rank < x.Rank then { x with Rank := x.Rank - 1 } else x) ∧
      after.map (fun x => x.Id) = (before.map (fun x => x.Id)).filter (fun i => i ≠ r.Id) ∧
      after.length = before.length - 1 ∧
      after.map (fun x => x.Rank) = List.range' 1 (before.length - 1) := by
  obtain ⟨h1, h2⟩ := rulesInOrder_DeleteRule db r deleted hnodup hdense hdel hid
  have hp := rulesInOrder_perm db r.NamespaceKey r.FlagKey Order.OrderAsc
  have hranks := rulesInOrder_asc_ranks db r.NamespaceKey r.FlagKey hdense
  rw [← rulesInOrder_length db _ _ Order.OrderAsc] at hranks h2
  refine ⟨?_, db.rulesInOrder r.NamespaceKey r.FlagKey Order.OrderAsc,
    (DeleteRule db r).1.rulesInOrder r.NamespaceKey r.FlagKey Order.OrderAsc,
    ListRules_all codec _ _ _, hranks, hp.symm.subset hdel, ListRules_all codec _ _ _, ?_, ?_,
    ?_, ?_⟩
  · rw [DeleteRule_of_found db r deleted (find_deleted db r deleted hnodup hdel hid)]
  · rw [h1]
    rfl
  · rw [h1, List.map_map, List.filter_map]
    apply List.map_congr_left
    intro x _
    simp only [Function.comp, lowerAbove]
    split_ifs <;> rfl
  · have := congrArg List.length h2
    rw [List.length_map, List.length_range'] at this
    rw [h1]
    exact this
  · rw [h1]
    exact h2

/-- Witness of C13: the second of the three rules of the example flag is
deleted (`TestDeleteRule`). -/
theorem DeleteRule_then_ListRules_witness :
    (DeleteRule exampleThreeRules ⟨"r2", "default", "flag"⟩).2 = none ∧
    ∃ before after : List Rule,
      ListRules exampleCodec exampleThreeRules "default" "flag" {} = Except.ok ⟨before, ""⟩ ∧
      before.map (fun x => x.Rank) = List.range' 1 before.length ∧
      (⟨"r2", "default", "flag", "segment", 2⟩ : Rule) ∈ before ∧
      ListRules exampleCodec (DeleteRule exampleThreeRules ⟨"r2", "default", "flag"⟩).1
        "default" "flag" {} = Except.ok ⟨after, ""⟩ ∧
      after = (before.filter (fun x => x.Id ≠ "r2")).map
        (fun x => if 2 < x.Rank then { x with Rank := x.Rank - 1 } else x) ∧
      after.map (fun x => x.Id) = (before.map (fun x => x.Id)).filter (fun i => i ≠ "r2") ∧
      after.length = before.length - 1 ∧
      after.map (fun x => x.Rank) = List.range' 1 (before.length - 1) :=
  DeleteRule_then_ListRules exampleCodec exampleThreeRules ⟨"r2", "default", "flag"⟩
    ⟨"r2", "default", "flag", "segment", 2⟩ (by decide) (by unfold Dense; decide) (by decide) rfl

/-! ### The invariant of the rule table -/

theorem rulesOf_ids_nodup (db : Database) (namespaceKey flagKey : String)
    (h : (db.rules.map (fun x => x.Id)).Nodup) :
    ((db.rulesOf namespaceKey flagKey).map (fun x => x.Id)).Nodup :=
  h.sublist ((List.filter_sublist _).map _)

theorem WellFormed_of_no_rules (db : Database) (h : db.rules = []) : WellFormed db := by
  refine ⟨by simp [h], by simp [h], ?_⟩
  intro namespaceKey flagKey
  simp [Dense, Database.rulesOf, h]

theorem CreateRule_ok (db db1 : Database) (id : String) (r : CreateRuleRequest) (rule : Rule)
    (h : CreateRule db id r = (db1, Except.ok rule)) :
    ((r.NamespaceKey, r.SegmentKey) ∈ db.segments ∧ id ∉ db.rules.map (fun x => x.Id)) ∧
    rule = ⟨id, r.NamespaceKey, r.FlagKey, r.SegmentKey,
      (db.rulesOf r.NamespaceKey r.FlagKey).length + 1⟩ ∧
    db1 = { db with rules := db.rules ++ [rule] } := by
  unfold CreateRule at h
  split_ifs at h with h1 h2
  · simp at h
  · simp only [Prod.mk.injEq, Except.ok.injEq] at h
    obtain ⟨hdb, hrule⟩ := h
    refine ⟨⟨h1.2, fun hmem => h2 (Or.inr hmem)⟩, hrule.symm, ?_⟩
    rw [← hdb, hrule]
  · simp at h

theorem CreateRule_ok_id (db db1 : Database) (id : String) (r : CreateRuleRequest) (rule : Rule)
    (h : CreateRule db id r = (db1, Except.ok rule)) : id ≠ "" := by
  unfold CreateRule at h
  split_ifs at h with h1 h2
  · simp at h
  · exact fun hid => h2 (Or.inl hid)
  · simp at h

theorem WellFormed_CreateRule (db db1 : Database) (id : String) (r : CreateRuleRequest)
    (rule : Rule) (hwf : WellFormed db) (h : CreateRule db id r = (db1, Except.ok rule)) :
    WellFormed db1 := by
  obtain ⟨⟨hseg, hfresh⟩, hrule, hdb⟩ := CreateRule_ok db db1 id r rule h
  obtain ⟨hids, hsegs, hdense⟩ := hwf
  subst hdb
  refine ⟨?_, ?_, ?_⟩
  · simp only [List.map_append, List.map_cons, List.map_nil]
    rw [List.nodup_append]
    refine ⟨hids, by simp, ?_⟩
    intro a ha hb
    simp only [List.mem_singleton] at hb
    rw [hb, hrule] at ha
    exact hfresh ha
  · intro x hx
    rcases List.mem_append.mp hx with hx | hx
    · exact hsegs x hx
    · simp only [List.mem_singleton] at hx
      rw [hx, hrule]
      exact hseg
  · intro namespaceKey flagKey
    by_cases hflag : r.NamespaceKey = namespaceKey ∧ r.FlagKey = flagKey
    · obtain ⟨rfl, rfl⟩ := hflag
      have hof : Database.rulesOf { db with rules := db.rules ++ [rule] }
          r.NamespaceKey r.FlagKey = db.rulesOf r.NamespaceKey r.FlagKey ++ [rule] := by
        simp [Database.rulesOf, List.filter_append, hrule]
      unfold Dense
      rw [hof, List.map_append, List.length_append, List.length_singleton,
        List.range'_concat]
      apply List.Perm.append (hdense r.NamespaceKey r.FlagKey)
      rw [hrule]
      simp [Nat.add_comm]
    · have hof : Database.rulesOf { db with rules := db.rules ++ [rule] }
          namespaceKey flagKey = db.rulesOf namespaceKey flagKey := by
        simp [Database.rulesOf, List.filter_append, hrule, hflag]
      unfold Dense
      rw [hof]
      exact hdense namespaceKey flagKey

theorem WellFormed_DeleteRule (db : Database) (r : DeleteRuleRequest) (hwf : WellFormed db) :
    WellFormed (DeleteRule db r).1 := by
  cases hfind : db.rules.find?
      (fun x => x.Id = r.Id ∧ x.NamespaceKey = r.NamespaceKey ∧ x.FlagKey = r.FlagKey) with
  | none =>
    have : DeleteRule db r = (db, none) := by simp only [DeleteRule, hfind]
    rw [this]
    exact hwf
  | some deleted =>
    obtain ⟨hids, hsegs, hdense⟩ := hwf
    have hd1 := List.mem_of_find?_eq_some hfind
    have hd2 := List.find?_some hfind
    simp only [decide_eq_true_eq] at hd2
    have hdel : deleted ∈ db.rulesOf r.NamespaceKey r.FlagKey :=
      List.mem_filter.mpr ⟨hd1, by simpa using hd2.2⟩
    have hnodup := rulesOf_ids_nodup db r.NamespaceKey r.FlagKey hids
    refine ⟨?_, ?_, ?_⟩
    · rw [DeleteRule_of_found db r deleted hfind]
      simp only [List.map_map]
      have hmap : (fun x : Rule => x.Id) ∘ (fun x : Rule =>
          if x.NamespaceKey = r.NamespaceKey ∧ x.FlagKey = r.FlagKey ∧ deleted.Rank < x.Rank then
            { x with Rank := x.Rank - 1 }
          else x) = fun x => x.Id := by
        funext x
        simp only [Function.comp]
        split_ifs <;> rfl
      rw [hmap]
      exact hids.sublist ((List.filter_sublist _).map _)
    · rw [DeleteRule_of_found db r deleted hfind]
      intro x hx
      obtain ⟨y, hy, rfl⟩ := List.mem_map.mp hx
      have := hsegs y (List.mem_filter.mp hy).1
      split_ifs <;> exact this
    · intro namespaceKey flagKey
      by_cases hflag : namespaceKey = r.NamespaceKey ∧ flagKey = r.FlagKey
      · obtain ⟨rfl, rfl⟩ := hflag
        obtain ⟨h1, h2⟩ := rulesInOrder_DeleteRule db r deleted hnodup
          (hdense r.NamespaceKey r.FlagKey) hdel hd2.1
        have hp := rulesInOrder_perm (DeleteRule db r).1 r.NamespaceKey r.FlagKey Order.OrderAsc
        have hlen : ((DeleteRule db r).1.rulesOf r.NamespaceKey r.FlagKey).length =
            (db.rulesOf r.NamespaceKey r.FlagKey).length - 1 := by
          rw [← hp.length_eq, h1]
          have := congrArg List.length h2
          rw [List.length_map, List.length_range'] at this
          exact this
        unfold Dense
        rw [hlen, ← h2, ← h1]
        exact (hp.map _).symm
      · unfold Dense
        rw [rulesOf_DeleteRule_other db r namespaceKey flagKey hflag]
        exact hdense namespaceKey flagKey

theorem WellFormed_OrderRules (db : Database) (r : OrderRulesRequest) (hwf : WellFormed db) :
    WellFormed (OrderRules db r).1 := by
  by_cases hperm : r.RuleIds.Perm ((db.rulesOf r.NamespaceKey r.FlagKey).map (fun x => x.Id))
  · obtain ⟨hids, hsegs, hdense⟩ := hwf
    refine ⟨?_, ?_, ?_⟩
    · rw [OrderRules_of_perm db r hperm]
      simp only [List.map_map]
      have hmap : (fun x : Rule => x.Id) ∘ (fun x : Rule =>
          if x.NamespaceKey = r.NamespaceKey ∧ x.FlagKey = r.FlagKey then
            { x with Rank := r.RuleIds.indexOf x.Id + 1 }
          else x) = fun x => x.Id := by
        funext x
        simp only [Function.comp]
        split_ifs <;> rfl
      rw [hmap]
      exact hids
    · rw [OrderRules_of_perm db r hperm]
      intro x hx
      obtain ⟨y, hy, rfl⟩ := List.mem_map.mp hx
      have := hsegs y hy
      split_ifs <;> exact this
    · intro namespaceKey flagKey
      by_cases hflag : namespaceKey = r.NamespaceKey ∧ flagKey = r.FlagKey
      · obtain ⟨rfl, rfl⟩ := hflag
        have hsame := rulesOf_OrderRules_same db r hperm
        unfold Dense
        rw [hsame, List.length_map]
        exact ranks_rankedBy _ _ hperm (rulesOf_ids_nodup db _ _ hids)
      · unfold Dense
        rw [rulesOf_OrderRules_other db r namespaceKey flagKey hflag]
        exact hdense namespaceKey flagKey
  · have : OrderRules db r = (db, some (RepositoryError.InvalidArgument
        "rule ids are not a full ordering of the flag")) := by
      simp only [OrderRules, if_neg hperm]
    rw [this]
    exact hwf

theorem WellFormed_apply (db db1 : Database) (m : Mutation) (hwf : WellFormed db)
    (h : m.apply db = (db1, none)) : WellFormed db1 := by
  cases m with
  | create id r =>
    simp only [Mutation.apply] at h
    cases hc : CreateRule db id r with
    | mk db2 res =>
      cases res with
      | error err => simp [hc] at h
      | ok rule =>
        simp only [hc, Prod.mk.injEq, and_true] at h
        rw [← h]
        exact WellFormed_CreateRule db db2 id r rule hwf hc
  | delete r =>
    simp only [Mutation.apply] at h
    have := WellFormed_DeleteRule db r hwf
    rw [h] at this
    exact this
  | order r =>
    simp only [Mutation.apply] at h
    have := WellFormed_OrderRules db r hwf
    rw [h] at this
    exact this

theorem WellFormed_applySuccessful (ms : List Mutation) (db db1 : Database)
    (hwf : WellFormed db) (h : applySuccessful db ms = some db1) : WellFormed db1 := by
  induction ms generalizing db with
  | nil =>
    simp only [applySuccessful, Option.some.injEq] at h
    rw [← h]
    exact hwf
  | cons m ms ih =>
    simp only [applySuccessful] at h
    cases hm : m.apply db with
    | mk db2 err =>
      cases err with
      | some e => simp [hm] at h
      | none =>
        simp only [hm] at h
        exact ih db2 (WellFormed_apply db db2 m hwf hm) h

/-! ### Ranks seen through the evaluation query -/

theorem whereRule_rulesQuery (namespaceKey flagKey : String) (x : Rule) :
    whereRule (rulesQuery namespaceKey flagKey).Where x = true ↔
      x.NamespaceKey = namespaceKey ∧ x.FlagKey = flagKey := by
  simp only [whereRule, rulesQuery, List.all_cons, List.all_nil, Bool.and_true,
    Bool.and_eq_true, beq_iff_eq]
  constructor
  · rintro ⟨h1, h2⟩
    exact ⟨h2.symm, h1.symm⟩
  · rintro ⟨h1, h2⟩
    exact ⟨h2.symm, h1.symm⟩

/-- On a well-formed rule table, the rules collapsed from an answer of the
backend to the rule statement carry the ranks 1..N of the flag, in order. -/
theorem collapse_ranks_of_answer (db : Database) (hwf : WellFormed db)
    (namespaceKey flagKey : String) (scanned : List RuleRow)
    (hans : answersRules db (rulesQuery namespaceKey flagKey) scanned) :
    (collapse scanned).map (fun x => x.Rank) =
      (List.range' 1 (db.rulesOf namespaceKey flagKey).length).map Int.ofNat := by
  obtain ⟨hsorted, hrows, hall⟩ := hans
  obtain ⟨hids, hsegs, hdense⟩ := hwf
  have hsorted := hsorted rfl
  have hcollapse : (collapse scanned).map (fun x => x.Rank) =
      (firstRows scanned).map (fun row => row.Rank) := by
    simp [collapse, ruleOf]
  have hpairs : ((firstRows scanned).map (fun row => (row.ID, row.Rank))).Perm
      ((db.rulesOf namespaceKey flagKey).map (fun x => (x.Id, (x.Rank : Int)))) := by
    rw [List.perm_ext_iff_of_nodup]
    · intro p
      constructor
      · intro hp
        obtain ⟨row, hrow, rfl⟩ := List.mem_map.mp hp
        obtain ⟨x, hx, hw, _, h1, _, _, _, h5⟩ :=
          hrows row ((firstRows_sublist scanned).subset hrow)
        rw [h1, h5]
        apply List.mem_map.mpr
        refine ⟨x, List.mem_filter.mpr ⟨hx, ?_⟩, rfl⟩
        simpa using (whereRule_rulesQuery namespaceKey flagKey x).mp hw
      · intro hp
        obtain ⟨x, hx, rfl⟩ := List.mem_map.mp hp
        have hx1 := (List.mem_filter.mp hx).1
        have hx2 := (List.mem_filter.mp hx).2
        simp only [decide_eq_true_eq] at hx2
        have hw := (whereRule_rulesQuery namespaceKey flagKey x).mpr hx2
        obtain ⟨row, hrow, hrowid⟩ := hall x hx1 hw (hsegs x hx1)
        have hmem : x.Id ∈ (firstRows scanned).map (fun r => r.ID) :=
          (mem_firstRows_ids scanned x.Id).mpr (List.mem_map.mpr ⟨row, hrow, hrowid⟩)
        obtain ⟨row1, hrow1, hrow1id⟩ := List.mem_map.mp hmem
        obtain ⟨y, hy, _, _, h1, _, _, _, h5⟩ :=
          hrows row1 ((firstRows_sublist scanned).subset hrow1)
        have hyx : y = x := List.inj_on_of_nodup_map hids hy hx1 (h1.symm.trans hrow1id)
        apply List.mem_map.mpr
        refine ⟨row1, hrow1, ?_⟩
        rw [h5, hrow1id, hyx]
    · apply List.Nodup.of_map (fun p : String × Int => p.1)
      rw [List.map_map]
      exact firstRows_nodup scanned
    · apply List.Nodup.of_map (fun p : String × Int => p.1)
      rw [List.map_map]
      exact rulesOf_ids_nodup db namespaceKey flagKey hids
  have hperm : ((firstRows scanned).map (fun row => row.Rank)).Perm
      ((List.range' 1 (db.rulesOf namespaceKey flagKey).length).map Int.ofNat) := by
    have h1 := hpairs.map (fun p : String × Int => p.2)
    rw [List.map_map, List.map_map] at h1
    have h2 := (hdense namespaceKey flagKey).map Int.ofNat
    rw [List.map_map] at h2
    exact h1.trans h2
  rw [hcollapse]
  apply List.eq_of_perm_of_sorted (r := fun x y : Int => x ≤ y) hperm
  · rw [List.Sorted, List.pairwise_map]
    exact hsorted.sublist (firstRows_sublist scanned)
  · rw [List.Sorted, List.pairwise_map]
    exact (List.pairwise_lt_range' 1 _).imp (fun h => Int.ofNat_le.mpr (Nat.le_of_lt h))

/-- C12: after any sequence of successful `CreateRule`, `DeleteRule` and
`OrderRules` operations, starting without rules, the ranks of the rules of a
flag observed through `ListRules` and through `GetEvaluationRules` are pairwise
distinct and are exactly 1..N, N being the number of rules of the flag; a
further `CreateRule` gives the new rule the rank N+1. -/
theorem ranks_dense_after_mutations (codec : PageCodec) (db0 : Database) (ms : List Mutation)
    (db : Database) (namespaceKey flagKey : String)
    (h0 : db0.rules = []) (hrun : applySuccessful db0 ms = some db) :
    (∃ listed : List Rule,
      ListRules codec db namespaceKey flagKey {} = Except.ok ⟨listed, ""⟩ ∧
      listed.Perm (db.rulesOf namespaceKey flagKey) ∧
      listed.map (fun x => x.Rank) = List.range' 1 (db.rulesOf namespaceKey flagKey).length ∧
      (listed.map (fun x => x.Rank)).Nodup) ∧
    (∀ (D : String) (s : Store) (evaluationNamespace : String) (rows : Rows RuleRow)
        (scanned : List RuleRow),
      (if evaluationNamespace = "" then D else evaluationNamespace) = namespaceKey →
      s.QueryRules (rulesQuery namespaceKey flagKey) = Except.ok rows →
      rows.scans = scanned.map Except.ok →
      answersRules db (rulesQuery namespaceKey flagKey) scanned →
      (GetEvaluationRules D s evaluationNamespace flagKey).2 = none →
      (GetEvaluationRules D s evaluationNamespace flagKey).1.toList.map (fun x => x.Rank) =
        (List.range' 1 (db.rulesOf namespaceKey flagKey).length).map Int.ofNat) ∧
    (∀ (id : String) (r : CreateRuleRequest) (db1 : Database) (rule : Rule),
      CreateRule db id r = (db1, Except.ok rule) →
      rule.Rank = (db.rulesOf r.NamespaceKey r.FlagKey).length + 1) := by
  have hwf : WellFormed db :=
    WellFormed_applySuccessful ms db0 db (WellFormed_of_no_rules db0 h0) hrun
  have hranks := rulesInOrder_asc_ranks db namespaceKey flagKey (hwf.2.2 namespaceKey flagKey)
  refine ⟨⟨_, ListRules_all codec db namespaceKey flagKey,
    rulesInOrder_perm db namespaceKey flagKey Order.OrderAsc, hranks, ?_⟩, ?_, ?_⟩
  · rw [hranks]
    exact List.nodup_range' 1 _
  · intro D s evaluationNamespace rows scanned hns hq hscan hans hok
    subst hns
    rw [GetEvaluationRules_of_success D s evaluationNamespace flagKey rows scanned hq hscan hok]
    exact collapse_ranks_of_answer db hwf _ flagKey scanned hans
  · intro id r db1 rule hc
    rw [(CreateRule_ok db db1 id r rule hc).2.1]

/-- Witness of C12: the example flag after creations, a deletion and a
reordering. -/
theorem ranks_dense_after_mutations_witness :
    (∃ listed : List Rule,
      ListRules exampleCodec exampleMutated "default" "flag" {} = Except.ok ⟨listed, ""⟩ ∧
      listed.Perm (exampleMutated.rulesOf "default" "flag") ∧
      listed.map (fun x => x.Rank) =
        List.range' 1 (exampleMutated.rulesOf "default" "flag").length ∧
      (listed.map (fun x => x.Rank)).Nodup) ∧
    (∀ (D : String) (s : Store) (evaluationNamespace : String) (rows : Rows RuleRow)
        (scanned : List RuleRow),
      (if evaluationNamespace = "" then D else evaluationNamespace) = "default" →
      s.QueryRules (rulesQuery "default" "flag") = Except.ok rows →
      rows.scans = scanned.map Except.ok →
      answersRules exampleMutated (rulesQuery "default" "flag") scanned →
      (GetEvaluationRules D s evaluationNamespace "flag").2 = none →
      (GetEvaluationRules D s evaluationNamespace "flag").1.toList.map (fun x => x.Rank) =
        (List.range' 1 (exampleMutated.rulesOf "default" "flag").length).map Int.ofNat) ∧
    (∀ (id : String) (r : CreateRuleRequest) (db1 : Database) (rule : Rule),
      CreateRule exampleMutated id r = (db1, Except.ok rule) →
      rule.Rank = (exampleMutated.rulesOf r.NamespaceKey r.FlagKey).length + 1) :=
  ranks_dense_after_mutations exampleCodec exampleDatabase exampleMutations exampleMutated
    "default" "flag" rfl (by decide)

/-! ### Rule ids are not empty -/

theorem NonEmptyIds_apply (db db1 : Database) (m : Mutation) (hne : NonEmptyIds db)
    (h : m.apply db = (db1, none)) : NonEmptyIds db1 := by
  cases m with
  | create id r =>
    simp only [Mutation.apply] at h
    cases hc : CreateRule db id r with
    | mk db2 res =>
      cases res with
      | error err => simp [hc] at h
      | ok rule =>
        simp only [hc, Prod.mk.injEq, and_true] at h
        obtain ⟨_, hrule, hdb⟩ := CreateRule_ok db db2 id r rule hc
        have hid := CreateRule_ok_id db db2 id r rule hc
        rw [← h, hdb]
        intro x hx
        rcases List.mem_append.mp hx with hx | hx
        · exact hne x hx
        · simp only [List.mem_singleton] at hx
          rw [hx, hrule]
          exact hid
  | delete r =>
    simp only [Mutation.apply] at h
    have hdb : db1 = (DeleteRule db r).1 := by rw [h]
    rw [hdb]
    cases hfind : db.rules.find?
        (fun x => x.Id = r.Id ∧ x.NamespaceKey = r.NamespaceKey ∧ x.FlagKey = r.FlagKey) with
    | none =>
      have : DeleteRule db r = (db, none) := by simp only [DeleteRule, hfind]
      rw [this]
      exact hne
    | some deleted =>
      rw [DeleteRule_of_found db r deleted hfind]
      intro x hx
      obtain ⟨y, hy, rfl⟩ := List.mem_map.mp hx
      have := hne y (List.mem_filter.mp hy).1
      split_ifs <;> exact this
  | order r =>
    simp only [Mutation.apply] at h
    have hdb : db1 = (OrderRules db r).1 := by rw [h]
    rw [hdb]
    by_cases hperm : r.RuleIds.Perm ((db.rulesOf r.NamespaceKey r.FlagKey).map (fun x => x.Id))
    · rw [OrderRules_of_perm db r hperm]
      intro x hx
      obtain ⟨y, hy, rfl⟩ := List.mem_map.mp hx
      have := hne y hy
      split_ifs <;> exact this
    · have : OrderRules db r = (db, some (RepositoryError.InvalidArgument
          "rule ids are not a full ordering of the flag")) := by
        simp only [OrderRules, if_neg hperm]
      rw [this]
      exact hne

theorem NonEmptyIds_applySuccessful (ms : List Mutation) (db db1 : Database)
    (hne : NonEmptyIds db) (h : applySuccessful db ms = some db1) : NonEmptyIds db1 := by
  induction ms generalizing db with
  | nil =>
    simp only [applySuccessful, Option.some.injEq] at h
    rw [← h]
    exact hne
  | cons m ms ih =>
    simp only [applySuccessful] at h
    cases hm : m.apply db with
    | mk db2 err =>
      cases err with
      | some e => simp [hm] at h
      | none =>
        simp only [hm] at h
        exact ih db2 (NonEmptyIds_apply db db2 m hne hm) h

theorem NonEmptyIds_of_no_rules (db : Database) (h : db.rules = []) : NonEmptyIds db := by
  intro x hx
  rw [h] at hx
  simp at hx

/-! ### Pages -/

/-- A page of `ListRules` with a limit: `start` is the offset of the options
added to the one the page token records. -/
theorem ListRules_page (codec : PageCodec) (db : Database) (namespaceKey flagKey : String)
    (params : QueryParams) (start : Nat) (hlimit : params.Limit ≠ 0)
    (hstart : (params.PageToken = "" ∧ start = params.Offset) ∨
      (∃ t, params.PageToken = codec.encode t ∧ start = params.Offset + t.Offset)) :
    ListRules codec db namespaceKey flagKey params =
      Except.ok
        { Results := ((db.rulesInOrder namespaceKey flagKey params.Order).drop start).take
            params.Limit
          NextPageToken :=
            if params.Limit < ((db.rulesInOrder namespaceKey flagKey params.Order).drop
                start).length then
              codec.encode
                { Key := lastKey (((db.rulesInOrder namespaceKey flagKey params.Order).drop
                    start).take params.Limit)
                  Offset := start + (((db.rulesInOrder namespaceKey flagKey params.Order).drop
                    start).take params.Limit).length }
            else "" } := by
  rcases hstart with ⟨htoken, hs⟩ | ⟨t, htoken, hs⟩
  · simp only [ListRules, htoken, if_pos, if_neg hlimit, hs, Nat.add_zero]
  · simp only [ListRules, htoken, if_neg (codec.encode_ne_empty t), codec.decode_encode,
      if_neg hlimit, hs]

theorem lastKey_ne_empty (page : List Rule) (hpage : page ≠ [])
    (hids : ∀ x ∈ page, x.Id ≠ "") : lastKey page ≠ "" := by
  unfold lastKey
  cases hlast : page.getLast? with
  | none =>
    rw [List.getLast?_eq_none_iff] at hlast
    exact absurd hlast hpage
  | some x => exact hids x (List.mem_of_getLast?_eq_some hlast)

/-- With dense ranks, the rules of a flag in descending order have the ranks
N..1. -/
theorem rulesInOrder_desc_ranks (db : Database) (namespaceKey flagKey : String)
    (hd : Dense db namespaceKey flagKey) :
    (db.rulesInOrder namespaceKey flagKey Order.OrderDesc).map (fun x => x.Rank) =
      (List.range' 1 (db.rulesOf namespaceKey flagKey).length).reverse := by
  haveI : IsAntisymm Nat (fun x y => y ≤ x) := ⟨fun _ _ h1 h2 => Nat.le_antisymm h2 h1⟩
  apply List.eq_of_perm_of_sorted (r := fun x y : Nat => y ≤ x)
  · exact (((rulesInOrder_perm db namespaceKey flagKey Order.OrderDesc).map _).trans hd).trans
      (List.reverse_perm _).symm
  · rw [List.Sorted, List.pairwise_map]
    exact rulesInOrder_desc_sorted db namespaceKey flagKey
  · rw [List.Sorted, List.pairwise_reverse]
    exact (List.pairwise_lt_range' 1 _).imp (fun h => Nat.le_of_lt h)

/-- C16: for the rules of a flag (whatever the successful mutations that led to
them), when `ListRules` with limit L returns a page and more rules remain in
the requested order, the next page token is not empty and decodes to a
PageToken with a non-empty key and the offset: starting offset of the request
plus L; `ListRules` with that token, the same order and the same limit returns
the rules that immediately follow the page. With descending order and limit 1,
the first page holds the highest rank and the next page the next lower
rank. -/
theorem ListRules_next_page (codec : PageCodec) (db0 : Database) (ms : List Mutation)
    (db : Database) (namespaceKey flagKey : String) (params : QueryParams) (start : Nat)
    (h0 : db0.rules = []) (hrun : applySuccessful db0 ms = some db)
    (hlimit : 0 < params.Limit)
    (hstart : (params.PageToken = "" ∧ start = params.Offset) ∨
      (∃ t, params.PageToken = codec.encode t ∧ start = params.Offset + t.Offset))
    (hmore : start + params.Limit <
      (db.rulesInOrder namespaceKey flagKey params.Order).length) :
    ∃ (page : List Rule) (token key : String) (next : RuleList),
      ListRules codec db namespaceKey flagKey params = Except.ok ⟨page, token⟩ ∧
      page = ((db.rulesInOrder namespaceKey flagKey params.Order).drop start).take params.Limit ∧
      page.length = params.Limit ∧
      token ≠ "" ∧
      codec.decode token = some ⟨key, start + params.Limit⟩ ∧
      key ≠ "" ∧
      ListRules codec db namespaceKey flagKey
        { Limit := params.Limit, Order := params.Order, PageToken := token } = Except.ok next ∧
      next.Results =
        ((db.rulesInOrder namespaceKey flagKey params.Order).drop (start + params.Limit)).take
          params.Limit ∧
      next.Results ≠ [] ∧
      page ++ next.Results =
        ((db.rulesInOrder namespaceKey flagKey params.Order).drop start).take
          (params.Limit + params.Limit) ∧
      (params.Order = Order.OrderDesc → params.Limit = 1 → start = 0 →
        page.map (fun x => x.Rank) = [(db.rulesOf namespaceKey flagKey).length] ∧
        next.Results.map (fun x => x.Rank) = [(db.rulesOf namespaceKey flagKey).length - 1]) := by
  have hwf : WellFormed db :=
    WellFormed_applySuccessful ms db0 db (WellFormed_of_no_rules db0 h0) hrun
  have hids : NonEmptyIds db :=
    NonEmptyIds_applySuccessful ms db0 db (NonEmptyIds_of_no_rules db0 h0) hrun
  have hrest : params.Limit <
      ((db.rulesInOrder namespaceKey flagKey params.Order).drop start).length := by
    rw [List.length_drop]
    omega
  have hpagelen : (((db.rulesInOrder namespaceKey flagKey params.Order).drop start).take
      params.Limit).length = params.Limit := by
    rw [List.length_take]
    omega
  have hfirst := ListRules_page codec db namespaceKey flagKey params start (by omega) hstart
  rw [if_pos hrest, hpagelen] at hfirst
  have hnext := ListRules_page codec db namespaceKey flagKey
    { Limit := params.Limit, Order := params.Order
      PageToken := codec.encode
        ⟨lastKey (((db.rulesInOrder namespaceKey flagKey params.Order).drop start).take
          params.Limit), start + params.Limit⟩ }
    (start + params.Limit) (by simpa using Nat.ne_of_gt hlimit)
    (Or.inr ⟨_, rfl, by simp⟩)
  have hpage_ne : ((db.rulesInOrder namespaceKey flagKey params.Order).drop start).take
      params.Limit ≠ [] := by
    intro h
    rw [h] at hpagelen
    simp at hpagelen
    omega
  have hkey : lastKey (((db.rulesInOrder namespaceKey flagKey params.Order).drop start).take
      params.Limit) ≠ "" := by
    apply lastKey_ne_empty _ hpage_ne
    intro x hx
    apply hids
    have hx1 := List.mem_of_mem_drop (List.mem_of_mem_take hx)
    have hx2 := (rulesInOrder_perm db namespaceKey flagKey params.Order).subset hx1
    exact (List.mem_filter.mp hx2).1
  refine ⟨_, _, _, _, hfirst, rfl, hpagelen, codec.encode_ne_empty _, codec.decode_encode _,
    hkey, hnext, rfl, ?_, ?_, ?_⟩
  · intro h
    have := congrArg List.length h
    simp only [List.length_take, List.length_drop, List.length_nil] at this
    omega
  · rw [List.take_add, List.drop_drop]
  · intro horder hone hzero
    have hranks := rulesInOrder_desc_ranks db namespaceKey flagKey
      (hwf.2.2 namespaceKey flagKey)
    rw [horder] at hmore
    rw [rulesInOrder_length] at hmore
    obtain ⟨n, hn⟩ : ∃ n, (db.rulesOf namespaceKey flagKey).length = n + 2 :=
      ⟨(db.rulesOf namespaceKey flagKey).length - 2, by omega⟩
    have hrev : (List.range' 1 (n + 2)).reverse =
        (n + 2) :: (n + 1) :: (List.range' 1 n).reverse := by
      rw [List.range'_concat, List.range'_concat]
      simp only [List.reverse_append, List.reverse_cons, List.reverse_nil, List.nil_append,
        List.cons_append, Nat.one_mul, List.cons.injEq, and_true]
      omega
    rw [hn, hrev] at hranks
    simp only [horder, hone, hzero]
    rw [List.map_take, List.map_take, List.map_drop, List.map_drop, hranks, hn]
    simp

/-- Witness of C16: the example flag after the example mutations, listed in
descending order with limit 1 (`TestListRulesPagination_LimitWithNextPage`). -/
theorem ListRules_next_page_witness :
    ∃ (page : List Rule) (token key : String) (next : RuleList),
      ListRules exampleCodec exampleMutated "default" "flag"
        { Limit := 1, Order := Order.OrderDesc } = Except.ok ⟨page, token⟩ ∧
      page = ((exampleMutated.rulesInOrder "default" "flag" Order.OrderDesc).drop 0).take 1 ∧
      page.length = 1 ∧
      token ≠ "" ∧
      exampleCodec.decode token = some ⟨key, 0 + 1⟩ ∧
      key ≠ "" ∧
      ListRules exampleCodec exampleMutated "default" "flag"
        { Limit := 1, Order := Order.OrderDesc, PageToken := token } = Except.ok next ∧
      next.Results =
        ((exampleMutated.rulesInOrder "default" "flag" Order.OrderDesc).drop (0 + 1)).take 1 ∧
      next.Results ≠ [] ∧
      page ++ next.Results =
        ((exampleMutated.rulesInOrder "default" "flag" Order.OrderDesc).drop 0).take (1 + 1) ∧
      (Order.OrderDesc = Order.OrderDesc → 1 = 1 → 0 = 0 →
        page.map (fun x => x.Rank) = [(exampleMutated.rulesOf "default" "flag").length] ∧
        next.Results.map (fun x => x.Rank) =
          [(exampleMutated.rulesOf "default" "flag").length - 1]) :=
  ListRules_next_page exampleCodec exampleDatabase exampleMutations exampleMutated
    "default" "flag" { Limit := 1, Order := Order.OrderDesc } 0 rfl (by decide) (by decide)
    (Or.inl ⟨rfl, rfl⟩) (by decide)

/-! ### The full walk -/

/-- The loop of the full walk, entered after the first `k` rules were found,
ends with all the rules of the flag in ascending rank order when the bound
leaves room for the pages to come. -/
theorem fullWalkLoop_complete (codec : PageCodec) (db : Database)
    (namespaceKey flagKey : String) (pageSize : Nat) (hsize : 1 ≤ pageSize) :
    ∀ (fuel k : Nat) (token : String),
      ((token = "" ∧ (db.rulesInOrder namespaceKey flagKey Order.OrderAsc).length ≤ k) ∨
        (∃ key, token = codec.encode ⟨key, k⟩ ∧
          k < (db.rulesInOrder namespaceKey flagKey Order.OrderAsc).length)) →
      0 < fuel →
      (db.rulesInOrder namespaceKey flagKey Order.OrderAsc).length < k + fuel →
      fullWalkLoop codec db namespaceKey flagKey pageSize fuel token
        ((db.rulesInOrder namespaceKey flagKey Order.OrderAsc).take k) =
        some (Except.ok (db.rulesInOrder namespaceKey flagKey Order.OrderAsc)) := by
  intro fuel
  induction fuel with
  | zero =>
    intro k token _ hpos
    exact absurd hpos (Nat.lt_irrefl 0)
  | succ fuel ih =>
    intro k token htoken _ hfuel
    rcases htoken with ⟨hempty, hk⟩ | ⟨key, hkey, hk⟩
    · simp only [fullWalkLoop, if_pos hempty, List.take_of_length_le hk]
    · have hne : token ≠ "" := by
        rw [hkey]
        exact codec.encode_ne_empty _
      have hpage := ListRules_page codec db namespaceKey flagKey
        { Limit := pageSize, PageToken := token } k (by simpa using Nat.ne_of_gt hsize)
        (Or.inr ⟨⟨key, k⟩, hkey, by simp⟩)
      dsimp only at hpage
      simp only [fullWalkLoop, if_neg hne, hpage]
      rw [← List.take_add]
      apply ih (k + pageSize)
      · by_cases hmore : pageSize <
            ((db.rulesInOrder namespaceKey flagKey Order.OrderAsc).drop k).length
        · right
          rw [if_pos hmore]
          have hlen : (((db.rulesInOrder namespaceKey flagKey Order.OrderAsc).drop k).take
              pageSize).length = pageSize := by
            rw [List.length_take]
            omega
          rw [List.length_drop] at hmore
          rw [hlen]
          exact ⟨_, rfl, by omega⟩
        · left
          rw [if_neg hmore]
          rw [List.length_drop] at hmore
          exact ⟨rfl, by omega⟩
      · omega
      · omega

/-- C15: for the rules created on a flag (whatever the successful mutations
that led to them) and every page size P ≥ 1, the walk of
`TestListRulesPagination_FullWalk` (`ListRules` with limit P, then again with
each non-empty next page token until the token is empty) ends, given a bound
above the number of rules, and yields in concatenation exactly the rules of the
flag, each once, in ascending rank order 1..N. -/
theorem fullWalk_lists_every_rule (codec : PageCodec) (db0 : Database) (ms : List Mutation)
    (db : Database) (namespaceKey flagKey : String) (pageSize fuel : Nat)
    (h0 : db0.rules = []) (hrun : applySuccessful db0 ms = some db)
    (hsize : 1 ≤ pageSize) (hfuel : (db.rulesOf namespaceKey flagKey).length < fuel) :
    ∃ found : List Rule,
      fullWalk codec db namespaceKey flagKey pageSize fuel = some (Except.ok found) ∧
      found.Perm (db.rulesOf namespaceKey flagKey) ∧
      found.Nodup ∧
      found.length = (db.rulesOf namespaceKey flagKey).length ∧
      found.map (fun x => x.Rank) = List.range' 1 (db.rulesOf namespaceKey flagKey).length := by
  have hwf : WellFormed db :=
    WellFormed_applySuccessful ms db0 db (WellFormed_of_no_rules db0 h0) hrun
  have hranks := rulesInOrder_asc_ranks db namespaceKey flagKey (hwf.2.2 namespaceKey flagKey)
  have hp := rulesInOrder_perm db namespaceKey flagKey Order.OrderAsc
  have hlen := rulesInOrder_length db namespaceKey flagKey Order.OrderAsc
  refine ⟨db.rulesInOrder namespaceKey flagKey Order.OrderAsc, ?_, hp, ?_, hlen, hranks⟩
  · have hpage := ListRules_page codec db namespaceKey flagKey { Limit := pageSize } 0
      (by simpa using Nat.ne_of_gt hsize) (Or.inl ⟨rfl, rfl⟩)
    dsimp only at hpage
    simp only [fullWalk, hpage, List.drop_zero]
    apply fullWalkLoop_complete codec db namespaceKey flagKey pageSize hsize fuel pageSize
    · by_cases hmore : pageSize < (db.rulesInOrder namespaceKey flagKey Order.OrderAsc).length
      · right
        rw [if_pos hmore]
        have hlen1 : ((db.rulesInOrder namespaceKey flagKey Order.OrderAsc).take
            pageSize).length = pageSize := by
          rw [List.length_take]
          omega
        rw [hlen1, Nat.zero_add]
        exact ⟨_, rfl, hmore⟩
      · left
        rw [if_neg hmore]
        exact ⟨rfl, by omega⟩
    · omega
    · omega
  · apply List.Nodup.of_map (fun x : Rule => x.Rank)
    rw [hranks]
    exact List.nodup_range' 1 _

/-- Witness of C15: the rules of the example flag after the example mutations,
walked with pages of two rules. -/
theorem fullWalk_lists_every_rule_witness :
    ∃ found : List Rule,
      fullWalk exampleCodec exampleMutated "default" "flag" 2 4 = some (Except.ok found) ∧
      found.Perm (exampleMutated.rulesOf "default" "flag") ∧
      found.Nodup ∧
      found.length = (exampleMutated.rulesOf "default" "flag").length ∧
      found.map (fun x => x.Rank) =
        List.range' 1 (exampleMutated.rulesOf "default" "flag").length :=
  fullWalk_lists_every_rule exampleCodec exampleDatabase exampleMutations exampleMutated
    "default" "flag" 2 4 rfl (by decide) (by decide) (by decide)

/-! ### Rollouts -/

/-- C21: for every namespace key and flag key, and whatever the store contains,
`GetEvaluationRollouts` returns an empty list of rollouts that is not nil, and
a nil error; the result is the same for every store, also one whose statements
all fail, so it does not depend on anything read from storage. -/
theorem GetEvaluationRollouts_empty (s : Store) (namespaceKey flagKey : String) :
    GetEvaluationRollouts s namespaceKey flagKey = (Slice.items [], none) ∧
    (GetEvaluationRollouts s namespaceKey flagKey).1.toList = [] ∧
    (GetEvaluationRollouts s namespaceKey flagKey).1.len = 0 ∧
    (GetEvaluationRollouts s namespaceKey flagKey).1.isNil = false ∧
    (GetEvaluationRollouts s namespaceKey flagKey).1 ≠ Slice.null ∧
    (GetEvaluationRollouts s namespaceKey flagKey).2 = none ∧
    (∀ (other : Store) (otherNamespace otherFlag : String),
      GetEvaluationRollouts other otherNamespace otherFlag =
        GetEvaluationRollouts s namespaceKey flagKey) ∧
    (∀ err : Error,
      GetEvaluationRollouts
        { QueryRules := fun _ => Except.error err
          QueryDistributions := fun _ => Except.error err } namespaceKey flagKey =
        (Slice.items [], none)) := by
  refine ⟨rfl, rfl, rfl, rfl, ?_, rfl, fun _ _ _ => rfl, fun _ => rfl⟩
  intro h
  cases h

end Flipt
